import Mathlib

/-!
Verification of the ComfyUI asset-registry core against its natural-language
specification.

The development shallowly embeds the relational store and the operations of
`app/assets` (bulk ingest, cache-state upsert/restore, filesystem reconcile,
the FAST seed pipeline, register-by-hash / upload, the hash HEAD endpoint and
the listing order) as pure Lean functions over an explicit database value.

Conventions of the embedding:
* primary keys (asset ids, reference ids, cache-state ids) are natural numbers
  drawn from a `nextId` counter held in the database value; the Python code
  draws fresh UUIDs (`uuid.uuid4()`), which we model as fresh counter values;
* file paths, hashes, names and tags are `String`s; `os.path.abspath` is the
  identity on the already-absolute paths handled here;
* `mtime_ns` is an `Option Int` (a nullable integer column);
* timestamps (`created_at`, `updated_at`, `last_access_time`) are omitted from
  the row model: no claim under consideration mentions their values, except the
  listing order, which is modelled separately over its own row view;
* a SQLAlchemy session that raises before `commit` is modelled by `Except`:
  the error branch returns no new database value.
-/

namespace Assets

/-- An `assets` table row (`Asset` model): content identity.  `hash = none`
denotes a stub asset. -/
structure Asset where
  id : Nat
  hash : Option String
  sizeBytes : Nat
  mimeType : Option String
  deriving Repr, DecidableEq

/-- An `asset_cache_state` table row (`AssetCacheState` model): a binding
between an asset and an absolute file path. -/
structure CState where
  id : Nat
  assetId : Nat
  filePath : String
  mtimeNs : Option Int
  needsVerify : Bool
  isMissing : Bool
  deriving Repr, DecidableEq

/-- Metadata values reaching the projection rows in the embedded code paths
are strings (the `filename` key and pre-extracted string metadata), so the
`val_str`/`val_num`/`val_bool`/`val_json` column group is modelled at string
granularity. -/
structure MetaRow where
  infoId : Nat
  key : String
  ordinal : Nat
  valStr : Option String
  deriving Repr, DecidableEq

/-- An `assets_info` table row (`AssetInfo` model): a named, owned reference
to an asset. -/
structure Info where
  id : Nat
  ownerId : String
  name : String
  assetId : Nat
  userMetadata : Option (List (String × String))
  deriving Repr, DecidableEq

/-- An `asset_info_tags` table row (`AssetInfoTag` model). -/
structure TagRow where
  infoId : Nat
  tagName : String
  origin : String
  deriving Repr, DecidableEq

/-- A `tags` table row (`Tag` model). -/
structure TagDef where
  name : String
  tagType : String
  deriving Repr, DecidableEq

/-- The relational store: one list per table plus the fresh-id supply. -/
structure DB where
  assets : List Asset
  cacheStates : List CState
  infos : List Info
  infoTags : List TagRow
  infoMeta : List MetaRow
  tags : List TagDef
  nextId : Nat
  deriving Repr, DecidableEq

/-- The empty database. -/
def DB.empty : DB := ⟨[], [], [], [], [], [], 0⟩

/-! ### Query layer: `database/queries/cache_state.py` -/

/-- The WHERE clause of the UPDATE inside `upsert_cache_state`: the row at
`file_path` whose `asset_id`, `mtime_ns` or `is_missing` differs from the
requested values. -/
def upsertHits (assetId : Nat) (filePath : String) (mtimeNs : Int)
    (s : CState) : Bool :=
  s.filePath = filePath ∧
    (s.assetId ≠ assetId ∨ s.mtimeNs = none ∨ s.mtimeNs ≠ some mtimeNs ∨
      s.isMissing = true)

/-- `upsert_cache_state(session, asset_id, file_path, mtime_ns)`:
INSERT .. ON CONFLICT (file_path) DO NOTHING, and if the insert did not land
(`rowcount = 0`), UPDATE the row at `file_path` when its `asset_id`,
`mtime_ns` or `is_missing` differs from the requested values (the UPDATE also
clears `is_missing`).  Returns `(db, created, updated)`. -/
def upsert_cache_state (db : DB) (assetId : Nat) (filePath : String)
    (mtimeNs : Int) : DB × Bool × Bool :=
  if db.cacheStates.any (fun s => s.filePath = filePath) then
    let updated := db.cacheStates.any (upsertHits assetId filePath mtimeNs)
    let states := db.cacheStates.map (fun s =>
      if upsertHits assetId filePath mtimeNs s then
        { s with assetId := assetId, mtimeNs := some mtimeNs, isMissing := false }
      else s)
    ({ db with cacheStates := states }, false, updated)
  else
    let row : CState :=
      ⟨db.nextId, assetId, filePath, some mtimeNs, false, false⟩
    ({ db with cacheStates := db.cacheStates ++ [row], nextId := db.nextId + 1 },
      true, false)

/-- `restore_cache_states_by_paths(session, file_paths)`: clear `is_missing`
on every row whose `file_path` is listed. -/
def restore_cache_states_by_paths (db : DB) (filePaths : List String) : DB :=
  { db with cacheStates := db.cacheStates.map (fun s =>
      if s.filePath ∈ filePaths ∧ s.isMissing then { s with isMissing := false }
      else s) }

/-- Character-list prefix test (`String.isPrefixOf` does not reduce in the
kernel). -/
def listIsPrefixOf : List Char → List Char → Bool
  | [], _ => true
  | _ :: _, [] => false
  | a :: as, b :: bs => a = b && listIsPrefixOf as bs

/-- The SQL `file_path LIKE <dir> || '/' || '%'` test used by the queries that
restrict rows to a set of base directories. -/
def pathUnderAny (pres : List String) (p : String) : Bool :=
  pres.any (fun b =>
    let base := if b.data.getLast? = some '/' then b else b ++ "/"
    listIsPrefixOf base.data p.data)

/-- `mark_cache_states_missing_outside_prefixes(session, valid_prefixes)`:
flip `is_missing` on every active row whose path starts with none of the
listed directory paths followed by the separator. -/
def mark_cache_states_missing_outside_prefixes (db : DB)
    (validPres : List String) : DB × Nat :=
  if validPres = [] then (db, 0)
  else
    let hit : CState → Bool := fun s =>
      ¬ pathUnderAny validPres s.filePath ∧ s.isMissing = false
    let n := (db.cacheStates.filter hit).length
    ({ db with cacheStates := db.cacheStates.map (fun s =>
        if hit s then { s with isMissing := true } else s) }, n)

/-! ### API layer: `api/routes.py` (hash HEAD endpoint) -/

/-- `c in "0123456789abcdef"`. -/
def isLowerHexDigit (c : Char) : Bool :=
  "0123456789abcdef".data.contains c

/-- Modelled from the spec: `asset_exists(hash)` (the asset query module is
not under `src/`; the spec gives "asset_exists(hash) → boolean" with `hash`
unique across assets). -/
def asset_exists (db : DB) (h : String) : Bool :=
  db.assets.any (fun a => a.hash = some h)

/-- The canonical hash form stated by the specification: lowercase
`"blake3:"` followed by exactly 64 lowercase hexadecimal digits. -/
def isCanonicalHash (h : String) : Bool :=
  h.data.take 7 = "blake3:".data ∧ h.data.length = 71 ∧
    (h.data.drop 7).all isLowerHexDigit

/-- The validity test `head_asset_by_hash` actually performs on the
normalized string: it must contain a colon, the part before the first colon
must be `blake3`, and the part after it must be nonempty lowercase hex of
ANY length. -/
def laxValidHash (d : List Char) : Prop :=
  ∃ tl : List Char, d = "blake3:".data ++ tl ∧ tl ≠ [] ∧
    ∀ c ∈ tl, isLowerHexDigit c = true

/-- Python `s.strip().lower()`: drop leading and trailing whitespace, then
lowercase every character. -/
def normalizeHashString (h : String) : String :=
  ⟨(((h.data.dropWhile Char.isWhitespace).reverse.dropWhile
      Char.isWhitespace).reverse).map Char.toLower⟩

/-- `HEAD /api/assets/hash/{hash}` (`head_asset_by_hash` in
`api/routes.py`): lowercase and strip the path parameter, reject (400) when
it has no colon, a scheme other than `blake3`, an empty digest or a non-hex
digest character, and otherwise answer 200/404 from `asset_exists`.  The
string operations `split(":", 1)` and the hex scan are modelled on the
character list of the normalized string. -/
def headHashCore (db : DB) (n : String) : Nat :=
  if n.data = [] ∨ ':' ∉ n.data then 400
  else if n.data.takeWhile (fun c => c ≠ ':') ≠ "blake3".data ∨
      (n.data.dropWhile (fun c => c ≠ ':')).drop 1 = [] ∨
      ((n.data.dropWhile (fun c => c ≠ ':')).drop 1).any
        (fun c => ¬ isLowerHexDigit c) then 400
  else if asset_exists db n then 200 else 404

def head_asset_by_hash (db : DB) (h : String) : Nat :=
  headHashCore db (normalizeHashString h)

/-! ### Query layer: bulk insert primitives
(`cache_state.py`, `asset_info.py`, `tags.py`; the plain-asset module is not
under `src/` and is modelled from the spec where noted). -/

/-- Modelled from the spec: `bulk_insert_assets(session, rows)` — §4.3 step 1
emits the freshly-built asset rows with a plain bulk INSERT. -/
def bulk_insert_assets (db : DB) (rows : List Asset) : DB :=
  { db with assets := db.assets ++ rows }

/-- Row data handed to `bulk_insert_cache_states_ignore_conflicts`. -/
structure CacheRowData where
  assetId : Nat
  filePath : String
  mtimeNs : Int
  deriving Repr, DecidableEq

/-- `bulk_insert_cache_states_ignore_conflicts(session, rows)`: INSERT .. ON
CONFLICT (file_path) DO NOTHING, row by row in order; `is_missing` is set
false on every row that lands; row ids are drawn from the id supply.  The
bind-parameter chunking does not change which rows land and is not
modelled. -/
def bulk_insert_cache_states_ignore_conflicts (db : DB)
    (rows : List CacheRowData) : DB :=
  rows.foldl (fun acc r =>
    if acc.cacheStates.any (fun s => s.filePath = r.filePath) then acc
    else { acc with
      cacheStates := acc.cacheStates ++
        [⟨acc.nextId, r.assetId, r.filePath, some r.mtimeNs, false, false⟩],
      nextId := acc.nextId + 1 }) db

/-- `get_cache_states_by_paths_and_asset_ids(session, path_to_asset)`: the
set of listed paths whose current cache-state row carries one of the listed
asset ids (`file_path IN (..) AND asset_id IN (..)`). -/
def get_cache_states_by_paths_and_asset_ids (db : DB)
    (pathToAsset : List (String × Nat)) : List String :=
  (pathToAsset.map Prod.fst).filter (fun p =>
    db.cacheStates.any (fun s =>
      s.filePath = p ∧ s.assetId ∈ pathToAsset.map Prod.snd))

/-- `delete_assets_by_ids(session, ids)`: delete the AssetInfo rows whose
`asset_id` is listed, then the Asset rows.  The FK
`asset_id → assets.id` carries `ON DELETE CASCADE` (modelled from the
migration and spec §3 invariant 2, the model module being outside `src/`),
so dependent cache-state rows disappear with their asset and tag/metadata
rows with their reference. -/
def delete_assets_by_ids (db : DB) (ids : List Nat) : DB :=
  if ids = [] then db
  else
    let deadInfos := (db.infos.filter (fun i => i.assetId ∈ ids)).map Info.id
    { db with
      infos := db.infos.filter (fun i => i.assetId ∉ ids),
      assets := db.assets.filter (fun a => a.id ∉ ids),
      cacheStates := db.cacheStates.filter (fun s => s.assetId ∉ ids),
      infoTags := db.infoTags.filter (fun t => t.infoId ∉ deadInfos),
      infoMeta := db.infoMeta.filter (fun m => m.infoId ∉ deadInfos) }

/-- `bulk_insert_asset_infos_ignore_conflicts(session, rows)`: INSERT .. ON
CONFLICT (asset_id, owner_id, name) DO NOTHING, in order. -/
def bulk_insert_asset_infos_ignore_conflicts (db : DB) (rows : List Info) :
    DB :=
  { db with infos := rows.foldl (fun acc r =>
      if acc.any (fun i => i.assetId = r.assetId ∧ i.ownerId = r.ownerId ∧
          i.name = r.name) then acc
      else acc ++ [r]) db.infos }

/-- `get_asset_info_ids_by_ids(session, info_ids)`: which of the listed
reference ids actually exist. -/
def get_asset_info_ids_by_ids (db : DB) (ids : List Nat) : List Nat :=
  ids.filter (fun i => db.infos.any (fun info => info.id = i))

/-- `bulk_insert_tags_and_meta(session, tag_rows, meta_rows)`: conflict-
ignoring inserts on `(asset_info_id, tag_name)` and
`(asset_info_id, key, ordinal)`. -/
def bulk_insert_tags_and_meta (db : DB) (tagRows : List TagRow)
    (metaRows : List MetaRow) : DB :=
  { db with
    infoTags := tagRows.foldl (fun acc r =>
      if acc.any (fun t => t.infoId = r.infoId ∧ t.tagName = r.tagName) then
        acc
      else acc ++ [r]) db.infoTags,
    infoMeta := metaRows.foldl (fun acc r =>
      if acc.any (fun m => m.infoId = r.infoId ∧ m.key = r.key ∧
          m.ordinal = r.ordinal) then acc
      else acc ++ [r]) db.infoMeta }

/-- `ensure_tags_exist(session, names, tag_type)`: conflict-ignoring insert
into the tag dictionary (tag-name normalization lives in a helper module
outside `src/` and is not modelled; names are stored as given). -/
def ensure_tags_exist (db : DB) (names : List String) (tagType : String) :
    DB :=
  { db with tags := names.foldl (fun acc nm =>
      if acc.any (fun t => t.name = nm) then acc
      else acc ++ [⟨nm, tagType⟩]) db.tags }

/-! ### Bulk ingest engine: `services/bulk_ingest.py`, `batch_insert_seed_assets` -/

/-- One `SeedAssetSpec` (`abs_path` is already absolute and normalized; the
Python `fname` is a string whose emptiness plays the falsy test; `metadata`
stands for the `ExtractedMetadata.to_user_metadata()` dictionary, string
valued in the embedded paths). -/
structure SeedSpec where
  absPath : String
  sizeBytes : Nat
  mtimeNs : Int
  infoName : String
  tags : List String
  fname : String
  metadata : Option (List (String × String))
  hash : Option String
  deriving Repr, DecidableEq

/-- Result counts of `batch_insert_seed_assets`. -/
structure BulkInsertResult where
  insertedInfos : Nat
  wonStates : Nat
  lostStates : Nat
  deriving Repr, DecidableEq

/-- The per-spec loop of `batch_insert_seed_assets`: each spec draws a fresh
asset UUID (even ids from the supply; the matching reference UUID is the
odd id one above it). -/
def seedPairs (base : Nat) : List SeedSpec → List (Nat × SeedSpec)
  | [] => []
  | sp :: rest => (base, sp) :: seedPairs (base + 2) rest

/-- One step of building the Python dict `path_to_asset_id`
(later assignment to the same key wins). -/
def upsertAssoc (l : List (String × Nat)) (k : String) (v : Nat) :
    List (String × Nat) :=
  if l.any (fun kv => kv.1 = k) then
    l.map (fun kv => if kv.1 = k then (k, v) else kv)
  else l ++ [(k, v)]

/-- `path_to_asset_id[path]`. -/
def assocLookup (l : List (String × Nat)) (k : String) : Option Nat :=
  (l.find? (fun kv => kv.1 = k)).map Prod.snd

/-- The `asset_id_to_info[asset_id]` row built in the loop (user metadata
from extracted metadata, else the filename, else NULL). -/
def seedInfoFor (ownerId : String) (w : Nat × SeedSpec) : Info :=
  ⟨w.1 + 1, ownerId, w.2.infoName, w.1,
    match w.2.metadata with
    | some md => some md
    | none =>
      if w.2.fname ≠ "" then some [("filename", w.2.fname)] else none⟩

/-- The metadata projection rows step 8 emits for one landed reference:
`ExtractedMetadata.to_meta_rows` (module outside `src/`, modelled as one
string row per key) or the filename fallback row. -/
def seedMetaRows (infoId : Nat) (sp : SeedSpec) : List MetaRow :=
  match sp.metadata with
  | some md => md.map (fun kv => ⟨infoId, kv.1, 0, some kv.2⟩)
  | none =>
    if sp.fname ≠ "" then [⟨infoId, "filename", 0, some sp.fname⟩] else []

/-- `path_to_asset_id` as built by the loop. -/
def seedPathToAsset (db : DB) (specs : List SeedSpec) : List (String × Nat) :=
  (seedPairs db.nextId specs).foldl
    (fun acc w => upsertAssoc acc w.2.absPath w.1) []

/-- Steps 1–2 of the transaction: bulk-insert the asset rows, then claim the
cache states with conflict-ignore. -/
def seedPhase2 (db : DB) (specs : List SeedSpec) : DB :=
  let base := db.nextId
  let prs := seedPairs base specs
  let db0 := { db with nextId := base + 2 * specs.length }
  let db1 := bulk_insert_assets db0
    (prs.map (fun w => ⟨w.1, w.2.hash, w.2.sizeBytes, none⟩))
  bulk_insert_cache_states_ignore_conflicts db1
    (prs.map (fun w => ⟨w.1, w.2.absPath, w.2.mtimeNs⟩))

/-- The `restore_cache_states_by_paths(session, absolute_path_list)` call the
code places on the whole batch, before winners are resolved. -/
def seedPhase3 (db : DB) (specs : List SeedSpec) : DB :=
  restore_cache_states_by_paths (seedPhase2 db specs)
    (specs.map (fun sp => sp.absPath))

/-- Step 3: the winner query, evaluated on the post-restore state. -/
def seedWinners (db : DB) (specs : List SeedSpec) : List String :=
  get_cache_states_by_paths_and_asset_ids (seedPhase3 db specs)
    (seedPathToAsset db specs)

/-- `all_paths_set - winning_paths`. -/
def seedLosers (db : DB) (specs : List SeedSpec) : List String :=
  ((seedPathToAsset db specs).map Prod.fst).filter
    (fun p => p ∉ seedWinners db specs)

/-- Step 4 input: the asset ids of the loser paths
(`[path_to_asset_id[path] for path in losing_paths]`). -/
def seedLostIds (db : DB) (specs : List SeedSpec) : List Nat :=
  (seedLosers db specs).filterMap
    (fun p => assocLookup (seedPathToAsset db specs) p)

/-- Step 4: delete the loser assets. -/
def seedDb4 (db : DB) (specs : List SeedSpec) : DB :=
  delete_assets_by_ids (seedPhase3 db specs) (seedLostIds db specs)

/-- Step 5 input: `[asset_id_to_info[path_to_asset_id[p]] for p in winning]`,
each info kept with its originating spec for the later tag/metadata rows. -/
def seedWinnerRows (db : DB) (specs : List SeedSpec) (ownerId : String) :
    List (Info × SeedSpec) :=
  (seedWinners db specs).filterMap (fun p =>
    (assocLookup (seedPathToAsset db specs) p).bind (fun aid =>
      ((seedPairs db.nextId specs).find? (fun w => w.1 = aid)).map
        (fun w => (seedInfoFor ownerId w, w.2))))

/-- Step 5: insert the winner references with conflict-ignore. -/
def seedDb5 (db : DB) (specs : List SeedSpec) (ownerId : String) : DB :=
  bulk_insert_asset_infos_ignore_conflicts (seedDb4 db specs)
    ((seedWinnerRows db specs ownerId).map Prod.fst)

/-- Step 7: which of our reference ids actually landed. -/
def seedInsertedIds (db : DB) (specs : List SeedSpec) (ownerId : String) :
    List Nat :=
  get_asset_info_ids_by_ids (seedDb5 db specs ownerId)
    ((seedWinnerRows db specs ownerId).map (fun wr => wr.1.id))

/-- Step 8 rows: tags for the landed references. -/
def seedTagRows (db : DB) (specs : List SeedSpec) (ownerId : String) :
    List TagRow :=
  (seedWinnerRows db specs ownerId).foldl (fun acc wr =>
    if wr.1.id ∈ seedInsertedIds db specs ownerId then
      acc ++ wr.2.tags.map (fun t => (⟨wr.1.id, t, "automatic"⟩ : TagRow))
    else acc) []

/-- Step 8 rows: metadata projection for the landed references. -/
def seedMetaAll (db : DB) (specs : List SeedSpec) (ownerId : String) :
    List MetaRow :=
  (seedWinnerRows db specs ownerId).foldl (fun acc wr =>
    if wr.1.id ∈ seedInsertedIds db specs ownerId then
      acc ++ seedMetaRows wr.1.id wr.2
    else acc) []

/-- Step 8: insert the tag and metadata rows. -/
def seedDb6 (db : DB) (specs : List SeedSpec) (ownerId : String) : DB :=
  bulk_insert_tags_and_meta (seedDb5 db specs ownerId)
    (seedTagRows db specs ownerId) (seedMetaAll db specs ownerId)

/-- `batch_insert_seed_assets(session, specs, owner_id)`
(`services/bulk_ingest.py`): the single-transaction bulk ingest — insert
assets, claim cache states (conflict-ignore), restore the batch paths, query
winners, delete loser assets, insert winner references (conflict-ignore),
find which landed, and emit their tag and metadata rows. -/
def batch_insert_seed_assets (db : DB) (specs : List SeedSpec)
    (ownerId : String) : DB × BulkInsertResult :=
  if specs = [] then (db, ⟨0, 0, 0⟩)
  else if seedWinners db specs = [] then
    (seedDb4 db specs, ⟨0, 0, (seedLosers db specs).length⟩)
  else
    (seedDb6 db specs ownerId,
      ⟨(seedInsertedIds db specs ownerId).length,
        (seedWinners db specs).length, (seedLosers db specs).length⟩)

/-! ### Ingest service: `services/ingest.py`
(`upload_from_temp_path`, `register_existing_asset`, `create_from_hash`).

External collaborators that live outside `src/` (the hashing helper, the
folder-resolution and path helpers in `path_utils.py`/`helpers.py`, `os` and
`mimetypes`) are collected in an `Env` of oracle functions. -/

/-- Oracles for the collaborators outside `src/`. -/
structure Env where
  hashFile : String → Option String
  fsExists : String → Bool
  relFname : String → Option String
  resolveDest : Option (List String) → String × List String
  validWithin : String → String → Bool
  statOf : String → Option (Nat × Int)
  extOf : String → String
  guessType : String → Option String

/-- Python `s.strip()` on character lists. -/
def stripString (s : String) : String :=
  ⟨((s.data.dropWhile Char.isWhitespace).reverse.dropWhile
      Char.isWhitespace).reverse⟩

/-- `os.path.basename` for POSIX paths: the part after the last slash. -/
def lastPathComponent (s : String) : String :=
  ⟨(s.data.reverse.takeWhile (fun c => c ≠ '/')).reverse⟩

/-- `_sanitize_filename(name, fallback)`:
`n = os.path.basename((name or "").strip() or fallback); n if n else
fallback`. -/
def sanitizeFilename (name : Option String) (fallback : String) : String :=
  let n0 := stripString (name.getD "")
  let base := lastPathComponent (if n0 = "" then fallback else n0)
  if base = "" then fallback else base

/-- Python `a or b` on optional strings (empty string is falsy). -/
def pyOr (a b : Option String) : Option String :=
  match a with
  | some s => if s = "" then b else some s
  | none => b

/-- `canonical.split(":", 1)[1] if ":" in canonical else canonical`. -/
def afterColon (s : String) : String :=
  if ':' ∈ s.data then ⟨(s.data.dropWhile (fun c => c ≠ ':')).drop 1⟩ else s

/-- Python dict assignment `d[k] = v` on an association list. -/
def upsertKV (l : List (String × String)) (k v : String) :
    List (String × String) :=
  if l.any (fun kv => kv.1 = k) then
    l.map (fun kv => if kv.1 = k then (k, v) else kv)
  else l ++ [(k, v)]

/-- Modelled from the spec: `get_asset_by_hash(session, asset_hash)` — the
unique Asset row with that hash (asset query module not under `src/`). -/
def get_asset_by_hash (db : DB) (h : String) : Option Asset :=
  db.assets.find? (fun a => a.hash = some h)

/-- Modelled from the spec: `upsert_asset(session, asset_hash, size_bytes,
mime_type)` — get or create the unique Asset row for a hash, refreshing size
and mime type; returns `(db, asset, created, updated)` (asset query module
not under `src/`). -/
def upsert_asset (db : DB) (h : String) (size : Nat) (mime : Option String) :
    DB × Asset × Bool × Bool :=
  match db.assets.find? (fun a => a.hash = some h) with
  | some a =>
    if a.sizeBytes = size ∧ a.mimeType = mime then (db, a, false, false)
    else
      let a2 := { a with sizeBytes := size, mimeType := mime }
      let as2 := db.assets.map (fun x => if x.id = a.id then a2 else x)
      ({ db with assets := as2 }, a2, false, true)
  | none =>
    let a : Asset := ⟨db.nextId, some h, size, mime⟩
    ({ db with assets := db.assets ++ [a], nextId := db.nextId + 1 },
      a, true, false)

/-- `get_or_create_asset_info(session, asset_id, owner_id, name)`: try the
insert, and on a `(asset_id, owner_id, name)` conflict return the existing
row; returns `(db, info, created)`. -/
def get_or_create_asset_info (db : DB) (assetId : Nat)
    (ownerId name : String) : DB × Info × Bool :=
  match db.infos.find? (fun i => i.assetId = assetId ∧ i.ownerId = ownerId ∧
      i.name = name) with
  | some i => (db, i, false)
  | none =>
    let info : Info := ⟨db.nextId, ownerId, name, assetId, none⟩
    ({ db with infos := db.infos ++ [info], nextId := db.nextId + 1 },
      info, true)

/-- `get_asset_tags(session, asset_info_id)`. -/
def get_asset_tags (db : DB) (infoId : Nat) : List String :=
  (db.infoTags.filter (fun t => t.infoId = infoId)).map (fun t => t.tagName)

/-- `set_asset_info_metadata(session, asset_info_id, user_metadata)`: write
the JSON column and rewrite the projection rows of this reference in one
step (string-valued metadata in the embedded paths). -/
def set_asset_info_metadata (db : DB) (infoId : Nat)
    (md : List (String × String)) : DB :=
  { db with
    infos := db.infos.map (fun i =>
      if i.id = infoId then { i with userMetadata := some md } else i),
    infoMeta := (db.infoMeta.filter (fun m => m.infoId ≠ infoId)) ++
      md.map (fun kv => ⟨infoId, kv.1, 0, some kv.2⟩) }

/-- `set_asset_info_tags(session, asset_info_id, tags, origin)`: diff the
desired set against the current one, add the missing pairs (creating tag
dictionary rows) and delete the extra ones.  The tag normalizer lives
outside `src/`; its deduplication is modelled by `eraseDups`. -/
def set_asset_info_tags (db : DB) (infoId : Nat) (tags : List String)
    (origin : String) : DB :=
  let desired := tags.eraseDups
  let current := (db.infoTags.filter (fun t => t.infoId = infoId)).map
    (fun t => t.tagName)
  let toAdd := desired.filter (fun t => t ∉ current)
  let toRemove := current.filter (fun t => t ∉ desired)
  let db1 := if toAdd ≠ [] then ensure_tags_exist db toAdd "user" else db
  let added := toAdd.map (fun t => (⟨infoId, t, origin⟩ : TagRow))
  let db2 := { db1 with infoTags := db1.infoTags ++ added }
  { db2 with infoTags := db2.infoTags.filter (fun t =>
      ¬ (t.infoId = infoId ∧ t.tagName ∈ toRemove)) }

/-- `add_tags_to_asset_info(session, asset_info_id, tags, origin,
create_if_missing=True)` as exercised by `ingest_file_from_path`. -/
def add_tags_to_asset_info (db : DB) (infoId : Nat) (tags : List String)
    (origin : String) : DB :=
  let norm := tags.eraseDups
  let db1 := ensure_tags_exist db norm "user"
  let current := (db1.infoTags.filter (fun t => t.infoId = infoId)).map
    (fun t => t.tagName)
  let added := (norm.filter (fun t => t ∉ current)).map
    (fun t => (⟨infoId, t, origin⟩ : TagRow))
  { db1 with infoTags := db1.infoTags ++ added }

/-- `remove_missing_tag_for_asset_id(session, asset_id)`. -/
def remove_missing_tag_for_asset_id (db : DB) (assetId : Nat) : DB :=
  { db with infoTags := db.infoTags.filter (fun t =>
      ¬ (t.tagName = "missing" ∧ db.infos.any
        (fun i => i.id = t.infoId ∧ i.assetId = assetId))) }

/-- `list_cache_states_by_asset_id(session, asset_id)` (ordered by id in the
store; the insertion order of the embedding stands in for it). -/
def list_cache_states_by_asset_id (db : DB) (assetId : Nat) : List CState :=
  db.cacheStates.filter (fun s => s.assetId = assetId)

/-- Modelled from the spec §4.6: `select_best_live_path` (helpers module not
under `src/`): prefer a state with `needs_verify = false` that exists on
disk; fall back to the first existing one. -/
def select_best_live_path (env : Env) (states : List CState) :
    Option String :=
  match states.find? (fun s => s.needsVerify = false ∧
      env.fsExists s.filePath) with
  | some s => some s.filePath
  | none => (states.find? (fun s => env.fsExists s.filePath)).map
      (fun s => s.filePath)

/-- `_compute_filename_for_asset`. -/
def computeFilenameForAsset (env : Env) (db : DB) (assetId : Nat) :
    Option String :=
  (select_best_live_path env (list_cache_states_by_asset_id db assetId)).bind
    env.relFname

/-- The outcome record shared by `register_existing_asset`,
`create_from_hash` and `upload_from_temp_path` (plain data, no handles). -/
structure RegisterResult where
  infoId : Nat
  assetId : Nat
  created : Bool
  tags : List String
  deriving Repr, DecidableEq

/-- `register_existing_asset(asset_hash, name, user_metadata, tags,
tag_origin, owner_id)`: raise (`.error`) on an unknown hash; return the
existing reference untouched when the `(asset_id, owner_id, name)` row
already exists; otherwise create it, write its metadata (with the computed
filename) and set its tags. -/
def registerNewRefDb (env : Env) (db1 : DB) (assetId infoId : Nat)
    (um : List (String × String)) (tags : Option (List String))
    (origin : String) : DB :=
  let newMeta := match computeFilenameForAsset env db1 assetId with
    | some fn => upsertKV um "filename" fn
    | none => um
  let db2 := if newMeta ≠ [] then
    set_asset_info_metadata db1 infoId newMeta else db1
  match tags with
  | some ts => set_asset_info_tags db2 infoId ts origin
  | none => db2

def register_existing_asset (env : Env) (db : DB) (assetHash name : String)
    (um : List (String × String)) (tags : Option (List String))
    (origin ownerId : String) : Except Unit (DB × RegisterResult) :=
  match get_asset_by_hash db assetHash with
  | none => .error ()
  | some asset =>
    let r1 := get_or_create_asset_info db asset.id ownerId name
    if r1.2.2 = false then
      .ok (r1.1, ⟨r1.2.1.id, asset.id, false, get_asset_tags r1.1 r1.2.1.id⟩)
    else
      let db3 := registerNewRefDb env r1.1 asset.id r1.2.1.id um tags origin
      .ok (db3, ⟨r1.2.1.id, asset.id, true, get_asset_tags db3 r1.2.1.id⟩)

/-- The data record `create_from_hash`/`upload_from_temp_path` return to the
HTTP layer. -/
structure UploadOut where
  infoId : Nat
  assetId : Nat
  tags : List String
  createdNew : Bool
  deriving Repr, DecidableEq

/-- `create_from_hash(hash_str, name, tags, user_metadata, owner_id)`:
normalize the hash, return `none` when it is unknown, otherwise register and
return the reference — with `created_new` hard-coded to `False`.  The
`.error` branch of the inner register cannot occur (the asset was just
found) and returns `none` like the unknown-hash case. -/
def create_from_hash (env : Env) (db : DB) (hashStr name : String)
    (tags : Option (List String)) (um : Option (List (String × String)))
    (ownerId : String) : DB × Option UploadOut :=
  let canonical := normalizeHashString hashStr
  match get_asset_by_hash db canonical with
  | none => (db, none)
  | some _ =>
    match register_existing_asset env db canonical
      (sanitizeFilename (some name) (afterColon canonical))
      (um.getD []) (some (tags.getD [])) "manual" ownerId with
    | .error _ => (db, none)
    | .ok (db2, res) =>
      (db2, some ⟨res.infoId, res.assetId, res.tags, false⟩)

/-- `IngestResult`. -/
structure IngestResult where
  assetCreated : Bool
  assetUpdated : Bool
  stateCreated : Bool
  stateUpdated : Bool
  assetInfoId : Option Nat
  deriving Repr, DecidableEq

/-- `ingest_file_from_path` (without a preview id, as called by the upload
path): upsert the asset and its cache state, get or create the reference,
add its tags, merge metadata plus computed filename, and clear any
`missing` tag. -/
def ingest_file_from_path (env : Env) (db : DB) (absPath assetHash : String)
    (size : Nat) (mtime : Int) (mime : Option String) (infoName : String)
    (ownerId : String) (um : List (String × String)) (tags : List String)
    (origin : String) : DB × IngestResult :=
  let r1 := upsert_asset db assetHash size mime
  let db1 := r1.1
  let asset := r1.2.1
  let r2 := upsert_cache_state db1 asset.id absPath mtime
  let db2 := r2.1
  if infoName = "" then
    (remove_missing_tag_for_asset_id db2 asset.id,
      ⟨r1.2.2.1, r1.2.2.2, r2.2.1, r2.2.2, none⟩)
  else
    let r3 := get_or_create_asset_info db2 asset.id ownerId infoName
    let db3 := r3.1
    let info := r3.2.1
    let db4 := if tags ≠ [] then
      add_tags_to_asset_info db3 info.id tags origin else db3
    let currentMeta := info.userMetadata.getD []
    let withUm := um.foldl (fun acc kv => upsertKV acc kv.1 kv.2) currentMeta
    let newMeta := match computeFilenameForAsset env db4 asset.id with
      | some fn => upsertKV withUm "filename" fn
      | none => withUm
    let db5 := if newMeta ≠ currentMeta then
      set_asset_info_metadata db4 info.id newMeta else db4
    let db6 := remove_missing_tag_for_asset_id db5 asset.id
    (db6, ⟨r1.2.2.1, r1.2.2.2, r2.2.1, r2.2.2, some info.id⟩)

/-- The system state an upload touches: the store plus the set of files on
disk (temp files included). -/
structure Sys where
  db : DB
  files : List String
  deriving Repr, DecidableEq

/-- The error kinds `upload_from_temp_path` raises. -/
inductive UploadErr
  | hashMismatch
  | dependencyMissing
  | runtime
  | badPath
  deriving Repr, DecidableEq

/-- `upload_from_temp_path(temp_path, name, tags, user_metadata,
client_filename, owner_id, expected_hash)`: hash the temp file, fail
`HashMismatch` when a nonempty expected hash disagrees, deduplicate through
`register_existing_asset` (deleting the temp file), or move the file into
the resolved destination and ingest it.  Raising is the `.error` branch: no
state change escapes it. -/
def upload_from_temp_path (env : Env) (sys : Sys) (tempPath : String)
    (name : Option String) (tags : Option (List String))
    (um : Option (List (String × String))) (clientFilename : Option String)
    (ownerId : String) (expectedHash : Option String) :
    Except UploadErr (Sys × UploadOut) :=
  match env.hashFile tempPath with
  | none => .error .dependencyMissing
  | some digest =>
    let assetHash := "blake3:" ++ digest
    let mismatch : Bool := match expectedHash with
      | some eh => eh ≠ "" ∧ assetHash ≠ normalizeHashString eh
      | none => false
    if mismatch then .error .hashMismatch
    else
      match get_asset_by_hash sys.db assetHash with
      | some _ =>
        let sys1 : Sys := { sys with files := sys.files.erase tempPath }
        let displayName := sanitizeFilename (pyOr name clientFilename) digest
        match register_existing_asset env sys1.db assetHash displayName
          (um.getD []) (some (tags.getD [])) "manual" ownerId with
        | .error _ => .error .runtime
        | .ok (db2, res) =>
          .ok ({ sys1 with db := db2 },
            ⟨res.infoId, res.assetId, res.tags, false⟩)
      | none =>
        let dest := env.resolveDest tags
        let destDir := String.intercalate "/" (dest.1 :: dest.2)
        let srcForExt := stripString ((pyOr clientFilename name).getD "")
        let ext0 := if srcForExt = "" then "" else
          env.extOf (lastPathComponent srcForExt)
        let ext := if 0 < ext0.length ∧ ext0.length ≤ 16 then ext0 else ""
        let hashedBasename := digest ++ ext
        let destAbs := destDir ++ "/" ++ hashedBasename
        if env.validWithin destAbs dest.1 = false then .error .badPath
        else
          let contentType := match env.guessType (lastPathComponent
              srcForExt) with
            | some ct => some ct
            | none => match env.guessType hashedBasename with
              | some ct => some ct
              | none => some "application/octet-stream"
          match env.statOf destAbs with
          | none => .error .runtime
          | some st =>
            let sys1 : Sys :=
              { sys with files := sys.files.erase tempPath ++ [destAbs] }
            let r := ingest_file_from_path env sys1.db destAbs assetHash
              st.1 st.2 contentType
              (sanitizeFilename (pyOr name clientFilename) digest) ownerId
              (um.getD []) (tags.getD []) "manual"
            match r.2.assetInfoId with
            | none => .error .runtime
            | some infoId =>
              match r.1.infos.find? (fun i => i.id = infoId) with
              | some info =>
                .ok ({ sys1 with db := r.1 },
                  ⟨infoId, info.assetId, get_asset_tags r.1 infoId,
                    r.2.assetCreated⟩)
              | none => .error .runtime

/-- The error mapping of the `POST /api/assets` handler (`upload_asset` in
`api/routes.py`): on any service exception the temp file is deleted and the
error code returned; on success 201 for a new asset, 200 for a
deduplicated one. -/
def upload_asset_route (env : Env) (sys : Sys) (tempPath : String)
    (name : Option String) (tags : Option (List String))
    (um : Option (List (String × String))) (clientFilename : Option String)
    (ownerId : String) (expectedHash : Option String) :
    Nat × String × Sys :=
  match upload_from_temp_path env sys tempPath name tags um clientFilename
    ownerId expectedHash with
  | .ok (sys2, out) => (if out.createdNew then 201 else 200, "", sys2)
  | .error e =>
    let sys2 : Sys := { sys with files := sys.files.erase tempPath }
    match e with
    | .hashMismatch => (400, "HASH_MISMATCH", sys2)
    | .dependencyMissing => (503, "DEPENDENCY_MISSING", sys2)
    | .badPath => (400, "BAD_REQUEST", sys2)
    | .runtime => (500, "INTERNAL", sys2)

/-- A trivial oracle environment for concrete evaluations: nothing exists on
disk and every helper returns its empty value. -/
def stubEnv : Env :=
  ⟨fun _ => none, fun _ => false, fun _ => none, fun _ => ("", []),
    fun _ _ => false, fun _ => none, fun _ => "", fun _ => none⟩

/-! ### Listing order: `database/queries/asset_info.py`, `list_asset_infos_page`

The filter pipeline (owner visibility, tag EXISTS clauses, name ilike,
metadata projection lookups) is a deterministic function of the query and the
data; the stage at issue in the stability claim is `ORDER BY .. LIMIT ..
OFFSET`, modelled here over the filtered row set. -/

/-- The row view the listing query sorts: an `AssetInfo` joined with its
`Asset` (timestamps as integers). -/
structure ListedRef where
  id : Nat
  name : String
  createdAt : Int
  updatedAt : Int
  lastAccessTime : Int
  sizeBytes : Int
  deriving Repr, DecidableEq

/-- Value of a sort column. -/
inductive SortKeyVal
  | str (s : String)
  | num (n : Int)
  deriving Repr, DecidableEq

/-- `sort_map.get(sort, AssetInfo.created_at)`: the chosen sort column, with
unknown keys falling back to `created_at`. -/
def sortColumn (sort : String) (r : ListedRef) : SortKeyVal :=
  if sort = "name" then .str r.name
  else if sort = "updated_at" then .num r.updatedAt
  else if sort = "last_access_time" then .num r.lastAccessTime
  else if sort = "size" then .num r.sizeBytes
  else .num r.createdAt

def SortKeyVal.le : SortKeyVal → SortKeyVal → Bool
  | .str a, .str b => a ≤ b
  | .num a, .num b => a ≤ b
  | .str _, .num _ => true
  | .num _, .str _ => false

/-- The ORDER BY relation emitted by the code:
`sort_col.desc() if order == "desc" else sort_col.asc()` — the single chosen
column, with no tiebreak column. -/
def rowLE (sort ord : String) (a b : ListedRef) : Bool :=
  if ord = "desc" then SortKeyVal.le (sortColumn sort b) (sortColumn sort a)
  else SortKeyVal.le (sortColumn sort a) (sortColumn sort b)

/-- A possible result of the ORDER BY/LIMIT/OFFSET stage of
`list_asset_infos_page` on the filtered row set `rows`: the SQL engine may
return any permutation of `rows` consistent with the emitted ORDER BY, and
the page is its offset/limit window. -/
def IsPageResult (rows : List ListedRef) (sort ord : String)
    (limit offset : Nat) (out : List ListedRef) : Prop :=
  ∃ l : List ListedRef, l.Perm rows ∧
    l.Pairwise (fun a b => rowLE sort ord a b = true) ∧
    out = (l.drop offset).take limit

/-! ### Scanner: `scanner.py` (filesystem reconcile and FAST seed scan).

The filesystem is an oracle: a finite table from each stat-able absolute
path to its `os.stat` result (`st_size`, `st_mtime_ns`); a path absent from
the table raises (`FileNotFoundError`/`OSError`).  The paths handled here
are already absolute, so `os.path.abspath` is the identity on them. -/

/-- The two `os.stat_result` fields the scanner reads. -/
structure FStat where
  stSize : Nat
  stMtimeNs : Int
  deriving Repr, DecidableEq

/-- `os.stat(p)` against the oracle table (`none` = the raised error). -/
def fsStat (fs : List (String × FStat)) (p : String) : Option FStat :=
  (fs.find? (fun e => e.1 = p)).map Prod.snd

/-- `verify_asset_file_unchanged(mtime_db, size_db, stat_result)`
(`scanner.py`): the fast mtime+size comparison. -/
def verify_asset_file_unchanged (mtimeDb : Option Int) (sizeDb : Nat)
    (st : FStat) : Bool :=
  match mtimeDb with
  | none => false
  | some m =>
    if m ≠ st.stMtimeNs then false
    else if 0 < sizeDb then decide (st.stSize = sizeDb)
    else true

/-- A row of `get_cache_states_for_prefixes`: a cache state joined with its
asset's hash and size. -/
structure SyncRow where
  stateId : Nat
  filePath : String
  mtimeNs : Option Int
  needsVerify : Bool
  assetId : Nat
  assetHash : Option String
  sizeBytes : Nat
  deriving Repr, DecidableEq

/-- The `ORDER BY asset_id ASC, id ASC` key of
`get_cache_states_for_prefixes`. -/
def syncRowLE (a b : SyncRow) : Bool :=
  a.assetId < b.assetId ∨ (a.assetId = b.assetId ∧ a.stateId ≤ b.stateId)

/-- Insert into a sorted list (the ORDER BY is rendered as a structural
insertion sort). -/
def orderedInsert {α : Type} (le : α → α → Bool) (a : α) :
    List α → List α
  | [] => [a]
  | b :: t => if le a b then a :: b :: t else b :: orderedInsert le a t

/-- Structural insertion sort rendering the SQL ORDER BY. -/
def insertionSort {α : Type} (le : α → α → Bool) : List α → List α
  | [] => []
  | a :: t => orderedInsert le a (insertionSort le t)

/-- `get_cache_states_for_prefixes(session, prefixes, include_missing)`
(`queries/cache_state.py`): the cache states under the listed directory
paths — excluding the `is_missing` ones unless `include_missing` — joined
with their asset, ordered by `(asset_id, id)`. -/
def get_cache_states_for_prefixes (db : DB) (pres : List String)
    (includeMissing : Bool) : List SyncRow :=
  if pres = [] then []
  else
    insertionSort syncRowLE
      ((db.cacheStates.filter (fun s =>
        pathUnderAny pres s.filePath &&
          (includeMissing || !s.isMissing))).filterMap (fun s =>
      (db.assets.find? (fun a => a.id = s.assetId)).map (fun a =>
        ⟨s.id, s.filePath, s.mtimeNs, s.needsVerify, s.assetId, a.hash,
          a.sizeBytes⟩)))

/-- One per-state dict of the reconcile loop (`exists` and `fast_ok` are
computed from one `os.stat` call at grouping time). -/
structure SyncSt where
  sid : Nat
  fp : String
  exs : Bool
  fastOk : Bool
  needsVerify : Bool
  deriving Repr, DecidableEq

/-- One `by_asset` accumulator value: the asset's hash and size (taken from
the first row seen) and its state dicts. -/
structure AssetAcc where
  hash : Option String
  sizeDb : Nat
  states : List SyncSt
  deriving Repr, DecidableEq

/-- The state dict appended for one joined row. -/
def syncStateOf (fs : List (String × FStat)) (sizeDb : Nat)
    (r : SyncRow) : SyncSt :=
  match fsStat fs r.filePath with
  | none => ⟨r.stateId, r.filePath, false, false, r.needsVerify⟩
  | some st =>
    ⟨r.stateId, r.filePath, true,
      verify_asset_file_unchanged r.mtimeNs sizeDb st, r.needsVerify⟩

/-- Add one row to the `by_asset` dict: append the state to the existing
entry (which keeps the first row's `size_db`), or open a new entry at the
end (dict insertion order). -/
def addRowToGroups (fs : List (String × FStat)) (r : SyncRow) :
    List (Nat × AssetAcc) → List (Nat × AssetAcc)
  | [] => [(r.assetId,
      ⟨r.assetHash, r.sizeBytes, [syncStateOf fs r.sizeBytes r]⟩)]
  | (k, acc) :: t =>
    if k = r.assetId then
      (k, { acc with
        states := acc.states ++ [syncStateOf fs acc.sizeDb r] }) :: t
    else (k, acc) :: addRowToGroups fs r t

/-- The `by_asset` grouping loop of `sync_cache_states_with_filesystem`. -/
def groupByAsset (fs : List (String × FStat)) (rows : List SyncRow) :
    List (Nat × AssetAcc) :=
  rows.foldl (fun g r => addRowToGroups fs r g) []

/-- `by_asset.get(asset_id)`. -/
def groupFind (g : List (Nat × AssetAcc)) (k : Nat) : Option AssetAcc :=
  (g.find? (fun e => e.1 = k)).map Prod.snd

/-- `delete_orphaned_seed_asset(session, asset_id)`
(`queries/cache_state.py`): delete the references of the asset, then the
asset row itself; the asset's cache states and the deleted references' tag
and metadata rows go with them through the FK cascades. -/
def delete_orphaned_seed_asset (db : DB) (assetId : Nat) : DB × Bool :=
  let deadInfos := (db.infos.filter (fun i => i.assetId = assetId)).map
    Info.id
  let db1 := { db with
    infos := db.infos.filter (fun i => i.assetId ≠ assetId),
    infoTags := db.infoTags.filter (fun t => t.infoId ∉ deadInfos),
    infoMeta := db.infoMeta.filter (fun m => m.infoId ∉ deadInfos) }
  if db1.assets.any (fun a => a.id = assetId) then
    ({ db1 with
      assets := db1.assets.filter (fun a => a.id ≠ assetId),
      cacheStates := db1.cacheStates.filter
        (fun s => s.assetId ≠ assetId) }, true)
  else (db1, false)

/-- `add_missing_tag_for_asset_id(session, asset_id, origin)`
(`queries/tags.py`): one conflict-ignoring INSERT..SELECT adding a
`"missing"` tag row to every reference of the asset that does not already
carry one. -/
def add_missing_tag_for_asset_id (db : DB) (assetId : Nat)
    (origin : String) : DB :=
  let newRows := (db.infos.filter (fun i => i.assetId = assetId ∧
      ¬ db.infoTags.any (fun t => t.infoId = i.id ∧
        t.tagName = "missing"))).map (fun i =>
    (⟨i.id, "missing", origin⟩ : TagRow))
  { db with infoTags := db.infoTags ++ newRows }

/-- `bulk_set_needs_verify(session, state_ids, value)`
(`queries/cache_state.py`). -/
def bulk_set_needs_verify (db : DB) (stateIds : List Nat) (value : Bool) :
    DB :=
  if stateIds = [] then db
  else
    let upd := db.cacheStates.map (fun s =>
      if s.id ∈ stateIds then { s with needsVerify := value } else s)
    { db with cacheStates := upd }

/-- `delete_cache_states_by_ids(session, state_ids)`
(`queries/cache_state.py`). -/
def delete_cache_states_by_ids (db : DB) (stateIds : List Nat) : DB :=
  if stateIds = [] then db
  else
    let kept := db.cacheStates.filter (fun s => s.id ∉ stateIds)
    { db with cacheStates := kept }

/-- The mutable locals of the reconcile loop (`survivors` is a Python set;
the list here carries the same membership). -/
structure SyncAccum where
  db : DB
  toSet : List Nat
  toClear : List Nat
  stale : List Nat
  survivors : List String
  deriving Repr, DecidableEq

/-- One iteration of the `for aid, acc in by_asset.items()` loop of
`sync_cache_states_with_filesystem`: record the per-state `needs_verify`
toggles, then — for a stub asset whose states are all missing — delete the
asset, otherwise collect survivors (for a hashed asset with a fast-ok
state, also collect its stale state ids and optionally drop the `missing`
tag; for a hashed asset with none, optionally add it). -/
def processAssetGroup (updateMissingTags : Bool) (ac : SyncAccum)
    (e : Nat × AssetAcc) : SyncAccum :=
  let states := e.2.states
  let anyFastOk := states.any (fun s => s.fastOk)
  let allMissing := states.all (fun s => !s.exs)
  let toClear1 := ac.toClear ++
    (states.filter (fun s => s.exs && s.fastOk && s.needsVerify)).map
      (fun s => s.sid)
  let toSet1 := ac.toSet ++
    (states.filter (fun s => s.exs && !s.fastOk && !s.needsVerify)).map
      (fun s => s.sid)
  match e.2.hash with
  | none =>
    if states ≠ [] ∧ allMissing = true then
      let dbDel := (delete_orphaned_seed_asset ac.db e.1).1
      { ac with
        db := dbDel,
        toSet := toSet1,
        toClear := toClear1 }
    else
      let surv1 := ac.survivors ++
        (states.filter (fun s => s.exs)).map (fun s => s.fp)
      { ac with
        toSet := toSet1,
        toClear := toClear1,
        survivors := surv1 }
  | some _ =>
    let db1 := if anyFastOk then
        (if updateMissingTags then remove_missing_tag_for_asset_id ac.db e.1
         else ac.db)
      else
        (if updateMissingTags then
          add_missing_tag_for_asset_id ac.db e.1 "automatic"
        else ac.db)
    let stale1 := if anyFastOk then
        ac.stale ++ (states.filter (fun s => !s.exs)).map (fun s => s.sid)
      else ac.stale
    let surv1 := ac.survivors ++
      (states.filter (fun s => s.exs)).map (fun s => s.fp)
    ⟨db1, toSet1, toClear1, stale1, surv1⟩

/-- `sync_cache_states_with_filesystem(session, root, collect, umt)`
(`scanner.py`): reconcile the active cache states under the root's prefix
directories (`get_prefixes_for_root`, an oracle parameter here) with the
filesystem; delete all-missing stub assets and the stale states of
fast-ok hashed assets, toggle `needs_verify`, and return the surviving
paths when asked. -/
def sync_cache_states_with_filesystem (db : DB)
    (fs : List (String × FStat)) (pres : List String)
    (collectExistingPaths updateMissingTags : Bool) :
    DB × Option (List String) :=
  if pres = [] then
    (db, if collectExistingPaths then some [] else none)
  else
    let rows := get_cache_states_for_prefixes db pres false
    let acF := (groupByAsset fs rows).foldl
      (processAssetGroup updateMissingTags) ⟨db, [], [], [], []⟩
    let db1 := delete_cache_states_by_ids acF.db acF.stale
    let db2 := bulk_set_needs_verify db1 acF.toSet true
    let db3 := bulk_set_needs_verify db2 acF.toClear false
    (db3, if collectExistingPaths then some acF.survivors else none)

/-- Modelled from the spec: `delete_cache_states_outside_prefixes(session,
valid_prefixes)` (its module is not under `src/`) hard-deletes every cache
state whose path lies under none of the listed directory paths. -/
def delete_cache_states_outside_prefixes (db : DB)
    (validPres : List String) : DB :=
  let kept := db.cacheStates.filter (fun s =>
    pathUnderAny validPres s.filePath)
  { db with cacheStates := kept }

/-- Modelled from the spec: `get_orphaned_seed_asset_ids(session)` (its
module is not under `src/`) returns the seed assets — `hash IS NULL` —
with no active cache state, mirroring the in-`src`
`get_unreferenced_unhashed_asset_ids`. -/
def get_orphaned_seed_asset_ids (db : DB) : List Nat :=
  (db.assets.filter (fun a => a.hash = none ∧
    ¬ db.cacheStates.any (fun s => s.assetId = a.id ∧
      s.isMissing = false))).map Asset.id

/-- `prune_orphaned_assets(session, valid_prefixes)` (`scanner.py`): drop
the cache states outside the valid prefixes, then delete the seed assets
left with no active state. -/
def prune_orphaned_assets (db : DB) (validPres : List String) : DB × Nat :=
  let db1 := delete_cache_states_outside_prefixes db validPres
  let orphanIds := get_orphaned_seed_asset_ids db1
  (delete_assets_by_ids db1 orphanIds,
    (db1.assets.filter (fun a => a.id ∈ orphanIds)).length)

/-- Oracles for the path helpers of `services/path_utils.py` (not under
`src/`): `get_name_and_tags_from_asset_path` and
`compute_relative_filename` (`none` = Python `None`). -/
structure ScanEnv where
  nameTags : String → String × List String
  relFname : String → Option String

/-- `_build_asset_specs(paths, existing_paths)` (`scanner.py`): skip the
paths already known, stat each remaining one (errors and empty files are
dropped), and build the stub specs — no hash, no extracted metadata —
plus the tag pool and the skipped count. -/
def _build_asset_specs (env : ScanEnv) (fs : List (String × FStat))
    (paths : List String) (existingPaths : List String) :
    List SeedSpec × List String × Nat :=
  paths.foldl (fun acc p =>
    if p ∈ existingPaths then (acc.1, acc.2.1, acc.2.2 + 1)
    else match fsStat fs p with
      | none => acc
      | some st =>
        if st.stSize = 0 then acc
        else
          (acc.1 ++ [⟨p, st.stSize, st.stMtimeNs, (env.nameTags p).1,
              (env.nameTags p).2, (env.relFname p).getD "", none, none⟩],
            acc.2.1 ++ (env.nameTags p).2, acc.2.2)) ([], [], 0)

/-- Step 3 of `_batch_insert_assets_from_paths` (`scanner.py`): the winner
query, run right after the claim insert — this twin of
`batch_insert_seed_assets` has no restore step. -/
def scanWinners (db : DB) (specs : List SeedSpec) : List String :=
  get_cache_states_by_paths_and_asset_ids (seedPhase2 db specs)
    (seedPathToAsset db specs)

/-- `all_paths_set - winners_by_path` of the scanner twin. -/
def scanLosers (db : DB) (specs : List SeedSpec) : List String :=
  ((seedPathToAsset db specs).map Prod.fst).filter
    (fun p => p ∉ scanWinners db specs)

/-- `[path_to_asset[p] for p in losers_by_path]` of the scanner twin. -/
def scanLostIds (db : DB) (specs : List SeedSpec) : List Nat :=
  (scanLosers db specs).filterMap
    (fun p => assocLookup (seedPathToAsset db specs) p)

/-- Step 4 of the scanner twin: delete the loser assets. -/
def scanDb4 (db : DB) (specs : List SeedSpec) : DB :=
  delete_assets_by_ids (seedPhase2 db specs) (scanLostIds db specs)

/-- Step 5 input of the scanner twin
(`[asset_to_info[path_to_asset[p]] for p in winners_by_path]`). -/
def scanWinnerRows (db : DB) (specs : List SeedSpec) (ownerId : String) :
    List (Info × SeedSpec) :=
  (scanWinners db specs).filterMap (fun p =>
    (assocLookup (seedPathToAsset db specs) p).bind (fun aid =>
      ((seedPairs db.nextId specs).find? (fun w => w.1 = aid)).map
        (fun w => (seedInfoFor ownerId w, w.2))))

/-- Step 5 of the scanner twin: insert the winner references. -/
def scanDb5 (db : DB) (specs : List SeedSpec) (ownerId : String) : DB :=
  bulk_insert_asset_infos_ignore_conflicts (scanDb4 db specs)
    ((scanWinnerRows db specs ownerId).map Prod.fst)

/-- Step 6 of the scanner twin: which reference ids landed. -/
def scanInsertedIds (db : DB) (specs : List SeedSpec) (ownerId : String) :
    List Nat :=
  get_asset_info_ids_by_ids (scanDb5 db specs ownerId)
    ((scanWinnerRows db specs ownerId).map (fun wr => wr.1.id))

/-- Step 7 rows of the scanner twin: tags for the landed references. -/
def scanTagRows (db : DB) (specs : List SeedSpec) (ownerId : String) :
    List TagRow :=
  (scanWinnerRows db specs ownerId).foldl (fun acc wr =>
    if wr.1.id ∈ scanInsertedIds db specs ownerId then
      acc ++ wr.2.tags.map (fun t => (⟨wr.1.id, t, "automatic"⟩ : TagRow))
    else acc) []

/-- Step 7 rows of the scanner twin: the filename metadata rows. -/
def scanMetaAll (db : DB) (specs : List SeedSpec) (ownerId : String) :
    List MetaRow :=
  (scanWinnerRows db specs ownerId).foldl (fun acc wr =>
    if wr.1.id ∈ scanInsertedIds db specs ownerId then
      acc ++ seedMetaRows wr.1.id wr.2
    else acc) []

/-- Step 7 of the scanner twin: insert the tag and metadata rows. -/
def scanDb6 (db : DB) (specs : List SeedSpec) (ownerId : String) : DB :=
  bulk_insert_tags_and_meta (scanDb5 db specs ownerId)
    (scanTagRows db specs ownerId) (scanMetaAll db specs ownerId)

/-- `_batch_insert_assets_from_paths(session, specs, owner_id)`
(`scanner.py`): the FAST-scan twin of `batch_insert_seed_assets` — same
insert/claim/winner/delete/reference/tag pipeline over stub specs (no
hash, no extracted metadata) but with no restore call; its steps 1–2
coincide with `seedPhase2`. -/
def _batch_insert_assets_from_paths (db : DB) (specs : List SeedSpec)
    (ownerId : String) : DB × BulkInsertResult :=
  if specs = [] then (db, ⟨0, 0, 0⟩)
  else if scanWinners db specs = [] then
    (scanDb4 db specs, ⟨0, 0, (scanLosers db specs).length⟩)
  else
    (scanDb6 db specs ownerId,
      ⟨(scanInsertedIds db specs ownerId).length,
        (scanWinners db specs).length, (scanLosers db specs).length⟩)

/-- `_insert_asset_specs(specs, tag_pool)` (`scanner.py`): ensure the tag
dictionary rows, then run the batch; returns the created-reference
count. -/
def _insert_asset_specs (db : DB) (specs : List SeedSpec)
    (tagPool : List String) : DB × Nat :=
  if specs = [] then (db, 0)
  else
    let db1 := if tagPool ≠ [] then ensure_tags_exist db tagPool "user"
      else db
    let r := _batch_insert_assets_from_paths db1 specs ""
    (r.1, r.2.insertedInfos)

/-- One scanned root: its prefix directories (`get_prefixes_for_root`) and
the absolute file paths its discovery walk lists
(`_collect_paths_for_roots`), both filesystem oracles. -/
structure RootSpec where
  pres : List String
  walk : List String

/-- `seed_assets(roots)` (`scanner.py`): per root, reconcile cache states
against the filesystem collecting survivors; prune orphans over all the
roots' prefixes; collect the walked paths; build stub specs skipping the
survivors; batch-insert them.  Returns the final store with the
`(created, skipped_existing, orphans_pruned)` counters. -/
def seed_assets (env : ScanEnv) (db : DB) (fs : List (String × FStat))
    (roots : List RootSpec) : DB × Nat × Nat × Nat :=
  let se := roots.foldl (fun acc r =>
    let sr := sync_cache_states_with_filesystem acc.1 fs r.pres true true
    (sr.1, acc.2 ++ (sr.2.getD []))) (db, [])
  let allPres := roots.foldl (fun acc r => acc ++ r.pres) []
  let pr := prune_orphaned_assets se.1 allPres
  let paths := roots.foldl (fun acc r => acc ++ r.walk) []
  let bs := _build_asset_specs env fs paths se.2
  let ins := _insert_asset_specs pr.1 bs.1 bs.2.1
  (ins.1, ins.2, bs.2.2, pr.2)

/-- A concrete path-naming oracle for exercising the scanner: the name is
the path itself and every path yields the single tag "t1". -/
def envC3w : ScanEnv := ⟨fun p => (p, ["t1"]), fun _ => none⟩

/-! ## Theorems -/

theorem list_map_self {α : Type} {f : α → α} :
    ∀ {l : List α}, (∀ x ∈ l, f x = x) → l.map f = l := by
  intro l h
  induction l with
  | nil => rfl
  | cons a t ih =>
    simp only [List.map_cons]
    rw [h a (by simp), ih (fun x hx => h x (List.mem_cons_of_mem _ hx))]

/-- After any `upsert_cache_state`, every row at the upserted path carries the
requested `asset_id` and `mtime_ns` and has `is_missing` cleared. -/
theorem upsert_rows_at_path (db : DB) (a : Nat) (p : String) (m : Int) :
    ∀ s ∈ (upsert_cache_state db a p m).1.cacheStates, s.filePath = p →
      s.assetId = a ∧ s.mtimeNs = some m ∧ s.isMissing = false := by
  intro s hs hp
  unfold upsert_cache_state at hs
  by_cases h : (db.cacheStates.any (fun s => s.filePath = p)) = true
  · rw [if_pos h] at hs
    rcases List.mem_map.mp hs with ⟨t, _ht, rfl⟩
    by_cases hu : upsertHits a p m t = true
    · simp [hu]
    · rw [if_neg hu] at hp ⊢
      unfold upsertHits at hu
      simp only [hp, decide_eq_true_eq, true_and, not_or, Bool.not_eq_true,
        decide_eq_false_iff_not, Decidable.not_not] at hu
      push_neg at hu
      exact ⟨hu.1, hu.2.2.1, by simpa using hu.2.2.2⟩
  · rw [if_neg h] at hs
    rcases List.mem_append.mp hs with hmem | hmem
    · exact absurd (List.any_eq_true.mpr ⟨s, hmem, by simp [hp]⟩) h
    · simp only [List.mem_singleton] at hmem
      subst hmem
      exact ⟨rfl, rfl, rfl⟩

/-- After `upsert_cache_state db a p m` there is a row at path `p`. -/
theorem upsert_row_exists (db : DB) (a : Nat) (p : String) (m : Int) :
    ∃ s ∈ (upsert_cache_state db a p m).1.cacheStates, s.filePath = p := by
  unfold upsert_cache_state
  by_cases h : (db.cacheStates.any (fun s => s.filePath = p)) = true
  · rcases List.any_eq_true.mp h with ⟨t, ht, htp⟩
    rw [if_pos h]
    refine ⟨_, List.mem_map.mpr ⟨t, ht, rfl⟩, ?_⟩
    by_cases hu : upsertHits a p m t = true <;>
      simp_all [upsertHits]
  · rw [if_neg h]
    exact ⟨⟨db.nextId, a, p, some m, false, false⟩,
      List.mem_append.mpr (Or.inr (by simp)), rfl⟩

/-- `upsert_cache_state` reports `created = false` whenever a row at the path
already exists. -/
theorem upsert_created_false (db : DB) (a : Nat) (p : String) (m : Int)
    (s : CState) (hs : s ∈ db.cacheStates) (hp : s.filePath = p) :
    (upsert_cache_state db a p m).2.1 = false := by
  have h : (db.cacheStates.any (fun s => s.filePath = p)) = true :=
    List.any_eq_true.mpr ⟨s, hs, by simp [hp]⟩
  unfold upsert_cache_state
  rw [if_pos h]

/-- `upsert_cache_state` reports `updated = true` whenever some existing row
matches the UPDATE clause. -/
theorem upsert_updated_true (db : DB) (a : Nat) (p : String) (m : Int)
    (s : CState) (hs : s ∈ db.cacheStates) (hp : s.filePath = p)
    (hhit : upsertHits a p m s = true) :
    (upsert_cache_state db a p m).2.2 = true := by
  have h : (db.cacheStates.any (fun s => s.filePath = p)) = true :=
    List.any_eq_true.mpr ⟨s, hs, by simp [hp]⟩
  unfold upsert_cache_state
  rw [if_pos h]
  exact List.any_eq_true.mpr ⟨s, hs, hhit⟩

/-- If every row at `p` already carries `(a, some m, is_missing = false)` and
some row at `p` exists, `upsert_cache_state db a p m` is the identity and
reports `(created = false, updated = false)`. -/
theorem upsert_noop (db : DB) (a : Nat) (p : String) (m : Int)
    (hex : ∃ s ∈ db.cacheStates, s.filePath = p)
    (hall : ∀ s ∈ db.cacheStates, s.filePath = p →
      s.assetId = a ∧ s.mtimeNs = some m ∧ s.isMissing = false) :
    upsert_cache_state db a p m = (db, false, false) := by
  rcases hex with ⟨s0, hs0, hp0⟩
  have hany : db.cacheStates.any (fun s => s.filePath = p) = true :=
    List.any_eq_true.mpr ⟨s0, hs0, by simp [hp0]⟩
  have hhits : ∀ s ∈ db.cacheStates, upsertHits a p m s = false := by
    intro s hs
    unfold upsertHits
    by_cases hp : s.filePath = p
    · rcases hall s hs hp with ⟨h1, h2, h3⟩
      simp [hp, h1, h2, h3]
    · simp [hp]
  unfold upsert_cache_state
  simp only [hany, if_true]
  have hupd : db.cacheStates.any (upsertHits a p m) = false := by
    simp only [List.any_eq_false]
    intro s hs
    simp [hhits s hs]
  have hmap : db.cacheStates.map (fun s =>
      if upsertHits a p m s = true then
        { s with assetId := a, mtimeNs := some m, isMissing := false }
      else s) = db.cacheStates := by
    apply list_map_self
    intro s hs
    simp [hhits s hs]
  simp only [hupd, hmap]

/-- C4.  Calling `upsert_cache_state` twice with identical arguments makes the
second call a no-op that returns `(created = false, updated = false)`; if the
second call changes the mtime it reports `updated = true`; and a single call
on a path holding a missing row (same asset, same mtime) clears `is_missing`,
reporting `(created = false, updated = true)`. -/
theorem upsert_cache_state_idempotence_spec :
    (∀ (db : DB) (a : Nat) (p : String) (m : Int),
      upsert_cache_state (upsert_cache_state db a p m).1 a p m =
        ((upsert_cache_state db a p m).1, false, false)) ∧
    (∀ (db : DB) (a : Nat) (p : String) (m m2 : Int), m2 ≠ m →
      (upsert_cache_state (upsert_cache_state db a p m).1 a p m2).2.2 = true) ∧
    (∀ (db : DB) (a : Nat) (p : String) (m : Int) (s : CState),
      s ∈ db.cacheStates → s.filePath = p → s.assetId = a →
      s.mtimeNs = some m → s.isMissing = true →
      (upsert_cache_state db a p m).2.1 = false ∧
      (upsert_cache_state db a p m).2.2 = true ∧
      ∀ t ∈ (upsert_cache_state db a p m).1.cacheStates, t.filePath = p →
        t.isMissing = false) := by
  refine ⟨?_, ?_, ?_⟩
  · intro db a p m
    exact upsert_noop _ a p m (upsert_row_exists db a p m)
      (upsert_rows_at_path db a p m)
  · intro db a p m m2 hne
    rcases upsert_row_exists db a p m with ⟨s, hs, hp⟩
    rcases upsert_rows_at_path db a p m s hs hp with ⟨_, h2, _⟩
    refine upsert_updated_true _ a p m2 s hs hp ?_
    unfold upsertHits
    simp [hp, h2]
    exact Or.inr (Or.inl (fun hm => hne hm.symm))
  · intro db a p m s hs hp ha hm hms
    refine ⟨upsert_created_false db a p m s hs hp, ?_, ?_⟩
    · refine upsert_updated_true db a p m s hs hp ?_
      unfold upsertHits
      simp [hp, hms]
    · intro t ht htp
      exact (upsert_rows_at_path db a p m t ht htp).2.2

/-- Witness for C4 at a concrete database. -/
theorem upsert_cache_state_idempotence_spec_witness :
    (upsert_cache_state (upsert_cache_state DB.empty 1 "/a/x" 5).1 1 "/a/x" 5 =
      ((upsert_cache_state DB.empty 1 "/a/x" 5).1, false, false)) ∧
    ((upsert_cache_state (upsert_cache_state DB.empty 1 "/a/x" 5).1
        1 "/a/x" 6).2.2 = true) ∧
    ((upsert_cache_state
        { DB.empty with cacheStates := [⟨0, 1, "/a/x", some 5, false, true⟩] }
        1 "/a/x" 5).2.1 = false) := by
  refine ⟨upsert_cache_state_idempotence_spec.1 DB.empty 1 "/a/x" 5,
    upsert_cache_state_idempotence_spec.2.1 DB.empty 1 "/a/x" 5 6 (by decide),
    (upsert_cache_state_idempotence_spec.2.2
      { DB.empty with cacheStates := [⟨0, 1, "/a/x", some 5, false, true⟩] }
      1 "/a/x" 5 ⟨0, 1, "/a/x", some 5, false, true⟩
      (by simp) rfl rfl rfl rfl).1⟩

/-- C10.  `upsert_cache_state` with a different `asset_id` on an owned path
silently re-points the row: it returns `(created = false, updated = true)` and
afterwards every row at the path carries the new asset id, the new mtime, and
`is_missing = false`. -/
theorem upsert_cache_state_repoints_owner (db : DB) (A B : Nat) (p : String)
    (m : Int) (s : CState) (hs : s ∈ db.cacheStates) (hp : s.filePath = p)
    (hA : s.assetId = A) (hne : A ≠ B) :
    (upsert_cache_state db B p m).2.1 = false ∧
    (upsert_cache_state db B p m).2.2 = true ∧
    ∀ t ∈ (upsert_cache_state db B p m).1.cacheStates, t.filePath = p →
      t.assetId = B ∧ t.mtimeNs = some m ∧ t.isMissing = false := by
  refine ⟨upsert_created_false db B p m s hs hp, ?_,
    upsert_rows_at_path db B p m⟩
  refine upsert_updated_true db B p m s hs hp ?_
  unfold upsertHits
  simp [hp, hA]
  exact Or.inl hne

theorem dropWhile_ne_nil_of_mem {l : List Char} (h : ':' ∈ l) :
    l.dropWhile (fun c => decide (c ≠ ':')) ≠ [] := by
  induction l with
  | nil => simp at h
  | cons a t ih =>
    by_cases ha : a = ':'
    · subst ha
      simp [List.dropWhile_cons]
    · rcases List.mem_cons.mp h with h1 | h1
      · exact absurd h1.symm ha
      · simpa [List.dropWhile_cons, ha] using ih h1

theorem dropWhile_head_not {p : Char → Bool} :
    ∀ {l : List Char} {a : Char} {t : List Char},
      l.dropWhile p = a :: t → p a = false := by
  intro l
  induction l with
  | nil => intro a t h; simp at h
  | cons b u ih =>
    intro a t h
    by_cases hb : p b = true
    · rw [List.dropWhile_cons, if_pos hb] at h
      exact ih h
    · rw [List.dropWhile_cons, if_neg hb] at h
      cases h
      simpa using hb

/-- On a lax-valid normalized hash, the validation of `head_asset_by_hash`
passes and the response is decided by `asset_exists`. -/
theorem headHashCore_lax (db : DB) (n : String) (tl : List Char)
    (hd : n.data = "blake3:".data ++ tl) (htl : tl ≠ [])
    (hhex : ∀ c ∈ tl, isLowerHexDigit c = true) :
    headHashCore db n = if asset_exists db n = true then 200 else 404 := by
  have hne : n.data ≠ [] := by rw [hd]; simp
  have hcont : ':' ∈ n.data := by
    rw [hd]; exact List.mem_append.mpr (Or.inl (by decide))
  have htake : n.data.takeWhile (fun c => decide (c ≠ ':')) =
      "blake3".data := by
    rw [hd]; rfl
  have hdrop : n.data.dropWhile (fun c => decide (c ≠ ':')) = ':' :: tl := by
    rw [hd]; rfl
  have hnohex : (tl.any fun c => decide (¬ isLowerHexDigit c = true)) =
      false := by
    rw [List.any_eq_false]
    intro c hc
    simp [hhex c hc]
  unfold headHashCore
  rw [if_neg (not_or.mpr ⟨hne, not_not_intro hcont⟩)]
  have hcond : ¬ (n.data.takeWhile (fun c => decide (c ≠ ':')) ≠
      "blake3".data ∨
      (n.data.dropWhile (fun c => decide (c ≠ ':'))).drop 1 = [] ∨
      ((n.data.dropWhile (fun c => decide (c ≠ ':'))).drop 1).any
        (fun c => decide (¬ isLowerHexDigit c = true)) = true) := by
    rw [htake, hdrop]
    simp only [List.drop_succ_cons, List.drop_zero, ne_eq, not_or]
    exact ⟨by simp, htl, by simpa using hhex⟩
  rw [if_neg hcond]

/-- The core validation answers 400 exactly on non-lax-valid strings. -/
theorem headHashCore_400 (db : DB) (n : String) :
    headHashCore db n = 400 ↔ ¬ laxValidHash n.data := by
  constructor
  · intro h400 hlax
    rcases hlax with ⟨tl, hd, htl, hhex⟩
    rw [headHashCore_lax db n tl hd htl hhex] at h400
    split at h400 <;> simp_all
  · intro hnot
    unfold headHashCore
    by_cases h1 : n.data = [] ∨ ':' ∉ n.data
    · rw [if_pos h1]
    · rw [if_neg h1]
      push_neg at h1
      by_cases h2 : n.data.takeWhile (fun c => decide (c ≠ ':')) ≠
          "blake3".data ∨
          (n.data.dropWhile (fun c => decide (c ≠ ':'))).drop 1 = [] ∨
          ((n.data.dropWhile (fun c => decide (c ≠ ':'))).drop 1).any
            (fun c => decide (¬ isLowerHexDigit c = true)) = true
      · rw [if_pos h2]
      · exfalso
        apply hnot
        push_neg at h2
        rcases h2 with ⟨htake, hdig, hhex⟩
        rcases List.exists_cons_of_ne_nil
          (dropWhile_ne_nil_of_mem h1.2) with ⟨a, t, hdrop⟩
        have ha : a = ':' := by simpa using dropWhile_head_not hdrop
        subst ha
        refine ⟨t, ?_, ?_, ?_⟩
        · have hsplit := List.takeWhile_append_dropWhile
            (p := fun c => decide (c ≠ ':')) (l := n.data)
          rw [htake, hdrop] at hsplit
          rw [← hsplit]
          rfl
        · rw [hdrop] at hdig
          simpa using hdig
        · intro c hc
          rw [hdrop] at hhex
          simp only [List.drop_succ_cons, List.drop_zero] at hhex
          by_contra hcf
          have : (t.any fun c => decide (¬ isLowerHexDigit c = true)) =
              true :=
            List.any_eq_true.mpr ⟨c, hc, by simp [hcf]⟩
          exact hhex this

/-- C6 (amended).  `head_asset_by_hash` answers 400 exactly when the
lowercased, stripped hash is not of the laxer form
`"blake3:" ++ <nonempty lowercase hex>` (the digest length is never checked),
and on strings of that form — the canonical 64-digit hashes among them — it
answers 200 when the hash is known and 404 otherwise. -/
theorem head_asset_by_hash_status_spec (db : DB) (h : String) :
    (head_asset_by_hash db h = 400 ↔
      ¬ laxValidHash (normalizeHashString h).data) ∧
    (laxValidHash (normalizeHashString h).data →
      head_asset_by_hash db h =
        if asset_exists db (normalizeHashString h) = true then 200 else 404) := by
  constructor
  · exact headHashCore_400 db (normalizeHashString h)
  · intro hlax
    rcases hlax with ⟨tl, hd, htl, hhex⟩
    exact headHashCore_lax db (normalizeHashString h) tl hd htl hhex

/-- Witness for C6: a concrete lax-valid hash answers 404 on the empty
store. -/
theorem head_asset_by_hash_status_spec_witness :
    head_asset_by_hash DB.empty "blake3:ab" =
      if asset_exists DB.empty (normalizeHashString "blake3:ab") = true
      then 200 else 404 :=
  (head_asset_by_hash_status_spec DB.empty "blake3:ab").2
    ⟨['a', 'b'], by decide, by decide, by decide⟩

/-- C6 counterexample: `"blake3:ab"` is not of the canonical form (its digest
has length 2, not 64), yet the endpoint does not answer 400 — it answers 404
on an empty store, because the digest length is never validated. -/
theorem head_asset_by_hash_counterexample :
    isCanonicalHash "blake3:ab" = false ∧
    head_asset_by_hash DB.empty "blake3:ab" = 404 := by
  constructor
  · decide
  · decide

/-- Witness for C10 at a concrete database. -/
theorem upsert_cache_state_repoints_owner_witness :
    (upsert_cache_state
        { DB.empty with cacheStates := [⟨0, 7, "/a/x", some 5, false, false⟩] }
        9 "/a/x" 6).2.1 = false ∧
    (upsert_cache_state
        { DB.empty with cacheStates := [⟨0, 7, "/a/x", some 5, false, false⟩] }
        9 "/a/x" 6).2.2 = true ∧
    ∀ t ∈ (upsert_cache_state
        { DB.empty with cacheStates := [⟨0, 7, "/a/x", some 5, false, false⟩] }
        9 "/a/x" 6).1.cacheStates, t.filePath = "/a/x" →
      t.assetId = 9 ∧ t.mtimeNs = some 6 ∧ t.isMissing = false :=
  upsert_cache_state_repoints_owner
    { DB.empty with cacheStates := [⟨0, 7, "/a/x", some 5, false, false⟩] }
    7 9 "/a/x" 6 ⟨0, 7, "/a/x", some 5, false, false⟩ (by simp) rfl rfl
    (by decide)

theorem sortKeyLE_antisymm :
    ∀ {x y : SortKeyVal}, x.le y = true → y.le x = true → x = y := by
  intro x y h1 h2
  cases x with
  | str a =>
    cases y with
    | str b =>
      simp only [SortKeyVal.le, decide_eq_true_eq] at h1 h2
      exact congrArg SortKeyVal.str (le_antisymm h1 h2)
    | num b => simp [SortKeyVal.le] at h2
  | num a =>
    cases y with
    | str b => simp [SortKeyVal.le] at h1
    | num b =>
      simp only [SortKeyVal.le, decide_eq_true_eq] at h1 h2
      exact congrArg SortKeyVal.num (le_antisymm h1 h2)

/-- Two lists that are permutations of each other and both sorted w.r.t. a
relation antisymmetric on their elements are equal. -/
theorem sorted_perm_eq {α : Type} {r : α → α → Prop} :
    ∀ {l1 l2 : List α}, l1.Perm l2 → l1.Pairwise r → l2.Pairwise r →
      (∀ a b, a ∈ l1 → b ∈ l1 → r a b → r b a → a = b) → l1 = l2 := by
  intro l1
  induction l1 with
  | nil => intro l2 hp _ _ _; exact hp.nil_eq
  | cons a t1 ih =>
    intro l2 hp hs1 hs2 hanti
    cases l2 with
    | nil => exact absurd hp.symm.nil_eq (by simp)
    | cons b t2 =>
      have hab : a = b := by
        by_contra hne
        have hbmem : b ∈ a :: t1 := hp.symm.subset (by simp)
        have hamem : a ∈ b :: t2 := hp.subset (by simp)
        have hbt1 : b ∈ t1 := by
          rcases List.mem_cons.mp hbmem with h | h
          · exact absurd h.symm hne
          · exact h
        have hat2 : a ∈ t2 := by
          rcases List.mem_cons.mp hamem with h | h
          · exact absurd h hne
          · exact h
        have hr1 : r a b := (List.pairwise_cons.mp hs1).1 b hbt1
        have hr2 : r b a := (List.pairwise_cons.mp hs2).1 a hat2
        exact hne (hanti a b (by simp) hbmem hr1 hr2)
      subst hab
      have ht : t1 = t2 :=
        ih hp.cons_inv (List.pairwise_cons.mp hs1).2
          (List.pairwise_cons.mp hs2).2
          (fun x y hx hy => hanti x y (List.mem_cons_of_mem _ hx)
            (List.mem_cons_of_mem _ hy))
      rw [ht]

/-- On rows with pairwise-distinct sort keys, the emitted single-column order
is antisymmetric. -/
theorem rowLE_antisymm_of_distinct_keys (sort ord : String)
    (rows : List ListedRef)
    (hkeys : rows.Pairwise (fun a b => sortColumn sort a ≠ sortColumn sort b))
    (a b : ListedRef) (ha : a ∈ rows) (hb : b ∈ rows)
    (h1 : rowLE sort ord a b = true) (h2 : rowLE sort ord b a = true) :
    a = b := by
  by_contra hne
  have hsym : Symmetric (fun a b : ListedRef =>
      sortColumn sort a ≠ sortColumn sort b) := by
    intro x y h
    exact fun hxy => h hxy.symm
  have hkey : sortColumn sort a ≠ sortColumn sort b :=
    hkeys.forall hsym ha hb hne
  apply hkey
  unfold rowLE at h1 h2
  by_cases hord : ord = "desc"
  · rw [if_pos hord] at h1 h2
    exact sortKeyLE_antisymm h2 h1
  · rw [if_neg hord] at h1 h2
    exact sortKeyLE_antisymm h1 h2

/-- C9 (amended).  The ORDER BY the code emits consists of the chosen sort
column only — there is no id tiebreak — so `list_assets_page` is stable under
identical query parameters and unchanged data only when the sort-key values
of the filtered rows are pairwise distinct; in that case the page is unique. -/
theorem list_page_deterministic (rows : List ListedRef) (sort ord : String)
    (limit offset : Nat) (out1 out2 : List ListedRef)
    (hkeys : rows.Pairwise (fun a b => sortColumn sort a ≠ sortColumn sort b))
    (h1 : IsPageResult rows sort ord limit offset out1)
    (h2 : IsPageResult rows sort ord limit offset out2) :
    out1 = out2 := by
  rcases h1 with ⟨l1, hp1, hs1, ho1⟩
  rcases h2 with ⟨l2, hp2, hs2, ho2⟩
  have hl : l1 = l2 := by
    refine sorted_perm_eq (hp1.trans hp2.symm) hs1 hs2 ?_
    intro a b hia hib hr1 hr2
    exact rowLE_antisymm_of_distinct_keys sort ord rows hkeys a b
      (hp1.subset hia) (hp1.subset hib) hr1 hr2
  rw [ho1, ho2, hl]

/-- Witness for C9 (amended) on two rows with distinct sizes. -/
theorem list_page_deterministic_witness :
    ([⟨1, "a", 0, 0, 0, 3⟩] : List ListedRef) = [⟨1, "a", 0, 0, 0, 3⟩] :=
  list_page_deterministic
    [⟨1, "a", 0, 0, 0, 3⟩, ⟨2, "b", 0, 0, 0, 7⟩] "size" "asc" 1 0
    [⟨1, "a", 0, 0, 0, 3⟩] [⟨1, "a", 0, 0, 0, 3⟩]
    (by decide)
    ⟨[⟨1, "a", 0, 0, 0, 3⟩, ⟨2, "b", 0, 0, 0, 7⟩], List.Perm.refl _,
      by decide, rfl⟩
    ⟨[⟨1, "a", 0, 0, 0, 3⟩, ⟨2, "b", 0, 0, 0, 7⟩], List.Perm.refl _,
      by decide, rfl⟩

/-- C1 counterexample: a batch of two specs for the same absolute path `/a`
on an empty store.  The path is reported lost (`won = 0`, `lost = 1`), yet
its cache-state row does carry a fresh asset id assigned by this batch (id 0,
assigned to `/a` by the first spec), and that stub Asset row — created for
the loser path — is NOT deleted in the transaction: only the second spec's
stub (id 2) is.  This falsifies both the winner-iff characterization and the
loser-stub cleanup of the claim on batches with duplicate paths. -/
theorem batch_insert_duplicate_path_counterexample :
    (batch_insert_seed_assets DB.empty
        [⟨"/a", 10, 1, "a", [], "", none, none⟩,
         ⟨"/a", 10, 2, "a", [], "", none, none⟩] "").2 =
      ⟨0, 0, 1⟩ ∧
    (batch_insert_seed_assets DB.empty
        [⟨"/a", 10, 1, "a", [], "", none, none⟩,
         ⟨"/a", 10, 2, "a", [], "", none, none⟩] "").1.assets =
      [⟨0, none, 10, none⟩] ∧
    (batch_insert_seed_assets DB.empty
        [⟨"/a", 10, 1, "a", [], "", none, none⟩,
         ⟨"/a", 10, 2, "a", [], "", none, none⟩] "").1.cacheStates =
      [⟨4, 0, "/a", some 1, false, false⟩] ∧
    seedPairs DB.empty.nextId
        [⟨"/a", 10, 1, "a", [], "", none, none⟩,
         ⟨"/a", 10, 2, "a", [], "", none, none⟩] =
      [(0, ⟨"/a", 10, 1, "a", [], "", none, none⟩),
       (2, ⟨"/a", 10, 2, "a", [], "", none, none⟩)] := by
  refine ⟨by decide, by decide, by decide, by decide⟩

/-- C2 counterexample: one spec for `/a` (mtime 99) against a store holding a
missing cache-state row at `/a` owned by pre-existing asset 5 (mtime 10).
The batch loses the path (`won = 0`, `lost = 1`), yet `is_missing` on that
loser-path row has been cleared by the `restore_cache_states_by_paths` call —
which the code issues on ALL batch paths before winners are resolved — and
the row keeps its old mtime 10, not the batch's 99.  This falsifies both
"invoked on exactly the winner paths (and no loser paths)" and "carries the
new mtime from the batch's spec". -/
theorem restore_on_loser_path_counterexample :
    (batch_insert_seed_assets
        { DB.empty with
          assets := [⟨5, none, 10, none⟩],
          cacheStates := [⟨1, 5, "/a", some 10, false, true⟩],
          nextId := 6 }
        [⟨"/a", 10, 99, "a", [], "", none, none⟩] "").2 =
      ⟨0, 0, 1⟩ ∧
    (batch_insert_seed_assets
        { DB.empty with
          assets := [⟨5, none, 10, none⟩],
          cacheStates := [⟨1, 5, "/a", some 10, false, true⟩],
          nextId := 6 }
        [⟨"/a", 10, 99, "a", [], "", none, none⟩] "").1.cacheStates =
      [⟨1, 5, "/a", some 10, false, false⟩] := by
  refine ⟨by decide, by decide⟩

/-- C9 counterexample: two references sharing `created_at` but with distinct
ids admit two different pages under the very ORDER BY the code emits, so the
ordering is not total and the page is not unique — the id tiebreak the claim
asserts does not exist. -/
theorem list_page_counterexample :
    IsPageResult [⟨1, "a", 5, 0, 0, 0⟩, ⟨2, "b", 5, 0, 0, 0⟩]
      "created_at" "desc" 2 0 [⟨1, "a", 5, 0, 0, 0⟩, ⟨2, "b", 5, 0, 0, 0⟩] ∧
    IsPageResult [⟨1, "a", 5, 0, 0, 0⟩, ⟨2, "b", 5, 0, 0, 0⟩]
      "created_at" "desc" 2 0 [⟨2, "b", 5, 0, 0, 0⟩, ⟨1, "a", 5, 0, 0, 0⟩] ∧
    ([⟨1, "a", 5, 0, 0, 0⟩, ⟨2, "b", 5, 0, 0, 0⟩] : List ListedRef) ≠
      [⟨2, "b", 5, 0, 0, 0⟩, ⟨1, "a", 5, 0, 0, 0⟩] := by
  refine ⟨⟨[⟨1, "a", 5, 0, 0, 0⟩, ⟨2, "b", 5, 0, 0, 0⟩], List.Perm.refl _,
      by decide, rfl⟩,
    ⟨[⟨2, "b", 5, 0, 0, 0⟩, ⟨1, "a", 5, 0, 0, 0⟩], List.Perm.swap _ _ _,
      by decide, rfl⟩, by decide⟩

/-! ### Lemmas on the bulk-ingest building blocks -/

theorem filter_length_partition {α : Type} (l : List α) (p : α → Bool) :
    (l.filter p).length + (l.filter (fun x => ! p x)).length = l.length := by
  induction l with
  | nil => rfl
  | cons a t ih =>
    by_cases h : p a = true
    · rw [List.filter_cons_of_pos h, List.filter_cons_of_neg (by simp [h])]
      simp only [List.length_cons]
      omega
    · have hb : p a = false := by
        cases hpa : p a
        · rfl
        · exact absurd hpa h
      rw [List.filter_cons_of_neg (by simp [hb]),
        List.filter_cons_of_pos (by simp [hb])]
      simp only [List.length_cons]
      omega

theorem seedPairs_map_snd (base : Nat) (specs : List SeedSpec) :
    (seedPairs base specs).map Prod.snd = specs := by
  induction specs generalizing base with
  | nil => rfl
  | cons sp rest ih => simp [seedPairs, ih]

theorem seedPairs_length (base : Nat) (specs : List SeedSpec) :
    (seedPairs base specs).length = specs.length := by
  induction specs generalizing base with
  | nil => rfl
  | cons sp rest ih => simp [seedPairs, ih]

theorem seedPairs_mem_bound {base : Nat} {specs : List SeedSpec} :
    ∀ w ∈ seedPairs base specs,
      base ≤ w.1 ∧ w.1 < base + 2 * specs.length := by
  induction specs generalizing base with
  | nil => intro w hw; simp [seedPairs] at hw
  | cons sp rest ih =>
    intro w hw
    rcases List.mem_cons.mp hw with h | h
    · subst h
      refine ⟨Nat.le_refl base, ?_⟩
      show base < base + 2 * (sp :: rest).length
      simp only [List.length_cons]
      omega
    · rcases ih w h with ⟨h1, h2⟩
      refine ⟨by omega, ?_⟩
      simp only [List.length_cons]
      omega

theorem seedPairs_mem_spec {base : Nat} {specs : List SeedSpec} :
    ∀ w ∈ seedPairs base specs, w.2 ∈ specs := by
  intro w hw
  have h2 := List.mem_map_of_mem Prod.snd hw
  rw [seedPairs_map_snd] at h2
  exact h2

theorem seedPairs_path_inj {base : Nat} {specs : List SeedSpec}
    (hnd : (specs.map (fun sp => sp.absPath)).Nodup) :
    ∀ w1 ∈ seedPairs base specs, ∀ w2 ∈ seedPairs base specs,
      w1.2.absPath = w2.2.absPath → w1 = w2 := by
  induction specs generalizing base with
  | nil => intro w1 hw1; simp [seedPairs] at hw1
  | cons sp rest ih =>
    intro w1 hw1 w2 hw2 hpath
    simp only [List.map_cons, List.nodup_cons] at hnd
    rcases List.mem_cons.mp hw1 with h1 | h1 <;>
      rcases List.mem_cons.mp hw2 with h2 | h2
    · rw [h1, h2]
    · exfalso
      apply hnd.1
      refine List.mem_map.mpr ⟨w2.2, seedPairs_mem_spec w2 h2, ?_⟩
      rw [← hpath, h1]
    · exfalso
      apply hnd.1
      refine List.mem_map.mpr ⟨w1.2, seedPairs_mem_spec w1 h1, ?_⟩
      rw [hpath, h2]
    · exact ih hnd.2 w1 h1 w2 h2 hpath

theorem upsertAssoc_mem_src {l : List (String × Nat)} {k : String} {v : Nat} :
    ∀ kv ∈ upsertAssoc l k v, kv ∈ l ∨ kv = (k, v) := by
  intro kv hkv
  unfold upsertAssoc at hkv
  by_cases h : (l.any (fun kv => kv.1 = k)) = true
  · rw [if_pos h] at hkv
    rcases List.mem_map.mp hkv with ⟨kv0, hkv0, heq⟩
    by_cases hk : kv0.1 = k
    · right
      rw [← heq]
      simp [hk]
    · left
      rw [← heq]
      simp [hk]
      exact hkv0
  · rw [if_neg h] at hkv
    rcases List.mem_append.mp hkv with h1 | h1
    · exact Or.inl h1
    · simp only [List.mem_singleton] at h1
      exact Or.inr h1

theorem assocFoldP {P : String × Nat → Prop} :
    ∀ (prs : List (Nat × SeedSpec)) (acc : List (String × Nat)),
      (∀ kv ∈ acc, P kv) →
      (∀ w ∈ prs, P (w.2.absPath, w.1)) →
      ∀ kv ∈ prs.foldl (fun a w => upsertAssoc a w.2.absPath w.1) acc,
        P kv := by
  intro prs
  induction prs with
  | nil => intro acc hacc _ kv hkv; exact hacc kv hkv
  | cons w0 rest ih =>
    intro acc hacc hprs kv hkv
    simp only [List.foldl_cons] at hkv
    refine ih (upsertAssoc acc w0.2.absPath w0.1) ?_ ?_ kv hkv
    · intro kv2 hkv2
      rcases upsertAssoc_mem_src kv2 hkv2 with h | h
      · exact hacc kv2 h
      · rw [h]
        exact hprs w0 (by simp)
    · intro w hw
      exact hprs w (List.mem_cons_of_mem _ hw)

/-- Every entry of `path_to_asset_id` comes from a batch pair. -/
theorem seedPathToAsset_mem_src {db : DB} {specs : List SeedSpec} :
    ∀ kv ∈ seedPathToAsset db specs,
      ∃ w ∈ seedPairs db.nextId specs,
        kv = (w.2.absPath, w.1) := by
  intro kv hkv
  refine assocFoldP
    (P := fun kv => ∃ w ∈ seedPairs db.nextId specs, kv = (w.2.absPath, w.1))
    (seedPairs db.nextId specs) [] (by simp) ?_ kv hkv
  intro w hw
  exact ⟨w, hw, rfl⟩

theorem upsertAssoc_fresh {l : List (String × Nat)} {k : String} {v : Nat}
    (h : ¬ (l.any (fun kv => kv.1 = k)) = true) :
    upsertAssoc l k v = l ++ [(k, v)] := by
  unfold upsertAssoc
  rw [if_neg h]

/-- With pairwise-distinct batch paths the dict is just the pair list. -/
theorem assocFold_eq_append :
    ∀ (prs : List (Nat × SeedSpec)) (acc : List (String × Nat)),
      (acc.map Prod.fst ++ prs.map (fun w => w.2.absPath)).Nodup →
      prs.foldl (fun a w => upsertAssoc a w.2.absPath w.1) acc =
        acc ++ prs.map (fun w => (w.2.absPath, w.1)) := by
  intro prs
  induction prs with
  | nil => intro acc _; simp
  | cons w0 rest ih =>
    intro acc hnd
    have hnotin : w0.2.absPath ∉ acc.map Prod.fst := by
      intro hmem
      exact (List.nodup_append.mp hnd).2.2 hmem (by simp)
    have hany : (acc.any (fun kv => kv.1 = w0.2.absPath)) = false := by
      rw [List.any_eq_false]
      intro kv hkv
      simp only [decide_eq_true_eq]
      intro hk
      exact hnotin (List.mem_map.mpr ⟨kv, hkv, hk⟩)
    have hnd2 : ((acc ++ [(w0.2.absPath, w0.1)]).map Prod.fst ++
        rest.map (fun w => w.2.absPath)).Nodup := by
      rw [List.map_append, List.append_assoc]
      exact hnd
    simp only [List.foldl_cons]
    rw [upsertAssoc_fresh (by simp [hany])]
    rw [ih (acc ++ [(w0.2.absPath, w0.1)]) hnd2]
    rw [List.append_assoc]
    rfl

/-- `seedPairs` keeps the batch paths in order. -/
theorem seedPairs_map_path (base : Nat) (specs : List SeedSpec) :
    (seedPairs base specs).map (fun w => w.2.absPath) =
      specs.map (fun sp => sp.absPath) := by
  rw [show (fun w : Nat × SeedSpec => w.2.absPath) =
    (fun sp : SeedSpec => sp.absPath) ∘ Prod.snd from rfl]
  rw [← List.map_map, seedPairs_map_snd]

theorem seedPathToAsset_eq {db : DB} {specs : List SeedSpec}
    (hnd : (specs.map (fun sp => sp.absPath)).Nodup) :
    seedPathToAsset db specs =
      (seedPairs db.nextId specs).map (fun w => (w.2.absPath, w.1)) := by
  have hc : (([] : List (String × Nat)).map Prod.fst ++
      (seedPairs db.nextId specs).map (fun w => w.2.absPath)).Nodup := by
    simp only [List.map_nil, List.nil_append]
    rw [seedPairs_map_path]
    exact hnd
  unfold seedPathToAsset
  rw [assocFold_eq_append _ _ hc, List.nil_append]

theorem assocLookup_mem {l : List (String × Nat)} {k : String} {v : Nat}
    (h : assocLookup l k = some v) : (k, v) ∈ l := by
  unfold assocLookup at h
  cases hf : l.find? (fun kv => kv.1 = k) with
  | none => rw [hf] at h; exact absurd h (by simp)
  | some kv =>
    rw [hf] at h
    simp at h
    have hmem := List.mem_of_find?_eq_some hf
    have hpred := List.find?_some hf
    simp only [decide_eq_true_eq] at hpred
    have : kv = (k, v) := by
      cases kv
      simp_all
    rw [← this]
    exact hmem

theorem assocLookup_key_mem {l : List (String × Nat)} {k : String} {v : Nat}
    (h : assocLookup l k = some v) : k ∈ l.map Prod.fst := by
  exact List.mem_map.mpr ⟨(k, v), assocLookup_mem h, rfl⟩

theorem assocLookup_of_key_mem {l : List (String × Nat)} {k : String}
    (h : k ∈ l.map Prod.fst) : ∃ v, assocLookup l k = some v := by
  rcases List.mem_map.mp h with ⟨kv, hkv, hk⟩
  unfold assocLookup
  cases hf : l.find? (fun kv => kv.1 = k) with
  | none =>
    exfalso
    have := List.find?_eq_none.mp hf kv hkv
    simp [hk] at this
  | some kv2 => exact ⟨kv2.2, by simp⟩

theorem assocLookup_nodup_of_mem {l : List (String × Nat)}
    (hnd : (l.map Prod.fst).Nodup) {k : String} {v : Nat}
    (hm : (k, v) ∈ l) : assocLookup l k = some v := by
  induction l with
  | nil => simp at hm
  | cons kv0 rest ih =>
    simp only [List.map_cons, List.nodup_cons] at hnd
    rcases List.mem_cons.mp hm with h | h
    · rw [← h]
      unfold assocLookup
      simp [List.find?_cons_of_pos]
    · have hk : kv0.1 ≠ k := by
        intro heq
        apply hnd.1
        rw [heq]
        exact List.mem_map.mpr ⟨(k, v), h, rfl⟩
      unfold assocLookup
      rw [List.find?_cons_of_neg _ (by simp [hk])]
      exact ih hnd.2 h

/-- One step of the conflict-ignoring cache-state insert. -/
theorem bic_cons (db : DB) (r : CacheRowData) (rest : List CacheRowData) :
    bulk_insert_cache_states_ignore_conflicts db (r :: rest) =
      bulk_insert_cache_states_ignore_conflicts
        (if (db.cacheStates.any (fun s => s.filePath = r.filePath)) = true
         then db
         else { db with
           cacheStates := db.cacheStates ++
             [⟨db.nextId, r.assetId, r.filePath, some r.mtimeNs, false,
               false⟩],
           nextId := db.nextId + 1 }) rest := rfl

theorem bic_mem_preserve :
    ∀ (rows : List CacheRowData) (db : DB) (s : CState),
      s ∈ db.cacheStates →
      s ∈ (bulk_insert_cache_states_ignore_conflicts db rows).cacheStates := by
  intro rows
  induction rows with
  | nil => intro db s hs; exact hs
  | cons r rest ih =>
    intro db s hs
    rw [bic_cons]
    by_cases h : (db.cacheStates.any (fun s => s.filePath = r.filePath)) = true
    · rw [if_pos h]
      exact ih db s hs
    · rw [if_neg h]
      exact ih _ s (List.mem_append.mpr (Or.inl hs))

theorem bic_mem_src :
    ∀ (rows : List CacheRowData) (db : DB) (s : CState),
      s ∈ (bulk_insert_cache_states_ignore_conflicts db rows).cacheStates →
      s ∈ db.cacheStates ∨ ∃ r ∈ rows, s.filePath = r.filePath ∧
        s.assetId = r.assetId ∧ s.mtimeNs = some r.mtimeNs ∧
        s.isMissing = false := by
  intro rows
  induction rows with
  | nil => intro db s hs; exact Or.inl hs
  | cons r rest ih =>
    intro db s hs
    rw [bic_cons] at hs
    by_cases h : (db.cacheStates.any (fun s => s.filePath = r.filePath)) = true
    · rw [if_pos h] at hs
      rcases ih db s hs with h1 | ⟨r2, hr2, hf⟩
      · exact Or.inl h1
      · exact Or.inr ⟨r2, List.mem_cons_of_mem _ hr2, hf⟩
    · rw [if_neg h] at hs
      rcases ih _ s hs with h1 | ⟨r2, hr2, hf⟩
      · rcases List.mem_append.mp h1 with h2 | h2
        · exact Or.inl h2
        · simp only [List.mem_singleton] at h2
          subst h2
          exact Or.inr ⟨r, by simp, rfl, rfl, rfl, rfl⟩
      · exact Or.inr ⟨r2, List.mem_cons_of_mem _ hr2, hf⟩

theorem bic_existing_path_stable :
    ∀ (rows : List CacheRowData) (db : DB) (p : String),
      (∃ s ∈ db.cacheStates, s.filePath = p) →
      ∀ t ∈ (bulk_insert_cache_states_ignore_conflicts db rows).cacheStates,
        t.filePath = p → t ∈ db.cacheStates := by
  intro rows
  induction rows with
  | nil => intro db p _ t ht _; exact ht
  | cons r rest ih =>
    intro db p hex t ht htp
    rw [bic_cons] at ht
    by_cases h : (db.cacheStates.any (fun s => s.filePath = r.filePath)) = true
    · rw [if_pos h] at ht
      exact ih db p hex t ht htp
    · rw [if_neg h] at ht
      have hex2 : ∃ s ∈ (db.cacheStates ++
          [(⟨db.nextId, r.assetId, r.filePath, some r.mtimeNs, false,
            false⟩ : CState)]), s.filePath = p := by
        rcases hex with ⟨s, hs, hp⟩
        exact ⟨s, List.mem_append.mpr (Or.inl hs), hp⟩
      have ht2 := ih _ p hex2 t ht htp
      rcases List.mem_append.mp ht2 with h2 | h2
      · exact h2
      · exfalso
        simp only [List.mem_singleton] at h2
        rcases hex with ⟨s, hs, hp⟩
        apply absurd h
        simp only [not_not]
        apply List.any_eq_true.mpr
        refine ⟨s, hs, ?_⟩
        simp only [decide_eq_true_eq]
        rw [hp, ← htp, h2]

theorem bic_unique_insert :
    ∀ (rows : List CacheRowData) (db : DB) (p : String) (r : CacheRowData),
      (¬ ∃ s ∈ db.cacheStates, s.filePath = p) →
      r ∈ rows → r.filePath = p →
      (∀ r2 ∈ rows, r2.filePath = p → r2 = r) →
      ∃ t ∈ (bulk_insert_cache_states_ignore_conflicts db rows).cacheStates,
        t.filePath = p ∧ t.assetId = r.assetId ∧
        t.mtimeNs = some r.mtimeNs ∧ t.isMissing = false := by
  intro rows
  induction rows with
  | nil => intro db p r _ hr; simp at hr
  | cons r0 rest ih =>
    intro db p r hnot hr hrp huniq
    by_cases hpr : r0.filePath = p
    · have hr0 : r0 = r := huniq r0 (by simp) hpr
      have hcond : ¬ (db.cacheStates.any
          (fun s => s.filePath = r0.filePath)) = true := by
        simp only [List.any_eq_true, not_exists]
        intro s
        simp only [decide_eq_true_eq, not_and]
        intro hs heq
        exact hnot ⟨s, hs, by rw [heq, hpr]⟩
      rw [bic_cons, if_neg hcond]
      set nrow : CState :=
        ⟨db.nextId, r0.assetId, r0.filePath, some r0.mtimeNs, false, false⟩
        with hnrow
      refine ⟨nrow, bic_mem_preserve rest _ nrow ?_, ?_, ?_, ?_, ?_⟩
      · exact List.mem_append.mpr (Or.inr (by simp))
      · rw [hnrow]
        exact hpr
      · rw [hnrow, hr0]
      · rw [hnrow, hr0]
      · rw [hnrow]
    · have hrrest : r ∈ rest := by
        rcases List.mem_cons.mp hr with h | h
        · exact absurd (h ▸ hrp) hpr
        · exact h
      have huniq2 : ∀ r2 ∈ rest, r2.filePath = p → r2 = r :=
        fun r2 h2 hp2 => huniq r2 (List.mem_cons_of_mem _ h2) hp2
      rw [bic_cons]
      by_cases h : (db.cacheStates.any
          (fun s => s.filePath = r0.filePath)) = true
      · rw [if_pos h]
        exact ih db p r hnot hrrest hrp huniq2
      · rw [if_neg h]
        refine ih _ p r ?_ hrrest hrp huniq2
        intro ⟨s, hs, hp⟩
        rcases List.mem_append.mp hs with h2 | h2
        · exact hnot ⟨s, h2, hp⟩
        · simp only [List.mem_singleton] at h2
          apply hpr
          rw [← hp, h2]

/-- `restore_cache_states_by_paths` rows come from the old rows, keeping id,
asset, path and mtime. -/
theorem restore_src (db : DB) (ps : List String) :
    ∀ t ∈ (restore_cache_states_by_paths db ps).cacheStates,
      ∃ s ∈ db.cacheStates, t.id = s.id ∧ t.assetId = s.assetId ∧
        t.filePath = s.filePath ∧ t.mtimeNs = s.mtimeNs := by
  intro t ht
  unfold restore_cache_states_by_paths at ht
  rcases List.mem_map.mp ht with ⟨s, hs, heq⟩
  refine ⟨s, hs, ?_⟩
  by_cases h : (s.filePath ∈ ps ∧ s.isMissing = true)
  · rw [if_pos (by simpa using h)] at heq
    rw [← heq]
    exact ⟨rfl, rfl, rfl, rfl⟩
  · rw [if_neg (by simpa using h)] at heq
    rw [← heq]
    exact ⟨rfl, rfl, rfl, rfl⟩

/-- Rows at restored paths are active afterwards. -/
theorem restore_paths_active (db : DB) (ps : List String) :
    ∀ t ∈ (restore_cache_states_by_paths db ps).cacheStates,
      t.filePath ∈ ps → t.isMissing = false := by
  intro t ht htp
  unfold restore_cache_states_by_paths at ht
  rcases List.mem_map.mp ht with ⟨s, _hs, heq⟩
  by_cases h : (s.filePath ∈ ps ∧ s.isMissing = true)
  · rw [if_pos (by simpa using h)] at heq
    rw [← heq]
  · rw [if_neg (by simpa using h)] at heq
    push_neg at h
    by_cases hmem : s.filePath ∈ ps
    · have := h hmem
      rw [← heq]
      simpa using this
    · exfalso
      rw [← heq] at htp
      exact hmem htp

/-- Every old row survives `restore_cache_states_by_paths`, with `is_missing`
cleared when its path is listed. -/
theorem restore_preserve (db : DB) (ps : List String) :
    ∀ s ∈ db.cacheStates,
      ∃ t ∈ (restore_cache_states_by_paths db ps).cacheStates,
        t.id = s.id ∧ t.assetId = s.assetId ∧ t.filePath = s.filePath ∧
        t.mtimeNs = s.mtimeNs ∧
        (s.filePath ∈ ps → t.isMissing = false) := by
  intro s hs
  unfold restore_cache_states_by_paths
  by_cases h : (s.filePath ∈ ps ∧ s.isMissing = true)
  · refine ⟨{ s with isMissing := false },
      List.mem_map.mpr ⟨s, hs, by rw [if_pos (by simpa using h)]⟩,
      rfl, rfl, rfl, rfl, fun _ => rfl⟩
  · refine ⟨s, List.mem_map.mpr ⟨s, hs, by rw [if_neg (by simpa using h)]⟩,
      rfl, rfl, rfl, rfl, ?_⟩
    intro hmem
    push_neg at h
    simpa using h hmem

theorem delete_assets_mem_assets (db : DB) (ids : List Nat) (a : Asset) :
    a ∈ (delete_assets_by_ids db ids).assets ↔
      a ∈ db.assets ∧ a.id ∉ ids := by
  unfold delete_assets_by_ids
  by_cases h : ids = []
  · rw [if_pos h]
    simp [h]
  · rw [if_neg h]
    simp [List.mem_filter]

theorem delete_assets_mem_cache (db : DB) (ids : List Nat) (s : CState) :
    s ∈ (delete_assets_by_ids db ids).cacheStates ↔
      s ∈ db.cacheStates ∧ s.assetId ∉ ids := by
  unfold delete_assets_by_ids
  by_cases h : ids = []
  · rw [if_pos h]
    simp [h]
  · rw [if_neg h]
    simp [List.mem_filter]

theorem delete_assets_mem_infos (db : DB) (ids : List Nat) (i : Info) :
    i ∈ (delete_assets_by_ids db ids).infos ↔
      i ∈ db.infos ∧ i.assetId ∉ ids := by
  unfold delete_assets_by_ids
  by_cases h : ids = []
  · rw [if_pos h]
    simp [h]
  · rw [if_neg h]
    simp [List.mem_filter]

/-! ### Phase-level lemmas for the bulk ingest -/

theorem seedPhase2_def (db : DB) (specs : List SeedSpec) :
    seedPhase2 db specs =
      bulk_insert_cache_states_ignore_conflicts
        { db with
          assets := db.assets ++ (seedPairs db.nextId specs).map
            (fun w => ⟨w.1, w.2.hash, w.2.sizeBytes, none⟩),
          nextId := db.nextId + 2 * specs.length }
        ((seedPairs db.nextId specs).map
          (fun w => ⟨w.1, w.2.absPath, w.2.mtimeNs⟩)) := rfl

theorem seedPhase2_cache_preserve (db : DB) (specs : List SeedSpec) :
    ∀ s ∈ db.cacheStates, s ∈ (seedPhase2 db specs).cacheStates := by
  intro s hs
  rw [seedPhase2_def]
  exact bic_mem_preserve _ _ s hs

theorem seedPhase2_cache_src (db : DB) (specs : List SeedSpec) :
    ∀ t ∈ (seedPhase2 db specs).cacheStates,
      t ∈ db.cacheStates ∨ ∃ w ∈ seedPairs db.nextId specs,
        t.filePath = w.2.absPath ∧ t.assetId = w.1 ∧
        t.mtimeNs = some w.2.mtimeNs ∧ t.isMissing = false := by
  intro t ht
  rw [seedPhase2_def] at ht
  rcases bic_mem_src _ _ t ht with h | ⟨r, hr, h1, h2, h3, h4⟩
  · exact Or.inl h
  · rcases List.mem_map.mp hr with ⟨w, hw, heq⟩
    rw [← heq] at h1 h2 h3
    exact Or.inr ⟨w, hw, h1, h2, h3, h4⟩

theorem seedPhase2_stable (db : DB) (specs : List SeedSpec) (p : String)
    (hex : ∃ s ∈ db.cacheStates, s.filePath = p) :
    ∀ t ∈ (seedPhase2 db specs).cacheStates, t.filePath = p →
      t ∈ db.cacheStates := by
  rw [seedPhase2_def]
  exact bic_existing_path_stable _ _ p hex

theorem seedPhase2_winner_insert (db : DB) (specs : List SeedSpec)
    (p : String) (w : Nat × SeedSpec)
    (hnd : (specs.map (fun sp => sp.absPath)).Nodup)
    (hnot : ¬ ∃ s ∈ db.cacheStates, s.filePath = p)
    (hw : w ∈ seedPairs db.nextId specs) (hwp : w.2.absPath = p) :
    ∃ t ∈ (seedPhase2 db specs).cacheStates, t.filePath = p ∧
      t.assetId = w.1 ∧ t.mtimeNs = some w.2.mtimeNs ∧
      t.isMissing = false := by
  rw [seedPhase2_def]
  exact bic_unique_insert _ _ p ⟨w.1, w.2.absPath, w.2.mtimeNs⟩ hnot
    (List.mem_map.mpr ⟨w, hw, rfl⟩) hwp
    (by
      intro r2 hr2 hp2
      rcases List.mem_map.mp hr2 with ⟨w2, hw2, heq2⟩
      have hww : w2 = w := by
        refine seedPairs_path_inj hnd w2 hw2 w hw ?_
        rw [← heq2] at hp2
        rw [hwp]
        exact hp2
      rw [← heq2, hww])

theorem seedPhase3_src (db : DB) (specs : List SeedSpec) :
    ∀ t ∈ (seedPhase3 db specs).cacheStates,
      ∃ s ∈ (seedPhase2 db specs).cacheStates, t.id = s.id ∧
        t.assetId = s.assetId ∧ t.filePath = s.filePath ∧
        t.mtimeNs = s.mtimeNs := by
  unfold seedPhase3
  exact restore_src _ _

theorem seedPhase3_preserve (db : DB) (specs : List SeedSpec) :
    ∀ s ∈ (seedPhase2 db specs).cacheStates,
      ∃ t ∈ (seedPhase3 db specs).cacheStates, t.id = s.id ∧
        t.assetId = s.assetId ∧ t.filePath = s.filePath ∧
        t.mtimeNs = s.mtimeNs ∧
        (s.filePath ∈ specs.map (fun sp => sp.absPath) →
          t.isMissing = false) := by
  unfold seedPhase3
  exact restore_preserve _ _

theorem seedWinners_mem (db : DB) (specs : List SeedSpec) (p : String) :
    p ∈ seedWinners db specs ↔
      p ∈ (seedPathToAsset db specs).map Prod.fst ∧
      ∃ s ∈ (seedPhase3 db specs).cacheStates, s.filePath = p ∧
        s.assetId ∈ (seedPathToAsset db specs).map Prod.snd := by
  unfold seedWinners get_cache_states_by_paths_and_asset_ids
  rw [List.mem_filter]
  constructor
  · intro ⟨h1, h2⟩
    refine ⟨h1, ?_⟩
    simp only [List.any_eq_true, decide_eq_true_eq] at h2
    rcases h2 with ⟨s, hs, hsp, hsv⟩
    exact ⟨s, hs, hsp, hsv⟩
  · intro ⟨h1, s, hs, hsp, hsv⟩
    refine ⟨h1, ?_⟩
    simp only [List.any_eq_true, decide_eq_true_eq]
    exact ⟨s, hs, hsp, hsv⟩

theorem seedLosers_mem (db : DB) (specs : List SeedSpec) (p : String) :
    p ∈ seedLosers db specs ↔
      p ∈ (seedPathToAsset db specs).map Prod.fst ∧
      p ∉ seedWinners db specs := by
  unfold seedLosers
  rw [List.mem_filter]
  simp

theorem batch_final_assets (db : DB) (specs : List SeedSpec)
    (ownerId : String) (h : specs ≠ []) :
    (batch_insert_seed_assets db specs ownerId).1.assets =
      (seedDb4 db specs).assets := by
  unfold batch_insert_seed_assets
  rw [if_neg h]
  by_cases hw : seedWinners db specs = []
  · rw [if_pos hw]
  · rw [if_neg hw]
    rfl

theorem batch_final_cache (db : DB) (specs : List SeedSpec)
    (ownerId : String) (h : specs ≠ []) :
    (batch_insert_seed_assets db specs ownerId).1.cacheStates =
      (seedDb4 db specs).cacheStates := by
  unfold batch_insert_seed_assets
  rw [if_neg h]
  by_cases hw : seedWinners db specs = []
  · rw [if_pos hw]
  · rw [if_neg hw]
    rfl

theorem batch_counts (db : DB) (specs : List SeedSpec) (ownerId : String)
    (h : specs ≠ []) :
    (batch_insert_seed_assets db specs ownerId).2.wonStates =
      (seedWinners db specs).length ∧
    (batch_insert_seed_assets db specs ownerId).2.lostStates =
      (seedLosers db specs).length := by
  unfold batch_insert_seed_assets
  rw [if_neg h]
  by_cases hw : seedWinners db specs = []
  · rw [if_pos hw, hw]
    exact ⟨rfl, rfl⟩
  · rw [if_neg hw]
    exact ⟨rfl, rfl⟩

/-- Every value of `path_to_asset_id` is an asset id assigned by this batch,
hence at least `db.nextId`. -/
theorem seedPathToAsset_value_ge (db : DB) (specs : List SeedSpec) :
    ∀ kv ∈ seedPathToAsset db specs, db.nextId ≤ kv.2 := by
  intro kv hkv
  rcases seedPathToAsset_mem_src kv hkv with ⟨w, hw, heq⟩
  rw [heq]
  exact (seedPairs_mem_bound w hw).1

theorem seedLostIds_ge (db : DB) (specs : List SeedSpec) :
    ∀ v ∈ seedLostIds db specs, db.nextId ≤ v := by
  intro v hv
  unfold seedLostIds at hv
  rcases List.mem_filterMap.mp hv with ⟨p, _hp, hassoc⟩
  exact seedPathToAsset_value_ge db specs _ (assocLookup_mem hassoc)

theorem seedPhase3_paths_active (db : DB) (specs : List SeedSpec) :
    ∀ t ∈ (seedPhase3 db specs).cacheStates,
      t.filePath ∈ specs.map (fun sp => sp.absPath) →
      t.isMissing = false := by
  unfold seedPhase3
  exact restore_paths_active _ _

/-- C1 (amended).  For a batch whose specs carry pairwise-distinct absolute
paths (and fresh ids), the batch's paths are partitioned into winners and
losers; a path wins iff after the conflict-ignoring cache-state insert its
row carries the asset id this batch assigned to it; `won + lost` equals the
number of distinct paths; and the stub Asset row of every loser path is gone
from the final state.  (Batches with duplicate paths violate the claim: see
the counterexample.) -/
theorem batch_insert_seed_assets_partition (db : DB) (specs : List SeedSpec)
    (ownerId : String) (hne : specs ≠ [])
    (hnd : (specs.map (fun sp => sp.absPath)).Nodup)
    (hfc : ∀ s ∈ db.cacheStates, s.assetId < db.nextId) :
    (∀ p ∈ specs.map (fun sp => sp.absPath),
      (p ∈ seedWinners db specs ↔
        ∃ v, assocLookup (seedPathToAsset db specs) p = some v ∧
          ∃ t ∈ (seedPhase2 db specs).cacheStates,
            t.filePath = p ∧ t.assetId = v)) ∧
    (∀ p ∈ specs.map (fun sp => sp.absPath),
      (p ∈ seedWinners db specs ∧ p ∉ seedLosers db specs) ∨
      (p ∉ seedWinners db specs ∧ p ∈ seedLosers db specs)) ∧
    ((batch_insert_seed_assets db specs ownerId).2.wonStates +
      (batch_insert_seed_assets db specs ownerId).2.lostStates =
      (specs.map (fun sp => sp.absPath)).length) ∧
    (∀ p ∈ seedLosers db specs, ∀ v,
      assocLookup (seedPathToAsset db specs) p = some v →
      ∀ a ∈ (batch_insert_seed_assets db specs ownerId).1.assets,
        a.id ≠ v) := by
  have hpta := @seedPathToAsset_eq db _ hnd
  have hkeys : (seedPathToAsset db specs).map Prod.fst =
      specs.map (fun sp => sp.absPath) := by
    rw [hpta, List.map_map]
    exact seedPairs_map_path _ _
  have hkeysnd : ((seedPathToAsset db specs).map Prod.fst).Nodup := by
    rw [hkeys]
    exact hnd
  refine ⟨?_, ?_, ?_, ?_⟩
  · -- (a) winner characterization
    intro p _hp
    constructor
    · intro hwin
      rcases (seedWinners_mem db specs p).mp hwin with ⟨_hk, s, hs3, hsp, hsv⟩
      rcases seedPhase3_src db specs s hs3 with ⟨s2, hs2, _, haid, hfp, _⟩
      rcases List.mem_map.mp hsv with ⟨kv, hkv, hkvv⟩
      rcases seedPathToAsset_mem_src kv hkv with ⟨wv, hwv, hkveq⟩
      have hge : db.nextId ≤ s.assetId := by
        rw [← hkvv, hkveq]
        exact (seedPairs_mem_bound wv hwv).1
      rcases seedPhase2_cache_src db specs s2 hs2 with hpre | ⟨w, hw, h1, h2, _, _⟩
      · exfalso
        have := hfc s2 hpre
        rw [← haid] at this
        omega
      · have hs2p : s2.filePath = p := by
          rw [← hfp]
          exact hsp
        have hwabs : w.2.absPath = p := by
          rw [← h1]
          exact hs2p
        refine ⟨w.1, ?_, s2, hs2, hs2p, h2⟩
        refine assocLookup_nodup_of_mem hkeysnd ?_
        rw [hpta]
        exact List.mem_map.mpr ⟨w, hw, by rw [hwabs]⟩
    · intro ⟨v, hassoc, t, ht2, htp, hta⟩
      rcases seedPhase3_preserve db specs t ht2 with ⟨t3, ht3, _, haid, hfp, _, _⟩
      refine (seedWinners_mem db specs p).mpr
        ⟨assocLookup_key_mem hassoc, t3, ht3, by rw [hfp, htp], ?_⟩
      rw [haid, hta]
      exact List.mem_map.mpr ⟨(p, v), assocLookup_mem hassoc, rfl⟩
  · -- (b) partition
    intro p hp
    have hk : p ∈ (seedPathToAsset db specs).map Prod.fst := by
      rw [hkeys]
      exact hp
    by_cases hw : p ∈ seedWinners db specs
    · refine Or.inl ⟨hw, ?_⟩
      rw [seedLosers_mem]
      intro h
      exact h.2 hw
    · exact Or.inr ⟨hw, (seedLosers_mem db specs p).mpr ⟨hk, hw⟩⟩
  · -- (c) counts
    rw [(batch_counts db specs ownerId hne).1,
      (batch_counts db specs ownerId hne).2]
    have hwdef : seedWinners db specs =
        ((seedPathToAsset db specs).map Prod.fst).filter
          (fun p => (seedPhase3 db specs).cacheStates.any (fun s =>
            s.filePath = p ∧
            s.assetId ∈ (seedPathToAsset db specs).map Prod.snd)) := rfl
    have hlos : seedLosers db specs =
        ((seedPathToAsset db specs).map Prod.fst).filter
          (fun p => ! ((seedPhase3 db specs).cacheStates.any (fun s =>
            s.filePath = p ∧
            s.assetId ∈ (seedPathToAsset db specs).map Prod.snd))) := by
      unfold seedLosers
      apply List.filter_congr
      intro x hx
      by_cases hc : ((seedPhase3 db specs).cacheStates.any (fun s =>
          s.filePath = x ∧
          s.assetId ∈ (seedPathToAsset db specs).map Prod.snd)) = true
      · have hxw : x ∈ seedWinners db specs := by
          rw [hwdef]
          exact List.mem_filter.mpr ⟨hx, hc⟩
        rw [hc]
        simp only [Bool.not_true, decide_eq_false_iff_not, Decidable.not_not]
        exact hxw
      · have hcf : ((seedPhase3 db specs).cacheStates.any (fun s =>
            s.filePath = x ∧
            s.assetId ∈ (seedPathToAsset db specs).map Prod.snd)) = false := by
          revert hc
          cases ((seedPhase3 db specs).cacheStates.any (fun s =>
            s.filePath = x ∧
            s.assetId ∈ (seedPathToAsset db specs).map Prod.snd)) <;> simp
        have hxw : x ∉ seedWinners db specs := by
          rw [hwdef]
          intro hmem
          rw [(List.mem_filter.mp hmem).2] at hcf
          exact absurd hcf (by simp)
        rw [hcf]
        simp only [Bool.not_false, decide_eq_true_eq]
        exact hxw
    rw [hwdef, hlos, filter_length_partition, hkeys]
  · -- (d) loser stubs deleted
    intro p hp v hassoc a ha hav
    rw [batch_final_assets db specs ownerId hne] at ha
    unfold seedDb4 at ha
    have hnot := ((delete_assets_mem_assets _ _ a).mp ha).2
    apply hnot
    rw [hav]
    unfold seedLostIds
    exact List.mem_filterMap.mpr ⟨p, hp, hassoc⟩

/-- Witness for C1 (amended) on a one-spec batch over the empty store. -/
theorem batch_insert_seed_assets_partition_witness :
    (batch_insert_seed_assets DB.empty
        [⟨"/a", 10, 1, "a", [], "", none, none⟩] "").2.wonStates +
      (batch_insert_seed_assets DB.empty
        [⟨"/a", 10, 1, "a", [], "", none, none⟩] "").2.lostStates =
      (([⟨"/a", 10, 1, "a", [], "", none, none⟩] : List SeedSpec).map
        (fun sp => sp.absPath)).length :=
  (batch_insert_seed_assets_partition DB.empty
    [⟨"/a", 10, 1, "a", [], "", none, none⟩] "" (by decide) (by decide)
    (by decide)).2.2.1

/-- C2 (amended).  `restore_cache_states_by_paths` is invoked on ALL batch
paths before winners are resolved: after the transaction every cache-state
row at a batch path is active, a pre-existing row at a batch path survives
with its asset and its OLD mtime unchanged and `is_missing` cleared (even
when — necessarily — its path lost), and no winner path had any pre-existing
row, so there is never a previously-missing winner state to re-activate. -/
theorem batch_insert_restore_effects (db : DB) (specs : List SeedSpec)
    (ownerId : String)
    (hfc : ∀ s ∈ db.cacheStates, s.assetId < db.nextId) :
    (∀ t ∈ (batch_insert_seed_assets db specs ownerId).1.cacheStates,
      t.filePath ∈ specs.map (fun sp => sp.absPath) →
      t.isMissing = false) ∧
    (∀ s ∈ db.cacheStates, s.filePath ∈ specs.map (fun sp => sp.absPath) →
      ∃ t ∈ (batch_insert_seed_assets db specs ownerId).1.cacheStates,
        t.id = s.id ∧ t.assetId = s.assetId ∧ t.filePath = s.filePath ∧
        t.mtimeNs = s.mtimeNs ∧ t.isMissing = false) ∧
    (∀ p ∈ seedWinners db specs,
      ¬ ∃ s ∈ db.cacheStates, s.filePath = p) := by
  by_cases hne : specs = []
  · subst hne
    refine ⟨?_, ?_, ?_⟩
    · intro t _ht htp
      simp at htp
    · intro s _hs hsp
      simp at hsp
    · intro p hp
      have : seedWinners db [] = [] := rfl
      rw [this] at hp
      simp at hp
  · refine ⟨?_, ?_, ?_⟩
    · intro t ht htp
      rw [batch_final_cache db specs ownerId hne] at ht
      unfold seedDb4 at ht
      have ht3 := ((delete_assets_mem_cache _ _ t).mp ht).1
      exact seedPhase3_paths_active db specs t ht3 htp
    · intro s hs hsp
      have hs2 := seedPhase2_cache_preserve db specs s hs
      rcases seedPhase3_preserve db specs s hs2 with
        ⟨t, ht3, hid, haid, hfp, hmt, hmiss⟩
      refine ⟨t, ?_, hid, haid, hfp, hmt, hmiss hsp⟩
      rw [batch_final_cache db specs ownerId hne]
      unfold seedDb4
      refine (delete_assets_mem_cache _ _ t).mpr ⟨ht3, ?_⟩
      intro hmem
      have hge := seedLostIds_ge db specs t.assetId hmem
      have hlt := hfc s hs
      rw [haid] at hge
      omega
    · intro p hwin ⟨s0, hs0, hs0p⟩
      rcases (seedWinners_mem db specs p).mp hwin with ⟨_hk, s, hs3, hsp, hsv⟩
      rcases List.mem_map.mp hsv with ⟨kv, hkv, hkvv⟩
      have hge : db.nextId ≤ s.assetId := by
        rw [← hkvv]
        exact seedPathToAsset_value_ge db specs kv hkv
      rcases seedPhase3_src db specs s hs3 with ⟨s2, hs2, _, haid, hfp, _⟩
      have hs2db : s2 ∈ db.cacheStates := by
        refine seedPhase2_stable db specs p ⟨s0, hs0, hs0p⟩ s2 hs2 ?_
        rw [← hfp]
        exact hsp
      have := hfc s2 hs2db
      rw [← haid] at this
      omega

/-- Witness for C2 (amended): a missing row at the batch path is restored
with its old mtime. -/
theorem batch_insert_restore_effects_witness :
    ∃ t ∈ (batch_insert_seed_assets
        { DB.empty with
          assets := [⟨5, none, 10, none⟩],
          cacheStates := [⟨1, 5, "/a", some 10, false, true⟩],
          nextId := 6 }
        [⟨"/a", 10, 99, "a", [], "", none, none⟩] "").1.cacheStates,
      t.id = 1 ∧ t.assetId = 5 ∧ t.filePath = "/a" ∧
      t.mtimeNs = some 10 ∧ t.isMissing = false :=
  (batch_insert_restore_effects
    { DB.empty with
      assets := [⟨5, none, 10, none⟩],
      cacheStates := [⟨1, 5, "/a", some 10, false, true⟩],
      nextId := 6 }
    [⟨"/a", 10, 99, "a", [], "", none, none⟩] "" (by decide)).2.1
    ⟨1, 5, "/a", some 10, false, true⟩ (by simp) (by simp)

/-! ### Theorems for the ingest service -/

theorem set_asset_info_tags_infos (db : DB) (iid : Nat) (ts : List String)
    (o : String) : (set_asset_info_tags db iid ts o).infos = db.infos := by
  unfold set_asset_info_tags ensure_tags_exist
  dsimp only
  split <;> rfl

theorem set_asset_info_metadata_attrs (db : DB) (iid : Nat)
    (md : List (String × String)) :
    ∀ i ∈ db.infos, ∃ i2 ∈ (set_asset_info_metadata db iid md).infos,
      i2.id = i.id ∧ i2.ownerId = i.ownerId ∧ i2.name = i.name ∧
      i2.assetId = i.assetId := by
  intro i hi
  unfold set_asset_info_metadata
  dsimp only
  refine ⟨_, List.mem_map.mpr ⟨i, hi, rfl⟩, ?_⟩
  by_cases h : i.id = iid <;> simp [h]

/-- `registerNewRefDb` never changes the identity attributes of a stored
reference row. -/
theorem registerNewRefDb_infos_attr (env : Env) (db1 : DB)
    (assetId infoId : Nat) (um : List (String × String))
    (tags : Option (List String)) (origin : String) :
    ∀ i ∈ db1.infos, ∃ i2 ∈
      (registerNewRefDb env db1 assetId infoId um tags origin).infos,
      i2.id = i.id ∧ i2.ownerId = i.ownerId ∧ i2.name = i.name ∧
      i2.assetId = i.assetId := by
  intro i hi
  unfold registerNewRefDb
  dsimp only
  have hbase : ∀ md : List (String × String), ∃ i2 ∈
      (if md ≠ [] then set_asset_info_metadata db1 infoId md
       else db1).infos,
      i2.id = i.id ∧ i2.ownerId = i.ownerId ∧ i2.name = i.name ∧
      i2.assetId = i.assetId := by
    intro md
    by_cases h : md ≠ []
    · rw [if_pos h]
      exact set_asset_info_metadata_attrs db1 infoId md i hi
    · rw [if_neg h]
      exact ⟨i, hi, rfl, rfl, rfl, rfl⟩
  cases tags with
  | some ts =>
    rw [set_asset_info_tags_infos]
    exact hbase _
  | none => exact hbase _

/-- On a known hash, `register_existing_asset` succeeds, its `created` flag
is true exactly when no reference `(asset, owner, name)` existed, and the
returned reference exists with those attributes. -/
theorem register_existing_asset_spec (env : Env) (db : DB)
    (canonical nm : String) (um : List (String × String))
    (tags : Option (List String)) (origin ownerId : String) (asset : Asset)
    (hasset : get_asset_by_hash db canonical = some asset) :
    ∃ db2 res,
      register_existing_asset env db canonical nm um tags origin ownerId =
        .ok (db2, res) ∧
      res.assetId = asset.id ∧
      (res.created = true ↔
        ¬ ∃ i ∈ db.infos, i.assetId = asset.id ∧ i.ownerId = ownerId ∧
          i.name = nm) ∧
      (∃ i ∈ db2.infos, i.id = res.infoId ∧ i.assetId = asset.id ∧
        i.ownerId = ownerId ∧ i.name = nm) := by
  unfold register_existing_asset
  rw [hasset]
  dsimp only
  unfold get_or_create_asset_info
  cases hfind : db.infos.find? (fun i => i.assetId = asset.id ∧
      i.ownerId = ownerId ∧ i.name = nm) with
  | some i =>
    have hpred := List.find?_some hfind
    simp only [decide_eq_true_eq] at hpred
    have hmem := List.mem_of_find?_eq_some hfind
    dsimp only
    rw [if_pos rfl]
    refine ⟨db, ⟨i.id, asset.id, false, get_asset_tags db i.id⟩,
      rfl, rfl, ?_, ⟨i, hmem, rfl, hpred⟩⟩
    constructor
    · intro hf
      exact absurd hf (by simp)
    · intro hno
      exact absurd ⟨i, hmem, hpred⟩ hno
  | none =>
    dsimp only
    rw [if_neg (by simp)]
    refine ⟨_, _, rfl, rfl, ?_, ?_⟩
    · constructor
      · intro _
        intro ⟨i, hi, h1, h2, h3⟩
        have := List.find?_eq_none.mp hfind i hi
        simp only [decide_eq_true_eq] at this
        exact this ⟨h1, h2, h3⟩
      · intro _
        rfl
    · have hmem1 : (⟨db.nextId, ownerId, nm, asset.id, none⟩ : Info) ∈
          ({ db with
              infos := db.infos ++
                [(⟨db.nextId, ownerId, nm, asset.id, none⟩ : Info)],
              nextId := db.nextId + 1 } : DB).infos :=
        List.mem_append.mpr (Or.inr (by simp))
      rcases registerNewRefDb_infos_attr env
        { db with
          infos := db.infos ++
            [(⟨db.nextId, ownerId, nm, asset.id, none⟩ : Info)],
          nextId := db.nextId + 1 }
        asset.id db.nextId um tags origin _ hmem1 with
        ⟨i2, hi2, ha, hb, hc, hd⟩
      exact ⟨i2, hi2, ha, hd, hb, hc⟩

/-- C8 (amended).  `create_from_hash` returns `none` on an unknown hash; on
a known hash it registers through `register_existing_asset`, whose internal
`created` flag is true exactly when no reference with the sanitized name
existed for that asset under the caller's owner — but the `UploadOut` that
`create_from_hash` returns carries `created_new = false` unconditionally,
even when a brand-new reference was just created. -/
theorem create_from_hash_spec (env : Env) (db : DB)
    (hashStr name : String) (tags : Option (List String))
    (um : Option (List (String × String))) (ownerId : String) :
    (get_asset_by_hash db (normalizeHashString hashStr) = none →
      create_from_hash env db hashStr name tags um ownerId = (db, none)) ∧
    (∀ asset, get_asset_by_hash db (normalizeHashString hashStr) =
        some asset →
      ∃ db2 res,
        register_existing_asset env db (normalizeHashString hashStr)
          (sanitizeFilename (some name)
            (afterColon (normalizeHashString hashStr)))
          (um.getD []) (some (tags.getD [])) "manual" ownerId =
          .ok (db2, res) ∧
        create_from_hash env db hashStr name tags um ownerId =
          (db2, some ⟨res.infoId, res.assetId, res.tags, false⟩) ∧
        (res.created = true ↔
          ¬ ∃ i ∈ db.infos, i.assetId = asset.id ∧ i.ownerId = ownerId ∧
            i.name = sanitizeFilename (some name)
              (afterColon (normalizeHashString hashStr))) ∧
        (∃ i ∈ db2.infos, i.id = res.infoId ∧ i.assetId = asset.id ∧
          i.ownerId = ownerId ∧
          i.name = sanitizeFilename (some name)
            (afterColon (normalizeHashString hashStr)))) := by
  constructor
  · intro h
    unfold create_from_hash
    dsimp only
    rw [h]
  · intro asset hasset
    rcases register_existing_asset_spec env db (normalizeHashString hashStr)
      (sanitizeFilename (some name)
        (afterColon (normalizeHashString hashStr)))
      (um.getD []) (some (tags.getD [])) "manual" ownerId asset hasset with
      ⟨db2, res, hreg, _haid, hiff, hex⟩
    refine ⟨db2, res, hreg, ?_, hiff, hex⟩
    unfold create_from_hash
    dsimp only
    rw [hasset]
    dsimp only
    rw [hreg]

/-- Witness for C8 (amended): unknown hash returns `none`. -/
theorem create_from_hash_spec_witness :
    create_from_hash stubEnv DB.empty "blake3:aa" "n" none none "" =
      (DB.empty, none) :=
  (create_from_hash_spec stubEnv DB.empty "blake3:aa" "n" none none "").1
    (by decide)

/-- C8 counterexample: on a store holding asset 0 with hash `blake3:aa` and
NO references, `create_from_hash` creates a brand-new reference (named
`alt`, owner `""`) yet reports `created_new = false` — so the created flag
is false even though no reference with that name existed. -/
theorem create_from_hash_created_flag_counterexample :
    ({ DB.empty with
        assets := [⟨0, some "blake3:aa", 5, none⟩],
        nextId := 1 } : DB).infos = [] ∧
    (create_from_hash stubEnv
      { DB.empty with
        assets := [⟨0, some "blake3:aa", 5, none⟩],
        nextId := 1 }
      "blake3:aa" "alt" none none "").2 = some ⟨1, 0, [], false⟩ ∧
    (create_from_hash stubEnv
      { DB.empty with
        assets := [⟨0, some "blake3:aa", 5, none⟩],
        nextId := 1 }
      "blake3:aa" "alt" none none "").1.infos =
      [⟨1, "", "alt", 0, none⟩] := by
  refine ⟨rfl, by decide, by decide⟩

/-- C7.  When a nonempty `expected_hash` disagrees with the computed BLAKE3
hash, `upload_from_temp_path` fails with `HashMismatch` before any database
or filesystem mutation; the route layer turns this into HTTP 400
`HASH_MISMATCH`, leaves the store exactly as it was (no Asset row, no
CacheState row from this upload), and deletes the temp file. -/
theorem upload_hash_mismatch_spec (env : Env) (sys : Sys)
    (tempPath : String) (name : Option String) (tags : Option (List String))
    (um : Option (List (String × String))) (cf : Option String)
    (ownerId expected digest : String)
    (hfnd : sys.files.Nodup)
    (hdig : env.hashFile tempPath = some digest)
    (hne : expected ≠ "")
    (hmm : ("blake3:" ++ digest) ≠ normalizeHashString expected) :
    upload_from_temp_path env sys tempPath name tags um cf ownerId
      (some expected) = .error .hashMismatch ∧
    (upload_asset_route env sys tempPath name tags um cf ownerId
      (some expected)).1 = 400 ∧
    (upload_asset_route env sys tempPath name tags um cf ownerId
      (some expected)).2.1 = "HASH_MISMATCH" ∧
    (upload_asset_route env sys tempPath name tags um cf ownerId
      (some expected)).2.2.db = sys.db ∧
    tempPath ∉ (upload_asset_route env sys tempPath name tags um cf ownerId
      (some expected)).2.2.files := by
  have herr : upload_from_temp_path env sys tempPath name tags um cf ownerId
      (some expected) = .error .hashMismatch := by
    unfold upload_from_temp_path
    rw [hdig]
    dsimp only
    rw [if_pos ?_]
    rw [decide_eq_true_eq]
    exact ⟨hne, hmm⟩
  have hroute : upload_asset_route env sys tempPath name tags um cf ownerId
      (some expected) =
      (400, "HASH_MISMATCH",
        { sys with files := sys.files.erase tempPath }) := by
    unfold upload_asset_route
    rw [herr]
  refine ⟨herr, by rw [hroute], by rw [hroute], by rw [hroute], ?_⟩
  rw [hroute]
  intro hmem
  exact (hfnd.mem_erase_iff.mp hmem).1 rfl

/-- Witness for C7 on a concrete mismatching upload. -/
theorem upload_hash_mismatch_spec_witness :
    upload_from_temp_path
      { stubEnv with hashFile := fun _ => some "aa" }
      ⟨DB.empty, ["/tmp/u1"]⟩ "/tmp/u1" none none none none ""
      (some "blake3:bb") = .error .hashMismatch ∧
    "/tmp/u1" ∉ (upload_asset_route
      { stubEnv with hashFile := fun _ => some "aa" }
      ⟨DB.empty, ["/tmp/u1"]⟩ "/tmp/u1" none none none none ""
      (some "blake3:bb")).2.2.files :=
  ⟨(upload_hash_mismatch_spec
      { stubEnv with hashFile := fun _ => some "aa" }
      ⟨DB.empty, ["/tmp/u1"]⟩ "/tmp/u1" none none none none ""
      "blake3:bb" "aa" (by decide) rfl (by decide) (by decide)).1,
    (upload_hash_mismatch_spec
      { stubEnv with hashFile := fun _ => some "aa" }
      ⟨DB.empty, ["/tmp/u1"]⟩ "/tmp/u1" none none none none ""
      "blake3:bb" "aa" (by decide) rfl (by decide) (by decide)).2.2.2.2⟩

/-! ### Reconcile-pass lemmas (`sync_cache_states_with_filesystem`) -/

theorem mem_orderedInsert {α : Type} (le : α → α → Bool) (a x : α) :
    ∀ l : List α, x ∈ orderedInsert le a l ↔ x = a ∨ x ∈ l := by
  intro l
  induction l with
  | nil => simp [orderedInsert]
  | cons b t ih =>
    unfold orderedInsert
    by_cases h : le a b = true
    · rw [if_pos h]
      simp
    · rw [if_neg h]
      simp only [List.mem_cons, ih]
      tauto

theorem mem_insertionSort {α : Type} (le : α → α → Bool) (x : α) :
    ∀ l : List α, x ∈ insertionSort le l ↔ x ∈ l := by
  intro l
  induction l with
  | nil => simp [insertionSort]
  | cons a t ih =>
    unfold insertionSort
    rw [mem_orderedInsert, ih]
    simp

/-- Rows of `get_cache_states_for_prefixes` come from matching cache states
joined with the first asset of their `asset_id`. -/
theorem mem_syncRows_src (db : DB) (pres : List String)
    (im : Bool) :
    ∀ r ∈ get_cache_states_for_prefixes db pres im,
      ∃ s ∈ db.cacheStates,
        (pathUnderAny pres s.filePath && (im || !s.isMissing)) = true ∧
        ∃ a, db.assets.find? (fun x => x.id = s.assetId) = some a ∧
          r = ⟨s.id, s.filePath, s.mtimeNs, s.needsVerify, s.assetId,
            a.hash, a.sizeBytes⟩ := by
  intro r hr
  unfold get_cache_states_for_prefixes at hr
  by_cases hp : pres = []
  · rw [if_pos hp] at hr
    simp at hr
  · rw [if_neg hp] at hr
    rw [mem_insertionSort] at hr
    rcases List.mem_filterMap.mp hr with ⟨s, hs, hmap⟩
    rcases List.mem_filter.mp hs with ⟨hsdb, hcond⟩
    cases hfind : db.assets.find? (fun x => x.id = s.assetId) with
    | none => rw [hfind] at hmap; exact absurd hmap (by simp)
    | some a =>
      rw [hfind] at hmap
      simp only [Option.map_some', Option.some.injEq] at hmap
      exact ⟨s, hsdb, by simpa using hcond, a, hfind, hmap.symm⟩

/-- The joined row of a matching cache state is listed. -/
theorem mem_syncRows_intro (db : DB) (pres : List String)
    (im : Bool) (s : CState) (a : Asset) (hpres : pres ≠ [])
    (hs : s ∈ db.cacheStates)
    (hcond : (pathUnderAny pres s.filePath && (im || !s.isMissing)) = true)
    (ha : db.assets.find? (fun x => x.id = s.assetId) = some a) :
    (⟨s.id, s.filePath, s.mtimeNs, s.needsVerify, s.assetId, a.hash,
      a.sizeBytes⟩ : SyncRow) ∈
      get_cache_states_for_prefixes db pres im := by
  unfold get_cache_states_for_prefixes
  rw [if_neg hpres, mem_insertionSort]
  refine List.mem_filterMap.mpr ⟨s, List.mem_filter.mpr ⟨hs, ?_⟩, ?_⟩
  · simpa using hcond
  · rw [ha]
    rfl

/-- All listed rows of one `asset_id` carry that asset's hash and size. -/
theorem syncRows_consistent (db : DB) (pres : List String)
    (im : Bool) (k : Nat) (a : Asset)
    (ha : db.assets.find? (fun x => x.id = k) = some a) :
    ∀ r ∈ get_cache_states_for_prefixes db pres im, r.assetId = k →
      r.assetHash = a.hash ∧ r.sizeBytes = a.sizeBytes := by
  intro r hr hrk
  rcases mem_syncRows_src db pres im r hr with
    ⟨s, _hs, _hcond, a2, hfind, heq⟩
  have hsk : s.assetId = k := by rw [heq] at hrk; exact hrk
  rw [hsk] at hfind
  rw [ha] at hfind
  cases hfind
  rw [heq]
  exact ⟨rfl, rfl⟩

/-- `find?` on a list of assets with pairwise-distinct ids returns the
member itself. -/
theorem find_id_nodup {l : List Asset} (hnd : (l.map Asset.id).Nodup)
    {a : Asset} (ha : a ∈ l) :
    l.find? (fun x => x.id = a.id) = some a := by
  induction l with
  | nil => simp at ha
  | cons b t ih =>
    simp only [List.map_cons, List.nodup_cons] at hnd
    rcases List.mem_cons.mp ha with h | h
    · subst h
      exact List.find?_cons_of_pos _ (by simp)
    · have hne : b.id ≠ a.id := by
        intro heq
        exact hnd.1 (heq ▸ List.mem_map.mpr ⟨a, h, rfl⟩)
      rw [List.find?_cons_of_neg _ (by simp [hne])]
      exact ih hnd.2 h

theorem syncStateOf_of_none {fs : List (String × FStat)} {sz : Nat}
    {r : SyncRow} (h : fsStat fs r.filePath = none) :
    syncStateOf fs sz r =
      ⟨r.stateId, r.filePath, false, false, r.needsVerify⟩ := by
  unfold syncStateOf
  rw [h]

theorem syncStateOf_exs_of_some {fs : List (String × FStat)} {sz : Nat}
    {r : SyncRow} {st : FStat} (h : fsStat fs r.filePath = some st) :
    (syncStateOf fs sz r).exs = true := by
  unfold syncStateOf
  rw [h]

theorem groupFind_nil (k : Nat) : groupFind [] k = none := rfl

theorem groupFind_addRow_other (fs : List (String × FStat)) (r : SyncRow)
    (k : Nat) (hk : r.assetId ≠ k) :
    ∀ g : List (Nat × AssetAcc),
      groupFind (addRowToGroups fs r g) k = groupFind g k := by
  intro g
  induction g with
  | nil =>
    unfold addRowToGroups groupFind
    rw [List.find?_cons_of_neg _ (by simpa using hk)]
  | cons e t ih =>
    rcases e with ⟨k0, acc0⟩
    unfold addRowToGroups
    by_cases h0 : k0 = r.assetId
    · rw [if_pos h0]
      unfold groupFind
      by_cases hk0 : k0 = k
      · exact absurd (hk0 ▸ h0.symm) hk
      · rw [List.find?_cons_of_neg _ (by simp [hk0]),
          List.find?_cons_of_neg _ (by simp [hk0])]
    · rw [if_neg h0]
      by_cases hk0 : k0 = k
      · unfold groupFind
        rw [List.find?_cons_of_pos _ (by simp [hk0]),
          List.find?_cons_of_pos _ (by simp [hk0])]
      · unfold groupFind at ih ⊢
        rw [List.find?_cons_of_neg _ (by simp [hk0]),
          List.find?_cons_of_neg _ (by simp [hk0])]
        exact ih

theorem groupFind_addRow_hit (fs : List (String × FStat)) (r : SyncRow) :
    ∀ (g : List (Nat × AssetAcc)) (acc : AssetAcc),
      groupFind g r.assetId = some acc →
      groupFind (addRowToGroups fs r g) r.assetId =
        some { acc with
          states := acc.states ++ [syncStateOf fs acc.sizeDb r] } := by
  intro g
  induction g with
  | nil => intro acc h; exact absurd h (by simp [groupFind_nil])
  | cons e t ih =>
    rcases e with ⟨k0, acc0⟩
    intro acc h
    unfold addRowToGroups
    by_cases h0 : k0 = r.assetId
    · rw [if_pos h0]
      unfold groupFind at h ⊢
      rw [List.find?_cons_of_pos _ (by simp [h0])] at h
      simp only [Option.map_some'] at h
      cases h
      rw [List.find?_cons_of_pos _ (by simp [h0])]
      rfl
    · rw [if_neg h0]
      unfold groupFind at h ⊢
      rw [List.find?_cons_of_neg _ (by simp [h0])] at h
      rw [List.find?_cons_of_neg _ (by simp [h0])]
      exact ih acc h

theorem groupFind_addRow_new (fs : List (String × FStat)) (r : SyncRow) :
    ∀ g : List (Nat × AssetAcc),
      groupFind g r.assetId = none →
      groupFind (addRowToGroups fs r g) r.assetId =
        some ⟨r.assetHash, r.sizeBytes, [syncStateOf fs r.sizeBytes r]⟩ := by
  intro g
  induction g with
  | nil =>
    intro _
    unfold addRowToGroups groupFind
    rw [List.find?_cons_of_pos _ (by simp)]
    rfl
  | cons e t ih =>
    rcases e with ⟨k0, acc0⟩
    intro h
    unfold groupFind at h
    by_cases h0 : k0 = r.assetId
    · rw [List.find?_cons_of_pos _ (by simp [h0])] at h
      exact absurd h (by simp)
    · rw [List.find?_cons_of_neg _ (by simp [h0])] at h
      unfold addRowToGroups
      rw [if_neg h0]
      unfold groupFind
      rw [List.find?_cons_of_neg _ (by simp [h0])]
      exact ih h

theorem groupFold_find_some (fs : List (String × FStat)) :
    ∀ (rows : List SyncRow) (g : List (Nat × AssetAcc)) (k : Nat)
      (acc : AssetAcc), groupFind g k = some acc →
      groupFind (rows.foldl (fun g r => addRowToGroups fs r g) g) k =
        some ⟨acc.hash, acc.sizeDb, acc.states ++
          (rows.filter (fun r => r.assetId = k)).map
            (syncStateOf fs acc.sizeDb)⟩ := by
  intro rows
  induction rows with
  | nil =>
    intro g k acc h
    simp only [List.foldl_nil, List.filter_nil, List.map_nil,
      List.append_nil]
    rw [h]

  | cons r rest ih =>
    intro g k acc h
    simp only [List.foldl_cons]
    by_cases hrk : r.assetId = k
    · subst hrk
      have h2 := groupFind_addRow_hit fs r g acc h
      have h3 := ih (addRowToGroups fs r g) r.assetId
        { acc with states := acc.states ++ [syncStateOf fs acc.sizeDb r] }
        h2
      rw [h3, List.filter_cons_of_pos (by simp)]
      simp [List.append_assoc]
    · have h2 : groupFind (addRowToGroups fs r g) k = some acc := by
        rw [groupFind_addRow_other fs r k hrk g]
        exact h
      rw [ih _ k acc h2, List.filter_cons_of_neg (by simp [hrk])]

theorem groupFold_find_none (fs : List (String × FStat)) :
    ∀ (rows : List SyncRow) (g : List (Nat × AssetAcc)) (k : Nat)
      (h : Option String) (sz : Nat), groupFind g k = none →
      (∀ r ∈ rows, r.assetId = k → r.assetHash = h ∧ r.sizeBytes = sz) →
      groupFind (rows.foldl (fun g r => addRowToGroups fs r g) g) k =
        if (rows.filter (fun r => r.assetId = k)) = [] then none
        else some ⟨h, sz, (rows.filter (fun r => r.assetId = k)).map
          (syncStateOf fs sz)⟩ := by
  intro rows
  induction rows with
  | nil =>
    intro g k h sz hg _
    simp only [List.foldl_nil, List.filter_nil, if_pos rfl]
    exact hg
  | cons r rest ih =>
    intro g k h sz hg hcons
    simp only [List.foldl_cons]
    by_cases hrk : r.assetId = k
    · have hhs := hcons r (by simp) hrk
      have h2 : groupFind (addRowToGroups fs r g) k =
          some ⟨h, sz, [syncStateOf fs sz r]⟩ := by
        rw [← hrk] at hg ⊢
        rw [groupFind_addRow_new fs r g hg, hhs.1, hhs.2]
      have h3 := groupFold_find_some fs rest (addRowToGroups fs r g) k
        ⟨h, sz, [syncStateOf fs sz r]⟩ h2
      rw [h3, List.filter_cons_of_pos (by simp [hrk]), if_neg (by simp)]
      simp
    · have h2 : groupFind (addRowToGroups fs r g) k = none := by
        rw [groupFind_addRow_other fs r k hrk g]
        exact hg
      rw [ih _ k h sz h2
        (fun r2 hr2 => hcons r2 (List.mem_cons_of_mem _ hr2)),
        List.filter_cons_of_neg (by simp [hrk])]

/-- The `by_asset` entry of one asset id collects exactly its rows' state
dicts, under that asset's hash and size. -/
theorem groupByAsset_find (fs : List (String × FStat)) (rows : List SyncRow)
    (k : Nat) (h : Option String) (sz : Nat)
    (hcons : ∀ r ∈ rows, r.assetId = k →
      r.assetHash = h ∧ r.sizeBytes = sz) :
    groupFind (groupByAsset fs rows) k =
      if (rows.filter (fun r => r.assetId = k)) = [] then none
      else some ⟨h, sz, (rows.filter (fun r => r.assetId = k)).map
        (syncStateOf fs sz)⟩ :=
  groupFold_find_none fs rows [] k h sz rfl hcons

theorem groupFind_mem {g : List (Nat × AssetAcc)} {k : Nat} {acc : AssetAcc}
    (h : groupFind g k = some acc) : (k, acc) ∈ g := by
  unfold groupFind at h
  cases hf : g.find? (fun e => e.1 = k) with
  | none => rw [hf] at h; exact absurd h (by simp)
  | some e =>
    rw [hf] at h
    simp only [Option.map_some', Option.some.injEq] at h
    have hpred := List.find?_some hf
    simp only [decide_eq_true_eq] at hpred
    have hm := List.mem_of_find?_eq_some hf
    have : (k, acc) = e := by
      cases e
      simp_all
    rw [this]
    exact hm

theorem addRow_keys (fs : List (String × FStat)) (r : SyncRow) :
    ∀ g : List (Nat × AssetAcc),
      (addRowToGroups fs r g).map Prod.fst =
        if g.any (fun e => e.1 = r.assetId) then g.map Prod.fst
        else g.map Prod.fst ++ [r.assetId] := by
  intro g
  induction g with
  | nil => simp [addRowToGroups]
  | cons e t ih =>
    rcases e with ⟨k0, acc0⟩
    unfold addRowToGroups
    by_cases h0 : k0 = r.assetId
    · rw [if_pos h0]
      rw [List.any_cons]
      simp [h0]
    · rw [if_neg h0]
      rw [List.any_cons]
      simp only [List.map_cons, ih]
      by_cases hany : (t.any fun e => e.1 = r.assetId) = true
      · simp [hany, h0]
      · simp [h0, hany]

theorem groupFold_keys_nodup (fs : List (String × FStat)) :
    ∀ (rows : List SyncRow) (g : List (Nat × AssetAcc)),
      (g.map Prod.fst).Nodup →
      (((rows.foldl (fun g r => addRowToGroups fs r g) g)).map
        Prod.fst).Nodup := by
  intro rows
  induction rows with
  | nil => intro g h; exact h
  | cons r rest ih =>
    intro g h
    simp only [List.foldl_cons]
    refine ih _ ?_
    rw [addRow_keys]
    by_cases hany : (g.any fun e => e.1 = r.assetId) = true
    · rw [if_pos hany]
      exact h
    · rw [if_neg hany]
      rw [List.nodup_append]
      refine ⟨h, List.nodup_singleton _, ?_⟩
      intro x hx
      simp only [List.mem_singleton]
      intro heq
      rcases List.mem_map.mp hx with ⟨e2, he2, hex⟩
      exact hany (List.any_eq_true.mpr ⟨e2, he2, by simp [hex, heq]⟩)

theorem groupByAsset_keys_nodup (fs : List (String × FStat))
    (rows : List SyncRow) :
    ((groupByAsset fs rows).map Prod.fst).Nodup :=
  groupFold_keys_nodup fs rows [] (by simp)

theorem groupFind_of_mem_nodup :
    ∀ {g : List (Nat × AssetAcc)}, (g.map Prod.fst).Nodup →
      ∀ {k : Nat} {acc : AssetAcc}, (k, acc) ∈ g →
        groupFind g k = some acc := by
  intro g
  induction g with
  | nil => intro _ k acc h; simp at h
  | cons e t ih =>
    intro hnd k acc hm
    simp only [List.map_cons, List.nodup_cons] at hnd
    rcases List.mem_cons.mp hm with h | h
    · rw [← h]
      unfold groupFind
      rw [List.find?_cons_of_pos _ (by simp)]
      rfl
    · have hne : e.1 ≠ k := by
        intro heq
        exact hnd.1 (heq ▸ List.mem_map.mpr ⟨(k, acc), h, rfl⟩)
      unfold groupFind
      rw [List.find?_cons_of_neg _ (by simp [hne])]
      exact ih hnd.2 h

theorem delete_orphaned_asset_ne (db : DB) (k : Nat) :
    ∀ a ∈ (delete_orphaned_seed_asset db k).1.assets, a.id ≠ k := by
  intro a ha
  unfold delete_orphaned_seed_asset at ha
  dsimp only at ha
  by_cases h : (db.assets.any (fun a => a.id = k)) = true
  · rw [if_pos h] at ha
    dsimp only at ha
    exact of_decide_eq_true (List.mem_filter.mp ha).2
  · rw [if_neg h] at ha
    dsimp only at ha
    intro heq
    exact h (List.any_eq_true.mpr ⟨a, ha, by simp [heq]⟩)

theorem delete_orphaned_info_ne (db : DB) (k : Nat) :
    ∀ i ∈ (delete_orphaned_seed_asset db k).1.infos, i.assetId ≠ k := by
  intro i hi
  unfold delete_orphaned_seed_asset at hi
  dsimp only at hi
  by_cases h : (db.assets.any (fun a => a.id = k)) = true
  · rw [if_pos h] at hi
    dsimp only at hi
    exact of_decide_eq_true (List.mem_filter.mp hi).2
  · rw [if_neg h] at hi
    dsimp only at hi
    exact of_decide_eq_true (List.mem_filter.mp hi).2

theorem delete_orphaned_asset_sub (db : DB) (k : Nat) :
    ∀ a ∈ (delete_orphaned_seed_asset db k).1.assets, a ∈ db.assets := by
  intro a ha
  unfold delete_orphaned_seed_asset at ha
  dsimp only at ha
  by_cases h : (db.assets.any (fun a => a.id = k)) = true
  · rw [if_pos h] at ha
    dsimp only at ha
    exact (List.mem_filter.mp ha).1
  · rw [if_neg h] at ha
    exact ha

theorem delete_orphaned_info_sub (db : DB) (k : Nat) :
    ∀ i ∈ (delete_orphaned_seed_asset db k).1.infos, i ∈ db.infos := by
  intro i hi
  unfold delete_orphaned_seed_asset at hi
  dsimp only at hi
  by_cases h : (db.assets.any (fun a => a.id = k)) = true
  · rw [if_pos h] at hi
    dsimp only at hi
    exact (List.mem_filter.mp hi).1
  · rw [if_neg h] at hi
    dsimp only at hi
    exact (List.mem_filter.mp hi).1

theorem delete_orphaned_asset_keep (db : DB) (k : Nat) :
    ∀ a ∈ db.assets, a.id ≠ k →
      a ∈ (delete_orphaned_seed_asset db k).1.assets := by
  intro a ha hne
  unfold delete_orphaned_seed_asset
  dsimp only
  by_cases h : (db.assets.any (fun a => a.id = k)) = true
  · rw [if_pos h]
    dsimp only
    exact List.mem_filter.mpr ⟨ha, by simp [hne]⟩
  · rw [if_neg h]
    exact ha

theorem add_missing_tag_assets (db : DB) (k : Nat) (o : String) :
    (add_missing_tag_for_asset_id db k o).assets = db.assets := rfl

theorem add_missing_tag_infos (db : DB) (k : Nat) (o : String) :
    (add_missing_tag_for_asset_id db k o).infos = db.infos := rfl

theorem remove_missing_tag_assets (db : DB) (k : Nat) :
    (remove_missing_tag_for_asset_id db k).assets = db.assets := rfl

theorem remove_missing_tag_infos (db : DB) (k : Nat) :
    (remove_missing_tag_for_asset_id db k).infos = db.infos := rfl

/-- The stub branch of the reconcile loop is a
`delete_orphaned_seed_asset`. -/
theorem pg_stub_delete (umt : Bool) (ac : SyncAccum) (e : Nat × AssetAcc)
    (hh : e.2.hash = none) (hne : e.2.states ≠ [])
    (hall : (e.2.states.all fun s => !s.exs) = true) :
    (processAssetGroup umt ac e).db =
      (delete_orphaned_seed_asset ac.db e.1).1 := by
  unfold processAssetGroup
  rw [hh]
  dsimp only
  rw [if_pos ⟨hne, hall⟩]

/-- The reconcile loop only ever shrinks the asset table. -/
theorem pg_assets_sub (umt : Bool) (ac : SyncAccum) (e : Nat × AssetAcc) :
    ∀ a ∈ (processAssetGroup umt ac e).db.assets, a ∈ ac.db.assets := by
  intro a ha
  unfold processAssetGroup at ha
  cases hh : e.2.hash with
  | none =>
    rw [hh] at ha
    dsimp only at ha
    by_cases hc : (e.2.states ≠ [] ∧
        (e.2.states.all fun s => !s.exs) = true)
    · rw [if_pos hc] at ha
      exact delete_orphaned_asset_sub ac.db e.1 a ha
    · rw [if_neg hc] at ha
      exact ha
  | some hv =>
    rw [hh] at ha
    dsimp only at ha
    by_cases hf : (e.2.states.any fun s => s.fastOk) = true
    · rw [if_pos hf] at ha
      by_cases hu : umt = true
      · rw [if_pos hu] at ha
        rw [remove_missing_tag_assets] at ha
        exact ha
      · rw [if_neg hu] at ha
        exact ha
    · rw [if_neg hf] at ha
      by_cases hu : umt = true
      · rw [if_pos hu] at ha
        rw [add_missing_tag_assets] at ha
        exact ha
      · rw [if_neg hu] at ha
        exact ha

/-- The reconcile loop only ever shrinks the reference table. -/
theorem pg_infos_sub (umt : Bool) (ac : SyncAccum) (e : Nat × AssetAcc) :
    ∀ i ∈ (processAssetGroup umt ac e).db.infos, i ∈ ac.db.infos := by
  intro i hi
  unfold processAssetGroup at hi
  cases hh : e.2.hash with
  | none =>
    rw [hh] at hi
    dsimp only at hi
    by_cases hc : (e.2.states ≠ [] ∧
        (e.2.states.all fun s => !s.exs) = true)
    · rw [if_pos hc] at hi
      exact delete_orphaned_info_sub ac.db e.1 i hi
    · rw [if_neg hc] at hi
      exact hi
  | some hv =>
    rw [hh] at hi
    dsimp only at hi
    by_cases hf : (e.2.states.any fun s => s.fastOk) = true
    · rw [if_pos hf] at hi
      by_cases hu : umt = true
      · rw [if_pos hu] at hi
        rw [remove_missing_tag_infos] at hi
        exact hi
      · rw [if_neg hu] at hi
        exact hi
    · rw [if_neg hf] at hi
      by_cases hu : umt = true
      · rw [if_pos hu] at hi
        rw [add_missing_tag_infos] at hi
        exact hi
      · rw [if_neg hu] at hi
        exact hi

theorem foldl_pg_assets_sub (umt : Bool) :
    ∀ (es : List (Nat × AssetAcc)) (ac : SyncAccum),
      ∀ a ∈ (es.foldl (processAssetGroup umt) ac).db.assets,
        a ∈ ac.db.assets := by
  intro es
  induction es with
  | nil => intro ac a ha; exact ha
  | cons e t ih =>
    intro ac a ha
    simp only [List.foldl_cons] at ha
    exact pg_assets_sub umt ac e a (ih _ a ha)

theorem foldl_pg_infos_sub (umt : Bool) :
    ∀ (es : List (Nat × AssetAcc)) (ac : SyncAccum),
      ∀ i ∈ (es.foldl (processAssetGroup umt) ac).db.infos,
        i ∈ ac.db.infos := by
  intro es
  induction es with
  | nil => intro ac i hi; exact hi
  | cons e t ih =>
    intro ac i hi
    simp only [List.foldl_cons] at hi
    exact pg_infos_sub umt ac e i (ih _ i hi)

/-- An asset survives one loop step when the step is not an all-missing
stub deletion of its own id. -/
theorem pg_asset_preserved (umt : Bool) (ac : SyncAccum)
    (e : Nat × AssetAcc) (a : Asset) (ha : a ∈ ac.db.assets)
    (hsafe : e.1 = a.id → ¬ (e.2.hash = none ∧ e.2.states ≠ [] ∧
      (e.2.states.all fun s => !s.exs) = true)) :
    a ∈ (processAssetGroup umt ac e).db.assets := by
  unfold processAssetGroup
  cases hh : e.2.hash with
  | none =>
    dsimp only
    by_cases hc : (e.2.states ≠ [] ∧
        (e.2.states.all fun s => !s.exs) = true)
    · rw [if_pos hc]
      refine delete_orphaned_asset_keep ac.db e.1 a ha ?_
      intro heq
      exact hsafe heq.symm ⟨hh, hc.1, hc.2⟩
    · rw [if_neg hc]
      exact ha
  | some hv =>
    dsimp only
    by_cases hf : (e.2.states.any fun s => s.fastOk) = true
    · rw [if_pos hf]
      by_cases hu : umt = true
      · rw [if_pos hu, remove_missing_tag_assets]
        exact ha
      · rw [if_neg hu]
        exact ha
    · rw [if_neg hf]
      by_cases hu : umt = true
      · rw [if_pos hu, add_missing_tag_assets]
        exact ha
      · rw [if_neg hu]
        exact ha

theorem foldl_pg_asset_preserved (umt : Bool) :
    ∀ (es : List (Nat × AssetAcc)) (ac : SyncAccum) (a : Asset),
      a ∈ ac.db.assets →
      (∀ e ∈ es, e.1 = a.id → ¬ (e.2.hash = none ∧ e.2.states ≠ [] ∧
        (e.2.states.all fun s => !s.exs) = true)) →
      a ∈ (es.foldl (processAssetGroup umt) ac).db.assets := by
  intro es
  induction es with
  | nil => intro ac a ha _; exact ha
  | cons e t ih =>
    intro ac a ha hsafe
    simp only [List.foldl_cons]
    refine ih _ a ?_ (fun e2 he2 => hsafe e2 (List.mem_cons_of_mem _ he2))
    exact pg_asset_preserved umt ac e a ha (hsafe e (by simp))

theorem delete_cache_states_by_ids_assets (db : DB) (ids : List Nat) :
    (delete_cache_states_by_ids db ids).assets = db.assets := by
  unfold delete_cache_states_by_ids
  split <;> rfl

theorem delete_cache_states_by_ids_infos (db : DB) (ids : List Nat) :
    (delete_cache_states_by_ids db ids).infos = db.infos := by
  unfold delete_cache_states_by_ids
  split <;> rfl

theorem bulk_set_needs_verify_assets (db : DB) (ids : List Nat) (v : Bool) :
    (bulk_set_needs_verify db ids v).assets = db.assets := by
  unfold bulk_set_needs_verify
  split <;> rfl

theorem bulk_set_needs_verify_infos (db : DB) (ids : List Nat) (v : Bool) :
    (bulk_set_needs_verify db ids v).infos = db.infos := by
  unfold bulk_set_needs_verify
  split <;> rfl

/-- The asset table after the reconcile pass is the one left by the
per-asset loop. -/
theorem sync_assets_eq (db : DB) (fs : List (String × FStat))
    (pres : List String) (c umt : Bool) (hpres : pres ≠ []) :
    (sync_cache_states_with_filesystem db fs pres c umt).1.assets =
      (((groupByAsset fs
        (get_cache_states_for_prefixes db pres false)).foldl
          (processAssetGroup umt) ⟨db, [], [], [], []⟩).db).assets := by
  unfold sync_cache_states_with_filesystem
  rw [if_neg hpres]
  dsimp only
  rw [bulk_set_needs_verify_assets, bulk_set_needs_verify_assets,
    delete_cache_states_by_ids_assets]

/-- The reference table after the reconcile pass is the one left by the
per-asset loop. -/
theorem sync_infos_eq (db : DB) (fs : List (String × FStat))
    (pres : List String) (c umt : Bool) (hpres : pres ≠ []) :
    (sync_cache_states_with_filesystem db fs pres c umt).1.infos =
      (((groupByAsset fs
        (get_cache_states_for_prefixes db pres false)).foldl
          (processAssetGroup umt) ⟨db, [], [], [], []⟩).db).infos := by
  unfold sync_cache_states_with_filesystem
  rw [if_neg hpres]
  dsimp only
  rw [bulk_set_needs_verify_infos, bulk_set_needs_verify_infos,
    delete_cache_states_by_ids_infos]

theorem pathUnderAny_ne_nil {pres : List String} {p : String}
    (h : pathUnderAny pres p = true) : pres ≠ [] := by
  intro heq
  subst heq
  simp [pathUnderAny] at h

/-- C5 (amended).  In the per-root reconcile pass only the states NOT
already flagged `is_missing` are consulted (`get_cache_states_for_prefixes`
defaults to `include_missing = false`).  A stub asset (`hash IS NULL`) with
at least one such active state under the root's prefixes is deleted —
together with its references — exactly when every one of those active
states fails to stat; if some active state under the prefixes stats
successfully, the asset is kept.  States already flagged missing play no
part, even when their files exist on disk (see the counterexample). -/
theorem sync_stub_asset_reconcile (db : DB) (fs : List (String × FStat))
    (pres : List String) (c umt : Bool) (a : Asset)
    (ha : a ∈ db.assets) (hh : a.hash = none)
    (hnda : (db.assets.map Asset.id).Nodup) :
    (((∃ s ∈ db.cacheStates, s.assetId = a.id ∧
        pathUnderAny pres s.filePath = true ∧ s.isMissing = false) ∧
      (∀ s ∈ db.cacheStates, s.assetId = a.id →
        pathUnderAny pres s.filePath = true → s.isMissing = false →
        fsStat fs s.filePath = none)) →
      (∀ a2 ∈ (sync_cache_states_with_filesystem db fs pres c
          umt).1.assets, a2.id ≠ a.id) ∧
      (∀ i ∈ (sync_cache_states_with_filesystem db fs pres c
          umt).1.infos, i.assetId ≠ a.id)) ∧
    ((∃ s ∈ db.cacheStates, s.assetId = a.id ∧
        pathUnderAny pres s.filePath = true ∧ s.isMissing = false ∧
        fsStat fs s.filePath ≠ none) →
      a ∈ (sync_cache_states_with_filesystem db fs pres c
        umt).1.assets) := by
  have hfind : db.assets.find? (fun x => x.id = a.id) = some a :=
    find_id_nodup hnda ha
  constructor
  · intro ⟨⟨s0, hs0, hs0a, hs0u, hs0m⟩, hallmiss⟩
    have hpres : pres ≠ [] := pathUnderAny_ne_nil hs0u
    have hcons := syncRows_consistent db pres false a.id a hfind
    have hr0 : (⟨s0.id, s0.filePath, s0.mtimeNs, s0.needsVerify,
        s0.assetId, a.hash, a.sizeBytes⟩ : SyncRow) ∈
        get_cache_states_for_prefixes db pres false := by
      refine mem_syncRows_intro db pres false s0 a hpres hs0
        (by simp [hs0u, hs0m]) ?_
      rw [hs0a]
      exact hfind
    have hfmem : (⟨s0.id, s0.filePath, s0.mtimeNs, s0.needsVerify,
        s0.assetId, a.hash, a.sizeBytes⟩ : SyncRow) ∈
        (get_cache_states_for_prefixes db pres false).filter
          (fun r => r.assetId = a.id) :=
      List.mem_filter.mpr ⟨hr0, by simp [hs0a]⟩
    have hfne : ((get_cache_states_for_prefixes db pres false).filter
        (fun r => r.assetId = a.id)) ≠ [] :=
      List.ne_nil_of_mem hfmem
    have hgf := groupByAsset_find fs
      (get_cache_states_for_prefixes db pres false) a.id a.hash
      a.sizeBytes hcons
    rw [if_neg hfne] at hgf
    have hmem := groupFind_mem hgf
    have hall : ((((get_cache_states_for_prefixes db pres
        false).filter (fun r => r.assetId = a.id)).map
          (syncStateOf fs a.sizeBytes)).all fun s => !s.exs) = true := by
      rw [List.all_eq_true]
      intro st hst
      rcases List.mem_map.mp hst with ⟨r, hrf, heq⟩
      rcases List.mem_filter.mp hrf with ⟨hr, hrk⟩
      rcases mem_syncRows_src db pres false r hr with
        ⟨s2, hs2, hcond2, a2, _hf2, heq2⟩
      have hs2a : s2.assetId = a.id := by
        have : r.assetId = a.id := of_decide_eq_true hrk
        rw [heq2] at this
        exact this
      have hcond2' := hcond2
      simp only [Bool.and_eq_true] at hcond2'
      have hs2u : pathUnderAny pres s2.filePath = true := hcond2'.1
      have hs2m : s2.isMissing = false := by
        have := hcond2'.2
        simp at this
        exact this
      have hnone : fsStat fs s2.filePath = none :=
        hallmiss s2 hs2 hs2a hs2u hs2m
      have hrp : r.filePath = s2.filePath := by rw [heq2]
      rw [← heq, syncStateOf_of_none (by rw [hrp]; exact hnone)]
      rfl
    rcases List.append_of_mem hmem with ⟨g1, g2, hsplit⟩
    have hsne : (((get_cache_states_for_prefixes db pres
        false).filter (fun r => r.assetId = a.id)).map
          (syncStateOf fs a.sizeBytes)) ≠ [] := by
      intro hmapnil
      exact hfne (List.map_eq_nil_iff.mp hmapnil)
    have hfold : ((groupByAsset fs
        (get_cache_states_for_prefixes db pres false)).foldl
          (processAssetGroup umt) ⟨db, [], [], [], []⟩) =
        g2.foldl (processAssetGroup umt)
          (processAssetGroup umt
            (g1.foldl (processAssetGroup umt) ⟨db, [], [], [], []⟩)
            (a.id, ⟨a.hash, a.sizeBytes,
              ((get_cache_states_for_prefixes db pres false).filter
                (fun r => r.assetId = a.id)).map
                  (syncStateOf fs a.sizeBytes)⟩)) := by
      rw [hsplit, List.foldl_append, List.foldl_cons]
    have hdel := pg_stub_delete umt
      (g1.foldl (processAssetGroup umt) ⟨db, [], [], [], []⟩)
      (a.id, ⟨a.hash, a.sizeBytes,
        ((get_cache_states_for_prefixes db pres false).filter
          (fun r => r.assetId = a.id)).map (syncStateOf fs a.sizeBytes)⟩)
      hh hsne hall
    constructor
    · intro a2 ha2 heq
      rw [sync_assets_eq db fs pres c umt hpres, hfold] at ha2
      have ha2' := foldl_pg_assets_sub umt g2 _ a2 ha2
      rw [hdel] at ha2'
      exact delete_orphaned_asset_ne _ a.id a2 ha2' heq
    · intro i hi
      rw [sync_infos_eq db fs pres c umt hpres, hfold] at hi
      have hi' := foldl_pg_infos_sub umt g2 _ i hi
      rw [hdel] at hi'
      exact delete_orphaned_info_ne _ a.id i hi'
  · intro ⟨s0, hs0, hs0a, hs0u, hs0m, hs0f⟩
    have hpres : pres ≠ [] := pathUnderAny_ne_nil hs0u
    have hcons := syncRows_consistent db pres false a.id a hfind
    have hr0 : (⟨s0.id, s0.filePath, s0.mtimeNs, s0.needsVerify,
        s0.assetId, a.hash, a.sizeBytes⟩ : SyncRow) ∈
        get_cache_states_for_prefixes db pres false := by
      refine mem_syncRows_intro db pres false s0 a hpres hs0
        (by simp [hs0u, hs0m]) ?_
      rw [hs0a]
      exact hfind
    have hfmem : (⟨s0.id, s0.filePath, s0.mtimeNs, s0.needsVerify,
        s0.assetId, a.hash, a.sizeBytes⟩ : SyncRow) ∈
        (get_cache_states_for_prefixes db pres false).filter
          (fun r => r.assetId = a.id) :=
      List.mem_filter.mpr ⟨hr0, by simp [hs0a]⟩
    have hfne : ((get_cache_states_for_prefixes db pres false).filter
        (fun r => r.assetId = a.id)) ≠ [] :=
      List.ne_nil_of_mem hfmem
    have hgf := groupByAsset_find fs
      (get_cache_states_for_prefixes db pres false) a.id a.hash
      a.sizeBytes hcons
    rw [if_neg hfne] at hgf
    have hmem := groupFind_mem hgf
    have hknd := groupByAsset_keys_nodup fs
      (get_cache_states_for_prefixes db pres false)
    rw [sync_assets_eq db fs pres c umt hpres]
    refine foldl_pg_asset_preserved umt _ ⟨db, [], [], [], []⟩ a ha ?_
    intro e he hek hcond
    have hgfe : groupFind (groupByAsset fs
        (get_cache_states_for_prefixes db pres false)) e.1 =
        some e.2 := groupFind_of_mem_nodup hknd (by
      rcases e with ⟨k, acc⟩
      exact he)
    rw [hek] at hgfe
    rw [hgf] at hgfe
    have he2 : e.2 = ⟨a.hash, a.sizeBytes,
        ((get_cache_states_for_prefixes db pres false).filter
          (fun r => r.assetId = a.id)).map
            (syncStateOf fs a.sizeBytes)⟩ := (Option.some.inj hgfe).symm
    rcases hcond with ⟨_, _, hallm⟩
    rw [he2] at hallm
    dsimp only at hallm
    rw [List.all_eq_true] at hallm
    rcases Option.ne_none_iff_exists'.mp hs0f with ⟨st, hst⟩
    have hmemst : syncStateOf fs a.sizeBytes
        (⟨s0.id, s0.filePath, s0.mtimeNs, s0.needsVerify, s0.assetId,
          a.hash, a.sizeBytes⟩ : SyncRow) ∈
        ((get_cache_states_for_prefixes db pres false).filter
          (fun r => r.assetId = a.id)).map
            (syncStateOf fs a.sizeBytes) := by
      refine List.mem_map_of_mem _ ?_
      exact List.mem_filter.mpr ⟨hr0, by simp [hs0a]⟩
    have := hallm _ hmemst
    rw [@syncStateOf_exs_of_some _ a.sizeBytes _ _ hst] at this
    simp at this

/-- Witness for C5 (amended): a stub asset whose single active state is
gone from disk is deleted by the reconcile pass. -/
theorem sync_stub_asset_reconcile_witness :
    ((sync_cache_states_with_filesystem
        { DB.empty with
          assets := [⟨0, none, 5, none⟩],
          cacheStates := [⟨1, 0, "/r/a", some 1, false, false⟩],
          nextId := 2 } [] ["/r"] true true).1.assets.all
      (fun a2 => decide (a2.id ≠ 0))) = true := by
  refine List.all_eq_true.mpr ?_
  intro a2 ha2
  exact decide_eq_true (((sync_stub_asset_reconcile
      { DB.empty with
        assets := [⟨0, none, 5, none⟩],
        cacheStates := [⟨1, 0, "/r/a", some 1, false, false⟩],
        nextId := 2 } [] ["/r"] true true ⟨0, none, 5, none⟩
      (by decide) rfl (by decide)).1 (by decide)).1 a2 ha2)

/-- C5 counterexample.  The stub asset has a cache state under the root
whose file exists on disk, so by the claim — quantifying over all its
states under the prefixes — not every state fails to stat and the asset
must be kept.  But that state is flagged `is_missing` and the pass only
consults active states (its one active state is gone), so the asset is
deleted. -/
theorem sync_missing_state_ignored_counterexample :
    (∃ s ∈ ({ DB.empty with
        assets := [⟨0, none, 5, none⟩],
        cacheStates := [⟨1, 0, "/r/a", some 1, false, false⟩,
          ⟨2, 0, "/r/b", some 1, false, true⟩],
        nextId := 3 } : DB).cacheStates,
      s.assetId = 0 ∧ pathUnderAny ["/r"] s.filePath = true ∧
        fsStat [("/r/b", ⟨5, 1⟩)] s.filePath ≠ none) ∧
    (sync_cache_states_with_filesystem
      { DB.empty with
        assets := [⟨0, none, 5, none⟩],
        cacheStates := [⟨1, 0, "/r/a", some 1, false, false⟩,
          ⟨2, 0, "/r/b", some 1, false, true⟩],
        nextId := 3 } [("/r/b", ⟨5, 1⟩)] ["/r"] true true).1.assets =
      [] := by
  constructor
  · decide
  · decide

/-! ### FAST-scan lemmas (`seed_assets` and its stages) -/

theorem syncStateOf_sid (fs : List (String × FStat)) (sz : Nat)
    (r : SyncRow) : (syncStateOf fs sz r).sid = r.stateId := by
  unfold syncStateOf
  cases fsStat fs r.filePath <;> rfl

theorem syncStateOf_fp (fs : List (String × FStat)) (sz : Nat)
    (r : SyncRow) : (syncStateOf fs sz r).fp = r.filePath := by
  unfold syncStateOf
  cases fsStat fs r.filePath <;> rfl

theorem syncStateOf_exs_false {fs : List (String × FStat)} {sz : Nat}
    {r : SyncRow} (h : (syncStateOf fs sz r).exs = false) :
    fsStat fs r.filePath = none := by
  unfold syncStateOf at h
  cases hf : fsStat fs r.filePath with
  | none => rfl
  | some st =>
    rw [hf] at h
    simp at h

/-- Every state dict of every group comes from one of the rows. -/
theorem addRow_states_src (fs : List (String × FStat)) (r : SyncRow) :
    ∀ g : List (Nat × AssetAcc), ∀ e ∈ addRowToGroups fs r g,
      ∀ st ∈ e.2.states,
        (∃ e0 ∈ g, st ∈ e0.2.states) ∨ ∃ sz, st = syncStateOf fs sz r := by
  intro g
  induction g with
  | nil =>
    intro e he st hst
    unfold addRowToGroups at he
    simp only [List.mem_singleton] at he
    subst he
    simp only [List.mem_singleton] at hst
    exact Or.inr ⟨r.sizeBytes, hst⟩
  | cons e0 t ih =>
    rcases e0 with ⟨k0, acc0⟩
    intro e he st hst
    unfold addRowToGroups at he
    by_cases h0 : k0 = r.assetId
    · rw [if_pos h0] at he
      rcases List.mem_cons.mp he with h | h
      · subst h
        dsimp only at hst
        rcases List.mem_append.mp hst with h1 | h1
        · exact Or.inl ⟨(k0, acc0), by simp, h1⟩
        · simp only [List.mem_singleton] at h1
          exact Or.inr ⟨acc0.sizeDb, h1⟩
      · exact Or.inl ⟨e, List.mem_cons_of_mem _ h, hst⟩
    · rw [if_neg h0] at he
      rcases List.mem_cons.mp he with h | h
      · subst h
        exact Or.inl ⟨(k0, acc0), by simp, hst⟩
      · rcases ih e h st hst with ⟨e1, he1, hst1⟩ | h1
        · exact Or.inl ⟨e1, List.mem_cons_of_mem _ he1, hst1⟩
        · exact Or.inr h1

theorem groupFold_states_src (fs : List (String × FStat)) :
    ∀ (rows : List SyncRow) (g : List (Nat × AssetAcc)),
      ∀ e ∈ rows.foldl (fun g r => addRowToGroups fs r g) g,
        ∀ st ∈ e.2.states,
          (∃ e0 ∈ g, st ∈ e0.2.states) ∨
          ∃ r ∈ rows, ∃ sz, st = syncStateOf fs sz r := by
  intro rows
  induction rows with
  | nil =>
    intro g e he st hst
    exact Or.inl ⟨e, he, hst⟩
  | cons r rest ih =>
    intro g e he st hst
    simp only [List.foldl_cons] at he
    rcases ih _ e he st hst with ⟨e0, he0, hst0⟩ | ⟨r2, hr2, h2⟩
    · rcases addRow_states_src fs r g e0 he0 st hst0 with h | h
      · exact Or.inl h
      · rcases h with ⟨sz, hsz⟩
        exact Or.inr ⟨r, by simp, sz, hsz⟩
    · exact Or.inr ⟨r2, List.mem_cons_of_mem _ hr2, h2⟩

theorem groupByAsset_states_src (fs : List (String × FStat))
    (rows : List SyncRow) :
    ∀ e ∈ groupByAsset fs rows, ∀ st ∈ e.2.states,
      ∃ r ∈ rows, ∃ sz, st = syncStateOf fs sz r := by
  intro e he st hst
  rcases groupFold_states_src fs rows [] e he st hst with ⟨e0, he0, _⟩ | h
  · simp at he0
  · exact h

/-- Every group key is the asset id of one of the rows. -/
theorem addRow_keys_src (fs : List (String × FStat)) (r : SyncRow) :
    ∀ g : List (Nat × AssetAcc), ∀ e ∈ addRowToGroups fs r g,
      (∃ e0 ∈ g, e.1 = e0.1) ∨ e.1 = r.assetId := by
  intro g
  induction g with
  | nil =>
    intro e he
    unfold addRowToGroups at he
    simp only [List.mem_singleton] at he
    subst he
    exact Or.inr rfl
  | cons e0 t ih =>
    rcases e0 with ⟨k0, acc0⟩
    intro e he
    unfold addRowToGroups at he
    by_cases h0 : k0 = r.assetId
    · rw [if_pos h0] at he
      rcases List.mem_cons.mp he with h | h
      · subst h
        exact Or.inl ⟨(k0, acc0), by simp, rfl⟩
      · exact Or.inl ⟨e, List.mem_cons_of_mem _ h, rfl⟩
    · rw [if_neg h0] at he
      rcases List.mem_cons.mp he with h | h
      · subst h
        exact Or.inl ⟨(k0, acc0), by simp, rfl⟩
      · rcases ih e h with ⟨e1, he1, h1⟩ | h1
        · exact Or.inl ⟨e1, List.mem_cons_of_mem _ he1, h1⟩
        · exact Or.inr h1

theorem groupFold_keys_src (fs : List (String × FStat)) :
    ∀ (rows : List SyncRow) (g : List (Nat × AssetAcc)),
      ∀ e ∈ rows.foldl (fun g r => addRowToGroups fs r g) g,
        (∃ e0 ∈ g, e.1 = e0.1) ∨ ∃ r ∈ rows, e.1 = r.assetId := by
  intro rows
  induction rows with
  | nil =>
    intro g e he
    exact Or.inl ⟨e, he, rfl⟩
  | cons r rest ih =>
    intro g e he
    simp only [List.foldl_cons] at he
    rcases ih _ e he with ⟨e0, he0, h0⟩ | ⟨r2, hr2, h2⟩
    · rcases addRow_keys_src fs r g e0 he0 with ⟨e1, he1, h1⟩ | h1
      · exact Or.inl ⟨e1, he1, by rw [h0, h1]⟩
      · exact Or.inr ⟨r, by simp, by rw [h0, h1]⟩
    · exact Or.inr ⟨r2, List.mem_cons_of_mem _ hr2, h2⟩

theorem groupByAsset_keys_src (fs : List (String × FStat))
    (rows : List SyncRow) :
    ∀ e ∈ groupByAsset fs rows, ∃ r ∈ rows, e.1 = r.assetId := by
  intro e he
  rcases groupFold_keys_src fs rows [] e he with ⟨e0, he0, _⟩ | h
  · simp at he0
  · exact h

theorem delete_orphaned_cache_sub (db : DB) (k : Nat) :
    ∀ t ∈ (delete_orphaned_seed_asset db k).1.cacheStates,
      t ∈ db.cacheStates := by
  intro t ht
  unfold delete_orphaned_seed_asset at ht
  dsimp only at ht
  by_cases h : (db.assets.any (fun a => a.id = k)) = true
  · rw [if_pos h] at ht
    dsimp only at ht
    exact (List.mem_filter.mp ht).1
  · rw [if_neg h] at ht
    exact ht

theorem delete_orphaned_cache_keep (db : DB) (k : Nat) :
    ∀ s ∈ db.cacheStates, s.assetId ≠ k →
      s ∈ (delete_orphaned_seed_asset db k).1.cacheStates := by
  intro s hs hne
  unfold delete_orphaned_seed_asset
  dsimp only
  by_cases h : (db.assets.any (fun a => a.id = k)) = true
  · rw [if_pos h]
    dsimp only
    exact List.mem_filter.mpr ⟨hs, by simp [hne]⟩
  · rw [if_neg h]
    exact hs

theorem add_missing_tag_cache (db : DB) (k : Nat) (o : String) :
    (add_missing_tag_for_asset_id db k o).cacheStates =
      db.cacheStates := rfl

theorem remove_missing_tag_cache (db : DB) (k : Nat) :
    (remove_missing_tag_for_asset_id db k).cacheStates =
      db.cacheStates := rfl

theorem pg_cache_sub (umt : Bool) (ac : SyncAccum) (e : Nat × AssetAcc) :
    ∀ t ∈ (processAssetGroup umt ac e).db.cacheStates,
      t ∈ ac.db.cacheStates := by
  intro t ht
  unfold processAssetGroup at ht
  cases hh : e.2.hash with
  | none =>
    rw [hh] at ht
    dsimp only at ht
    by_cases hc : (e.2.states ≠ [] ∧
        (e.2.states.all fun s => !s.exs) = true)
    · rw [if_pos hc] at ht
      exact delete_orphaned_cache_sub ac.db e.1 t ht
    · rw [if_neg hc] at ht
      exact ht
  | some hv =>
    rw [hh] at ht
    dsimp only at ht
    by_cases hf : (e.2.states.any fun s => s.fastOk) = true
    · rw [if_pos hf] at ht
      by_cases hu : umt = true
      · rw [if_pos hu, remove_missing_tag_cache] at ht
        exact ht
      · rw [if_neg hu] at ht
        exact ht
    · rw [if_neg hf] at ht
      by_cases hu : umt = true
      · rw [if_pos hu, add_missing_tag_cache] at ht
        exact ht
      · rw [if_neg hu] at ht
        exact ht

theorem pg_cache_keep (umt : Bool) (ac : SyncAccum) (e : Nat × AssetAcc)
    (s : CState) (hs : s ∈ ac.db.cacheStates)
    (hsafe : e.1 = s.assetId → ¬ (e.2.hash = none ∧ e.2.states ≠ [] ∧
      (e.2.states.all fun st => !st.exs) = true)) :
    s ∈ (processAssetGroup umt ac e).db.cacheStates := by
  unfold processAssetGroup
  cases hh : e.2.hash with
  | none =>
    dsimp only
    by_cases hc : (e.2.states ≠ [] ∧
        (e.2.states.all fun st => !st.exs) = true)
    · rw [if_pos hc]
      refine delete_orphaned_cache_keep ac.db e.1 s hs ?_
      intro heq
      exact hsafe heq.symm ⟨hh, hc.1, hc.2⟩
    · rw [if_neg hc]
      exact hs
  | some hv =>
    dsimp only
    by_cases hf : (e.2.states.any fun st => st.fastOk) = true
    · rw [if_pos hf]
      by_cases hu : umt = true
      · rw [if_pos hu, remove_missing_tag_cache]
        exact hs
      · rw [if_neg hu]
        exact hs
    · rw [if_neg hf]
      by_cases hu : umt = true
      · rw [if_pos hu, add_missing_tag_cache]
        exact hs
      · rw [if_neg hu]
        exact hs

theorem foldl_pg_cache_sub (umt : Bool) :
    ∀ (es : List (Nat × AssetAcc)) (ac : SyncAccum),
      ∀ t ∈ (es.foldl (processAssetGroup umt) ac).db.cacheStates,
        t ∈ ac.db.cacheStates := by
  intro es
  induction es with
  | nil => intro ac t ht; exact ht
  | cons e t2 ih =>
    intro ac t ht
    simp only [List.foldl_cons] at ht
    exact pg_cache_sub umt ac e t (ih _ t ht)

theorem foldl_pg_cache_keep (umt : Bool) :
    ∀ (es : List (Nat × AssetAcc)) (ac : SyncAccum) (s : CState),
      s ∈ ac.db.cacheStates →
      (∀ e ∈ es, e.1 = s.assetId → ¬ (e.2.hash = none ∧
        e.2.states ≠ [] ∧ (e.2.states.all fun st => !st.exs) = true)) →
      s ∈ (es.foldl (processAssetGroup umt) ac).db.cacheStates := by
  intro es
  induction es with
  | nil => intro ac s hs _; exact hs
  | cons e t ih =>
    intro ac s hs hsafe
    simp only [List.foldl_cons]
    refine ih _ s ?_ (fun e2 he2 => hsafe e2 (List.mem_cons_of_mem _ he2))
    exact pg_cache_keep umt ac e s hs (hsafe e (by simp))

/-- The stale-id list collects only ids of states whose stat failed. -/
theorem pg_stale_src (umt : Bool) (ac : SyncAccum) (e : Nat × AssetAcc) :
    ∀ x ∈ (processAssetGroup umt ac e).stale,
      x ∈ ac.stale ∨ ∃ st ∈ e.2.states, st.exs = false ∧ x = st.sid := by
  intro x hx
  unfold processAssetGroup at hx
  cases hh : e.2.hash with
  | none =>
    rw [hh] at hx
    dsimp only at hx
    by_cases hc : (e.2.states ≠ [] ∧
        (e.2.states.all fun st => !st.exs) = true)
    · rw [if_pos hc] at hx
      exact Or.inl hx
    · rw [if_neg hc] at hx
      exact Or.inl hx
  | some hv =>
    rw [hh] at hx
    dsimp only at hx
    by_cases hf : (e.2.states.any fun st => st.fastOk) = true
    · rw [if_pos hf] at hx
      rcases List.mem_append.mp hx with h | h
      · exact Or.inl h
      · rcases List.mem_map.mp h with ⟨st, hst, heq⟩
        rcases List.mem_filter.mp hst with ⟨hst2, hex⟩
        refine Or.inr ⟨st, hst2, ?_, heq.symm⟩
        simp only [Bool.not_eq_true'] at hex
        exact hex
    · rw [if_neg hf] at hx
      exact Or.inl hx

theorem foldl_pg_stale_src (umt : Bool) :
    ∀ (es : List (Nat × AssetAcc)) (ac : SyncAccum),
      ∀ x ∈ (es.foldl (processAssetGroup umt) ac).stale,
        x ∈ ac.stale ∨ ∃ e ∈ es, ∃ st ∈ e.2.states,
          st.exs = false ∧ x = st.sid := by
  intro es
  induction es with
  | nil => intro ac x hx; exact Or.inl hx
  | cons e t ih =>
    intro ac x hx
    simp only [List.foldl_cons] at hx
    rcases ih _ x hx with h | ⟨e2, he2, h2⟩
    · rcases pg_stale_src umt ac e x h with h3 | ⟨st, hst, h3⟩
      · exact Or.inl h3
      · exact Or.inr ⟨e, by simp, st, hst, h3⟩
    · exact Or.inr ⟨e2, List.mem_cons_of_mem _ he2, h2⟩

/-- The survivor list collects only paths of states whose stat
succeeded. -/
theorem pg_survivors_src (umt : Bool) (ac : SyncAccum)
    (e : Nat × AssetAcc) :
    ∀ x ∈ (processAssetGroup umt ac e).survivors,
      x ∈ ac.survivors ∨ ∃ st ∈ e.2.states, x = st.fp := by
  intro x hx
  unfold processAssetGroup at hx
  cases hh : e.2.hash with
  | none =>
    rw [hh] at hx
    dsimp only at hx
    by_cases hc : (e.2.states ≠ [] ∧
        (e.2.states.all fun st => !st.exs) = true)
    · rw [if_pos hc] at hx
      exact Or.inl hx
    · rw [if_neg hc] at hx
      dsimp only at hx
      rcases List.mem_append.mp hx with h | h
      · exact Or.inl h
      · rcases List.mem_map.mp h with ⟨st, hst, heq⟩
        exact Or.inr ⟨st, (List.mem_filter.mp hst).1, heq.symm⟩
  | some hv =>
    rw [hh] at hx
    dsimp only at hx
    rcases List.mem_append.mp hx with h | h
    · exact Or.inl h
    · rcases List.mem_map.mp h with ⟨st, hst, heq⟩
      exact Or.inr ⟨st, (List.mem_filter.mp hst).1, heq.symm⟩

theorem foldl_pg_survivors_src (umt : Bool) :
    ∀ (es : List (Nat × AssetAcc)) (ac : SyncAccum),
      ∀ x ∈ (es.foldl (processAssetGroup umt) ac).survivors,
        x ∈ ac.survivors ∨ ∃ e ∈ es, ∃ st ∈ e.2.states, x = st.fp := by
  intro es
  induction es with
  | nil => intro ac x hx; exact Or.inl hx
  | cons e t ih =>
    intro ac x hx
    simp only [List.foldl_cons] at hx
    rcases ih _ x hx with h | ⟨e2, he2, h2⟩
    · rcases pg_survivors_src umt ac e x h with h3 | ⟨st, hst, h3⟩
      · exact Or.inl h3
      · exact Or.inr ⟨e, by simp, st, hst, h3⟩
    · exact Or.inr ⟨e2, List.mem_cons_of_mem _ he2, h2⟩

theorem bulk_set_needs_verify_mem (db : DB) (ids : List Nat) (v : Bool) :
    ∀ s ∈ db.cacheStates,
      ∃ t ∈ (bulk_set_needs_verify db ids v).cacheStates,
        t.id = s.id ∧ t.assetId = s.assetId ∧ t.filePath = s.filePath ∧
        t.mtimeNs = s.mtimeNs ∧ t.isMissing = s.isMissing := by
  intro s hs
  unfold bulk_set_needs_verify
  by_cases h : ids = []
  · rw [if_pos h]
    exact ⟨s, hs, rfl, rfl, rfl, rfl, rfl⟩
  · rw [if_neg h]
    dsimp only
    refine ⟨_, List.mem_map.mpr ⟨s, hs, rfl⟩, ?_⟩
    by_cases hid : s.id ∈ ids <;> simp [hid]

theorem bulk_set_needs_verify_src (db : DB) (ids : List Nat) (v : Bool) :
    ∀ t ∈ (bulk_set_needs_verify db ids v).cacheStates,
      ∃ s ∈ db.cacheStates,
        t.id = s.id ∧ t.assetId = s.assetId ∧ t.filePath = s.filePath ∧
        t.mtimeNs = s.mtimeNs ∧ t.isMissing = s.isMissing := by
  intro t ht
  unfold bulk_set_needs_verify at ht
  by_cases h : ids = []
  · rw [if_pos h] at ht
    exact ⟨t, ht, rfl, rfl, rfl, rfl, rfl⟩
  · rw [if_neg h] at ht
    dsimp only at ht
    rcases List.mem_map.mp ht with ⟨s, hs, heq⟩
    refine ⟨s, hs, ?_⟩
    rw [← heq]
    by_cases hid : s.id ∈ ids <;> simp [hid]

theorem delete_cache_states_by_ids_keep (db : DB) (ids : List Nat) :
    ∀ s ∈ db.cacheStates, s.id ∉ ids →
      s ∈ (delete_cache_states_by_ids db ids).cacheStates := by
  intro s hs hid
  unfold delete_cache_states_by_ids
  by_cases h : ids = []
  · rw [if_pos h]
    exact hs
  · rw [if_neg h]
    dsimp only
    exact List.mem_filter.mpr ⟨hs, by simp [hid]⟩

theorem delete_cache_states_by_ids_sub (db : DB) (ids : List Nat) :
    ∀ t ∈ (delete_cache_states_by_ids db ids).cacheStates,
      t ∈ db.cacheStates := by
  intro t ht
  unfold delete_cache_states_by_ids at ht
  by_cases h : ids = []
  · rw [if_pos h] at ht
    exact ht
  · rw [if_neg h] at ht
    dsimp only at ht
    exact (List.mem_filter.mp ht).1

theorem delete_orphaned_nextId (db : DB) (k : Nat) :
    (delete_orphaned_seed_asset db k).1.nextId = db.nextId := by
  unfold delete_orphaned_seed_asset
  dsimp only
  by_cases h : (db.assets.any (fun a => a.id = k)) = true
  · rw [if_pos h]
  · rw [if_neg h]

theorem pg_nextId (umt : Bool) (ac : SyncAccum) (e : Nat × AssetAcc) :
    (processAssetGroup umt ac e).db.nextId = ac.db.nextId := by
  unfold processAssetGroup
  cases hh : e.2.hash with
  | none =>
    dsimp only
    by_cases hc : (e.2.states ≠ [] ∧
        (e.2.states.all fun s => !s.exs) = true)
    · rw [if_pos hc]
      exact delete_orphaned_nextId ac.db e.1
    · rw [if_neg hc]
  | some hv =>
    dsimp only
    by_cases hf : (e.2.states.any fun s => s.fastOk) = true
    · rw [if_pos hf]
      by_cases hu : umt = true
      · rw [if_pos hu]
        rfl
      · rw [if_neg hu]
    · rw [if_neg hf]
      by_cases hu : umt = true
      · rw [if_pos hu]
        rfl
      · rw [if_neg hu]

theorem foldl_pg_nextId (umt : Bool) :
    ∀ (es : List (Nat × AssetAcc)) (ac : SyncAccum),
      (es.foldl (processAssetGroup umt) ac).db.nextId = ac.db.nextId := by
  intro es
  induction es with
  | nil => intro ac; rfl
  | cons e t ih =>
    intro ac
    simp only [List.foldl_cons]
    rw [ih, pg_nextId]

theorem delete_cache_states_by_ids_nextId (db : DB) (ids : List Nat) :
    (delete_cache_states_by_ids db ids).nextId = db.nextId := by
  unfold delete_cache_states_by_ids
  split <;> rfl

theorem bulk_set_needs_verify_nextId (db : DB) (ids : List Nat) (v : Bool) :
    (bulk_set_needs_verify db ids v).nextId = db.nextId := by
  unfold bulk_set_needs_verify
  split <;> rfl

theorem delete_cache_states_by_ids_tags (db : DB) (ids : List Nat) :
    (delete_cache_states_by_ids db ids).infoTags = db.infoTags := by
  unfold delete_cache_states_by_ids
  split <;> rfl

theorem bulk_set_needs_verify_tags (db : DB) (ids : List Nat) (v : Bool) :
    (bulk_set_needs_verify db ids v).infoTags = db.infoTags := by
  unfold bulk_set_needs_verify
  split <;> rfl

/-- The reconcile pass with nonempty prefixes, laid out as its
composition. -/
theorem sync_db_eq (db : DB) (fs : List (String × FStat))
    (pres : List String) (c umt : Bool) (hpres : pres ≠ []) :
    (sync_cache_states_with_filesystem db fs pres c umt).1 =
      bulk_set_needs_verify
        (bulk_set_needs_verify
          (delete_cache_states_by_ids
            ((groupByAsset fs
              (get_cache_states_for_prefixes db pres false)).foldl
                (processAssetGroup umt) ⟨db, [], [], [], []⟩).db
            ((groupByAsset fs
              (get_cache_states_for_prefixes db pres false)).foldl
                (processAssetGroup umt) ⟨db, [], [], [], []⟩).stale)
          ((groupByAsset fs
            (get_cache_states_for_prefixes db pres false)).foldl
              (processAssetGroup umt) ⟨db, [], [], [], []⟩).toSet true)
        ((groupByAsset fs
          (get_cache_states_for_prefixes db pres false)).foldl
            (processAssetGroup umt) ⟨db, [], [], [], []⟩).toClear
        false := by
  unfold sync_cache_states_with_filesystem
  rw [if_neg hpres]

/-- The surviving-path list the reconcile pass returns. -/
theorem sync_survivors_eq (db : DB) (fs : List (String × FStat))
    (pres : List String) (umt : Bool) (hpres : pres ≠ []) :
    (sync_cache_states_with_filesystem db fs pres true umt).2 =
      some ((groupByAsset fs
        (get_cache_states_for_prefixes db pres false)).foldl
          (processAssetGroup umt) ⟨db, [], [], [], []⟩).survivors := by
  unfold sync_cache_states_with_filesystem
  rw [if_neg hpres]
  rfl

theorem sync_nextId (db : DB) (fs : List (String × FStat))
    (pres : List String) (c umt : Bool) :
    (sync_cache_states_with_filesystem db fs pres c umt).1.nextId =
      db.nextId := by
  by_cases hpres : pres = []
  · unfold sync_cache_states_with_filesystem
    rw [if_pos hpres]
  · rw [sync_db_eq db fs pres c umt hpres]
    rw [bulk_set_needs_verify_nextId, bulk_set_needs_verify_nextId,
      delete_cache_states_by_ids_nextId, foldl_pg_nextId]

/-- Every cache state after the reconcile pass descends from a stored one
(same id, asset, path, mtime and missing flag). -/
theorem sync_cache_src (db : DB) (fs : List (String × FStat))
    (pres : List String) (c umt : Bool) :
    ∀ t ∈ (sync_cache_states_with_filesystem db fs pres c
      umt).1.cacheStates,
      ∃ s ∈ db.cacheStates, t.id = s.id ∧ t.assetId = s.assetId ∧
        t.filePath = s.filePath ∧ t.mtimeNs = s.mtimeNs ∧
        t.isMissing = s.isMissing := by
  intro t ht
  by_cases hpres : pres = []
  · unfold sync_cache_states_with_filesystem at ht
    rw [if_pos hpres] at ht
    exact ⟨t, ht, rfl, rfl, rfl, rfl, rfl⟩
  · rw [sync_db_eq db fs pres c umt hpres] at ht
    rcases bulk_set_needs_verify_src _ _ _ t ht with
      ⟨t2, ht2, e1, e2, e3, e4, e5⟩
    rcases bulk_set_needs_verify_src _ _ _ t2 ht2 with
      ⟨t1, ht1, f1, f2, f3, f4, f5⟩
    have ht0 := delete_cache_states_by_ids_sub _ _ t1 ht1
    have hdb := foldl_pg_cache_sub umt _ _ t1 ht0
    refine ⟨t1, hdb, ?_, ?_, ?_, ?_, ?_⟩
    · rw [e1, f1]
    · rw [e2, f2]
    · rw [e3, f3]
    · rw [e4, f4]
    · rw [e5, f5]

theorem sync_infos_sub (db : DB) (fs : List (String × FStat))
    (pres : List String) (c umt : Bool) :
    ∀ i ∈ (sync_cache_states_with_filesystem db fs pres c umt).1.infos,
      i ∈ db.infos := by
  intro i hi
  by_cases hpres : pres = []
  · unfold sync_cache_states_with_filesystem at hi
    rw [if_pos hpres] at hi
    exact hi
  · rw [sync_infos_eq db fs pres c umt hpres] at hi
    exact foldl_pg_infos_sub umt _ _ i hi

theorem sync_assets_sub (db : DB) (fs : List (String × FStat))
    (pres : List String) (c umt : Bool) :
    ∀ a ∈ (sync_cache_states_with_filesystem db fs pres c umt).1.assets,
      a ∈ db.assets := by
  intro a ha
  by_cases hpres : pres = []
  · unfold sync_cache_states_with_filesystem at ha
    rw [if_pos hpres] at ha
    exact ha
  · rw [sync_assets_eq db fs pres c umt hpres] at ha
    exact foldl_pg_assets_sub umt _ _ a ha

/-- Every path the reconcile pass reports as surviving is the path of a
stored cache state. -/
theorem sync_survivors_src (db : DB) (fs : List (String × FStat))
    (pres : List String) (umt : Bool) :
    ∀ x ∈ ((sync_cache_states_with_filesystem db fs pres true
        umt).2.getD []),
      ∃ s ∈ db.cacheStates, s.filePath = x := by
  intro x hx
  by_cases hpres : pres = []
  · unfold sync_cache_states_with_filesystem at hx
    rw [if_pos hpres] at hx
    simp at hx
  · rw [sync_survivors_eq db fs pres umt hpres] at hx
    simp only [Option.getD_some] at hx
    rcases foldl_pg_survivors_src umt _ _ x hx with h | ⟨e, he, st, hst, hfp⟩
    · simp at h
    · rcases groupByAsset_states_src fs _ e he st hst with ⟨r, hr, sz, hsr⟩
      rcases mem_syncRows_src db pres false r hr with
        ⟨s, hs, _hcond, a2, _hf, heq⟩
      refine ⟨s, hs, ?_⟩
      have h1 : st.fp = r.filePath := by rw [hsr]; exact syncStateOf_fp _ _ _
      have h2 : r.filePath = s.filePath := by rw [heq]
      rw [hfp, h1, h2]

/-- An active state under the prefixes whose stat succeeds survives the
reconcile pass with id, asset, path, mtime intact and stays active. -/
theorem sync_active_state_preserved (db : DB) (fs : List (String × FStat))
    (pres : List String) (c umt : Bool) (s : CState)
    (hndc : (db.cacheStates.map CState.id).Nodup)
    (hs : s ∈ db.cacheStates)
    (hsu : pathUnderAny pres s.filePath = true) (hsm : s.isMissing = false)
    (hsf : fsStat fs s.filePath ≠ none) :
    ∃ t ∈ (sync_cache_states_with_filesystem db fs pres c
      umt).1.cacheStates,
      t.id = s.id ∧ t.assetId = s.assetId ∧ t.filePath = s.filePath ∧
      t.mtimeNs = s.mtimeNs ∧ t.isMissing = false := by
  have hpres : pres ≠ [] := pathUnderAny_ne_nil hsu
  -- the joined row of s, for whichever asset the join finds
  have hsafe : ∀ e ∈ groupByAsset fs
      (get_cache_states_for_prefixes db pres false),
      e.1 = s.assetId → ¬ (e.2.hash = none ∧ e.2.states ≠ [] ∧
        (e.2.states.all fun st => !st.exs) = true) := by
    intro e he hek hcond
    cases hfa : db.assets.find? (fun x => x.id = s.assetId) with
    | none =>
      rcases groupByAsset_keys_src fs _ e he with ⟨r, hr, hkr⟩
      rcases mem_syncRows_src db pres false r hr with
        ⟨s2, _hs2, _hcond2, a2, hf2, heq2⟩
      have : s2.assetId = s.assetId := by
        have h1 : r.assetId = s2.assetId := by rw [heq2]
        rw [← h1, ← hkr, hek]
      rw [this] at hf2
      rw [hfa] at hf2
      exact absurd hf2 (by simp)
    | some a2 =>
      have hr0 : (⟨s.id, s.filePath, s.mtimeNs, s.needsVerify,
          s.assetId, a2.hash, a2.sizeBytes⟩ : SyncRow) ∈
          get_cache_states_for_prefixes db pres false :=
        mem_syncRows_intro db pres false s a2 hpres hs
          (by simp [hsu, hsm]) hfa
      have hcons := syncRows_consistent db pres false s.assetId a2 hfa
      have hfmem : (⟨s.id, s.filePath, s.mtimeNs, s.needsVerify,
          s.assetId, a2.hash, a2.sizeBytes⟩ : SyncRow) ∈
          (get_cache_states_for_prefixes db pres false).filter
            (fun r => r.assetId = s.assetId) :=
        List.mem_filter.mpr ⟨hr0, by simp⟩
      have hfne : ((get_cache_states_for_prefixes db pres false).filter
          (fun r => r.assetId = s.assetId)) ≠ [] :=
        List.ne_nil_of_mem hfmem
      have hgf := groupByAsset_find fs
        (get_cache_states_for_prefixes db pres false) s.assetId a2.hash
        a2.sizeBytes hcons
      rw [if_neg hfne] at hgf
      have hknd := groupByAsset_keys_nodup fs
        (get_cache_states_for_prefixes db pres false)
      have hgfe : groupFind (groupByAsset fs
          (get_cache_states_for_prefixes db pres false)) e.1 =
          some e.2 := groupFind_of_mem_nodup hknd (by
        rcases e with ⟨k, acc⟩
        exact he)
      rw [hek, hgf] at hgfe
      have he2 := (Option.some.inj hgfe).symm
      rcases hcond with ⟨_, _, hallm⟩
      rw [he2] at hallm
      dsimp only at hallm
      rw [List.all_eq_true] at hallm
      rcases Option.ne_none_iff_exists'.mp hsf with ⟨st0, hst0⟩
      have hmemst : syncStateOf fs a2.sizeBytes
          (⟨s.id, s.filePath, s.mtimeNs, s.needsVerify, s.assetId,
            a2.hash, a2.sizeBytes⟩ : SyncRow) ∈
          ((get_cache_states_for_prefixes db pres false).filter
            (fun r => r.assetId = s.assetId)).map
              (syncStateOf fs a2.sizeBytes) :=
        List.mem_map_of_mem _ hfmem
      have := hallm _ hmemst
      rw [@syncStateOf_exs_of_some _ a2.sizeBytes _ _ hst0] at this
      simp at this
  have hsF : s ∈ ((groupByAsset fs
      (get_cache_states_for_prefixes db pres false)).foldl
        (processAssetGroup umt) ⟨db, [], [], [], []⟩).db.cacheStates :=
    foldl_pg_cache_keep umt _ ⟨db, [], [], [], []⟩ s hs hsafe
  have hstale : s.id ∉ ((groupByAsset fs
      (get_cache_states_for_prefixes db pres false)).foldl
        (processAssetGroup umt) ⟨db, [], [], [], []⟩).stale := by
    intro hmem
    rcases foldl_pg_stale_src umt _ _ s.id hmem with h | ⟨e, he, st, hst, hex, hsid⟩
    · simp at h
    · rcases groupByAsset_states_src fs _ e he st hst with ⟨r, hr, sz, hsr⟩
      have hnone : fsStat fs r.filePath = none := by
        refine @syncStateOf_exs_false _ sz _ ?_
        rw [← hsr]
        exact hex
      have hrid : r.stateId = s.id := by
        rw [hsid, hsr]
        exact (syncStateOf_sid _ _ _).symm
      rcases mem_syncRows_src db pres false r hr with
        ⟨s2, hs2, _hcond2, a2, _hf2, heq2⟩
      have hs2id : s2.id = s.id := by
        have : r.stateId = s2.id := by rw [heq2]
        rw [← this, hrid]
      have hs2s : s2 = s :=
        List.inj_on_of_nodup_map hndc hs2 hs hs2id
      have hrp : r.filePath = s.filePath := by
        rw [heq2, hs2s]
      rw [hrp] at hnone
      exact hsf hnone
  rw [sync_db_eq db fs pres c umt hpres]
  have h1 : s ∈ (delete_cache_states_by_ids
      ((groupByAsset fs
        (get_cache_states_for_prefixes db pres false)).foldl
          (processAssetGroup umt) ⟨db, [], [], [], []⟩).db
      ((groupByAsset fs
        (get_cache_states_for_prefixes db pres false)).foldl
          (processAssetGroup umt) ⟨db, [], [], [], []⟩).stale).cacheStates :=
    delete_cache_states_by_ids_keep _ _ s hsF hstale
  rcases bulk_set_needs_verify_mem _ _ true s h1 with
    ⟨t2, ht2, e1, e2, e3, e4, e5⟩
  rcases bulk_set_needs_verify_mem _ _ false t2 ht2 with
    ⟨t, ht, f1, f2, f3, f4, f5⟩
  refine ⟨t, ht, ?_, ?_, ?_, ?_, ?_⟩
  · rw [f1, e1]
  · rw [f2, e2]
  · rw [f3, e3]
  · rw [f4, e4]
  · rw [f5, e5, hsm]

theorem delete_orphaned_tags_sub (db : DB) (k : Nat) :
    ∀ t ∈ (delete_orphaned_seed_asset db k).1.infoTags,
      t ∈ db.infoTags := by
  intro t ht
  unfold delete_orphaned_seed_asset at ht
  dsimp only at ht
  by_cases h : (db.assets.any (fun a => a.id = k)) = true
  · rw [if_pos h] at ht
    dsimp only at ht
    exact (List.mem_filter.mp ht).1
  · rw [if_neg h] at ht
    dsimp only at ht
    exact (List.mem_filter.mp ht).1

theorem remove_missing_tag_sub (db : DB) (k : Nat) :
    ∀ t ∈ (remove_missing_tag_for_asset_id db k).infoTags,
      t ∈ db.infoTags := by
  intro t ht
  unfold remove_missing_tag_for_asset_id at ht
  dsimp only at ht
  exact (List.mem_filter.mp ht).1

theorem add_missing_tag_src (db : DB) (k : Nat) (o : String) :
    ∀ t ∈ (add_missing_tag_for_asset_id db k o).infoTags,
      t ∈ db.infoTags ∨ ∃ i ∈ db.infos, t.infoId = i.id := by
  intro t ht
  unfold add_missing_tag_for_asset_id at ht
  dsimp only at ht
  rcases List.mem_append.mp ht with h | h
  · exact Or.inl h
  · rcases List.mem_map.mp h with ⟨i, hi, heq⟩
    refine Or.inr ⟨i, (List.mem_filter.mp hi).1, ?_⟩
    rw [← heq]

/-- The reconcile loop keeps every tag row's reference id among a bound
that also bounds all reference ids. -/
theorem pg_tags_bound (umt : Bool) (ac : SyncAccum) (e : Nat × AssetAcc)
    (nn : Nat) (h1 : ∀ t ∈ ac.db.infoTags, t.infoId < nn)
    (h2 : ∀ i ∈ ac.db.infos, i.id < nn) :
    (∀ t ∈ (processAssetGroup umt ac e).db.infoTags, t.infoId < nn) ∧
    (∀ i ∈ (processAssetGroup umt ac e).db.infos, i.id < nn) := by
  refine ⟨?_, fun i hi => h2 i (pg_infos_sub umt ac e i hi)⟩
  intro t ht
  unfold processAssetGroup at ht
  cases hh : e.2.hash with
  | none =>
    rw [hh] at ht
    dsimp only at ht
    by_cases hc : (e.2.states ≠ [] ∧
        (e.2.states.all fun s => !s.exs) = true)
    · rw [if_pos hc] at ht
      exact h1 t (delete_orphaned_tags_sub ac.db e.1 t ht)
    · rw [if_neg hc] at ht
      exact h1 t ht
  | some hv =>
    rw [hh] at ht
    dsimp only at ht
    by_cases hf : (e.2.states.any fun s => s.fastOk) = true
    · rw [if_pos hf] at ht
      by_cases hu : umt = true
      · rw [if_pos hu] at ht
        exact h1 t (remove_missing_tag_sub ac.db e.1 t ht)
      · rw [if_neg hu] at ht
        exact h1 t ht
    · rw [if_neg hf] at ht
      by_cases hu : umt = true
      · rw [if_pos hu] at ht
        rcases add_missing_tag_src ac.db e.1 "automatic" t ht with h | h
        · exact h1 t h
        · rcases h with ⟨i, hi, heq⟩
          rw [heq]
          exact h2 i hi
      · rw [if_neg hu] at ht
        exact h1 t ht

theorem foldl_pg_tags_bound (umt : Bool) (nn : Nat) :
    ∀ (es : List (Nat × AssetAcc)) (ac : SyncAccum),
      (∀ t ∈ ac.db.infoTags, t.infoId < nn) →
      (∀ i ∈ ac.db.infos, i.id < nn) →
      ∀ t ∈ (es.foldl (processAssetGroup umt) ac).db.infoTags,
        t.infoId < nn := by
  intro es
  induction es with
  | nil => intro ac h1 _ t ht; exact h1 t ht
  | cons e t2 ih =>
    intro ac h1 h2 t ht
    simp only [List.foldl_cons] at ht
    have hp := pg_tags_bound umt ac e nn h1 h2
    exact ih _ hp.1 hp.2 t ht

/-- Tag-row reference ids stay below any bound on the stored reference
ids across the reconcile pass. -/
theorem sync_tags_bound (db : DB) (fs : List (String × FStat))
    (pres : List String) (c umt : Bool) (nn : Nat)
    (h1 : ∀ t ∈ db.infoTags, t.infoId < nn)
    (h2 : ∀ i ∈ db.infos, i.id < nn) :
    ∀ t ∈ (sync_cache_states_with_filesystem db fs pres c
      umt).1.infoTags, t.infoId < nn := by
  intro t ht
  by_cases hpres : pres = []
  · unfold sync_cache_states_with_filesystem at ht
    rw [if_pos hpres] at ht
    exact h1 t ht
  · rw [sync_db_eq db fs pres c umt hpres] at ht
    rw [bulk_set_needs_verify_tags, bulk_set_needs_verify_tags,
      delete_cache_states_by_ids_tags] at ht
    exact foldl_pg_tags_bound umt nn _ ⟨db, [], [], [], []⟩ h1 h2 t ht

/-! ### Orphan pruning (`prune_orphaned_assets`) -/

theorem delete_assets_cache_sub (db : DB) (ids : List Nat) :
    ∀ t ∈ (delete_assets_by_ids db ids).cacheStates,
      t ∈ db.cacheStates := by
  intro t ht
  exact ((delete_assets_mem_cache db ids t).mp ht).1

theorem delete_assets_infos_sub (db : DB) (ids : List Nat) :
    ∀ i ∈ (delete_assets_by_ids db ids).infos, i ∈ db.infos := by
  intro i hi
  exact ((delete_assets_mem_infos db ids i).mp hi).1

theorem delete_assets_tags_sub (db : DB) (ids : List Nat) :
    ∀ t ∈ (delete_assets_by_ids db ids).infoTags, t ∈ db.infoTags := by
  intro t ht
  unfold delete_assets_by_ids at ht
  by_cases h : ids = []
  · rw [if_pos h] at ht
    exact ht
  · rw [if_neg h] at ht
    dsimp only at ht
    exact (List.mem_filter.mp ht).1

theorem delete_assets_nextId (db : DB) (ids : List Nat) :
    (delete_assets_by_ids db ids).nextId = db.nextId := by
  unfold delete_assets_by_ids
  split <;> rfl

/-- An active state under the valid prefixes survives the prune
untouched. -/
theorem prune_active_keep (db : DB) (pres : List String) (s : CState)
    (hs : s ∈ db.cacheStates)
    (hu : pathUnderAny pres s.filePath = true)
    (hm : s.isMissing = false) :
    s ∈ (prune_orphaned_assets db pres).1.cacheStates := by
  unfold prune_orphaned_assets
  dsimp only
  have hs1 : s ∈ (delete_cache_states_outside_prefixes db
      pres).cacheStates := by
    unfold delete_cache_states_outside_prefixes
    dsimp only
    exact List.mem_filter.mpr ⟨hs, by simp [hu]⟩
  refine (delete_assets_mem_cache _ _ s).mpr ⟨hs1, ?_⟩
  intro hmem
  unfold get_orphaned_seed_asset_ids at hmem
  rcases List.mem_map.mp hmem with ⟨a, hafil, haid⟩
  rcases List.mem_filter.mp hafil with ⟨_ha, hcond⟩
  simp only [decide_eq_true_eq] at hcond
  refine hcond.2 (List.any_eq_true.mpr ⟨s, hs1, ?_⟩)
  simp [haid, hm]

theorem prune_cache_sub (db : DB) (pres : List String) :
    ∀ t ∈ (prune_orphaned_assets db pres).1.cacheStates,
      t ∈ db.cacheStates := by
  intro t ht
  unfold prune_orphaned_assets at ht
  dsimp only at ht
  have h1 := delete_assets_cache_sub _ _ t ht
  unfold delete_cache_states_outside_prefixes at h1
  dsimp only at h1
  exact (List.mem_filter.mp h1).1

theorem prune_infos_sub (db : DB) (pres : List String) :
    ∀ i ∈ (prune_orphaned_assets db pres).1.infos, i ∈ db.infos := by
  intro i hi
  unfold prune_orphaned_assets at hi
  dsimp only at hi
  exact delete_assets_infos_sub
    (delete_cache_states_outside_prefixes db pres) _ i hi

theorem prune_tags_sub (db : DB) (pres : List String) :
    ∀ t ∈ (prune_orphaned_assets db pres).1.infoTags,
      t ∈ db.infoTags := by
  intro t ht
  unfold prune_orphaned_assets at ht
  dsimp only at ht
  exact delete_assets_tags_sub
    (delete_cache_states_outside_prefixes db pres) _ t ht

theorem prune_nextId (db : DB) (pres : List String) :
    (prune_orphaned_assets db pres).1.nextId = db.nextId := by
  unfold prune_orphaned_assets
  dsimp only
  rw [delete_assets_nextId]
  rfl

/-! ### Scanner batch (`_batch_insert_assets_from_paths`) lemmas -/

theorem seedPairs_id_inj {base : Nat} {specs : List SeedSpec} :
    ∀ w1 ∈ seedPairs base specs, ∀ w2 ∈ seedPairs base specs,
      w1.1 = w2.1 → w1 = w2 := by
  induction specs generalizing base with
  | nil => intro w1 hw1; simp [seedPairs] at hw1
  | cons sp rest ih =>
    intro w1 hw1 w2 hw2 hid
    rcases List.mem_cons.mp hw1 with h1 | h1 <;>
      rcases List.mem_cons.mp hw2 with h2 | h2
    · rw [h1, h2]
    · exfalso
      have hb := (seedPairs_mem_bound w2 h2).1
      rw [h1] at hid
      dsimp only at hid
      omega
    · exfalso
      have hb := (seedPairs_mem_bound w1 h1).1
      rw [h2] at hid
      dsimp only at hid
      omega
    · exact ih w1 h1 w2 h2 hid

theorem seedPairs_find_id {base : Nat} {specs : List SeedSpec}
    {w : Nat × SeedSpec} (hw : w ∈ seedPairs base specs) :
    (seedPairs base specs).find? (fun x => x.1 = w.1) = some w := by
  induction specs generalizing base with
  | nil => simp [seedPairs] at hw
  | cons sp rest ih =>
    rcases List.mem_cons.mp hw with h | h
    · subst h
      exact List.find?_cons_of_pos _ (by simp)
    · have hb := (seedPairs_mem_bound w h).1
      have hne : base ≠ w.1 := by omega
      unfold seedPairs
      rw [List.find?_cons_of_neg _ (by simp [hne])]
      exact ih h

theorem seedPairs_exists_of_mem {base : Nat} {specs : List SeedSpec}
    {sp : SeedSpec} (h : sp ∈ specs) :
    ∃ w ∈ seedPairs base specs, w.2 = sp := by
  induction specs generalizing base with
  | nil => simp at h
  | cons sp0 rest ih =>
    rcases List.mem_cons.mp h with h1 | h1
    · exact ⟨(base, sp0), by simp [seedPairs], h1.symm⟩
    · rcases @ih (base + 2) h1 with ⟨w, hw, hw2⟩
      exact ⟨w, List.mem_cons_of_mem _ hw, hw2⟩

theorem scanWinners_mem (db : DB) (specs : List SeedSpec) (p : String) :
    p ∈ scanWinners db specs ↔
      p ∈ (seedPathToAsset db specs).map Prod.fst ∧
      ∃ s ∈ (seedPhase2 db specs).cacheStates, s.filePath = p ∧
        s.assetId ∈ (seedPathToAsset db specs).map Prod.snd := by
  unfold scanWinners get_cache_states_by_paths_and_asset_ids
  rw [List.mem_filter]
  constructor
  · intro ⟨h1, h2⟩
    refine ⟨h1, ?_⟩
    simp only [List.any_eq_true, decide_eq_true_eq] at h2
    rcases h2 with ⟨s, hs, hsp, hsv⟩
    exact ⟨s, hs, hsp, hsv⟩
  · intro ⟨h1, s, hs, hsp, hsv⟩
    refine ⟨h1, ?_⟩
    simp only [List.any_eq_true, decide_eq_true_eq]
    exact ⟨s, hs, hsp, hsv⟩

theorem bii_cache (db : DB) (rows : List Info) :
    (bulk_insert_asset_infos_ignore_conflicts db rows).cacheStates =
      db.cacheStates := rfl

theorem bii_tags (db : DB) (rows : List Info) :
    (bulk_insert_asset_infos_ignore_conflicts db rows).infoTags =
      db.infoTags := rfl

theorem bitm_infos (db : DB) (tr : List TagRow) (mr : List MetaRow) :
    (bulk_insert_tags_and_meta db tr mr).infos = db.infos := rfl

theorem bitm_cache (db : DB) (tr : List TagRow) (mr : List MetaRow) :
    (bulk_insert_tags_and_meta db tr mr).cacheStates =
      db.cacheStates := rfl

theorem ensure_tags_cache (db : DB) (names : List String) (tt : String) :
    (ensure_tags_exist db names tt).cacheStates = db.cacheStates := rfl

theorem ensure_tags_infos (db : DB) (names : List String) (tt : String) :
    (ensure_tags_exist db names tt).infos = db.infos := rfl

theorem ensure_tags_tags (db : DB) (names : List String) (tt : String) :
    (ensure_tags_exist db names tt).infoTags = db.infoTags := rfl

theorem ensure_tags_nextId (db : DB) (names : List String) (tt : String) :
    (ensure_tags_exist db names tt).nextId = db.nextId := rfl

theorem ensure_tags_assets (db : DB) (names : List String) (tt : String) :
    (ensure_tags_exist db names tt).assets = db.assets := rfl

theorem scan_final_cache (db : DB) (specs : List SeedSpec)
    (ownerId : String) (h : specs ≠ []) :
    (_batch_insert_assets_from_paths db specs ownerId).1.cacheStates =
      (scanDb4 db specs).cacheStates := by
  unfold _batch_insert_assets_from_paths
  rw [if_neg h]
  by_cases hw : scanWinners db specs = []
  · rw [if_pos hw]
  · rw [if_neg hw]
    rfl

theorem scan_final_infos (db : DB) (specs : List SeedSpec)
    (ownerId : String) (h : specs ≠ [])
    (hw : scanWinners db specs ≠ []) :
    (_batch_insert_assets_from_paths db specs ownerId).1.infos =
      (scanDb5 db specs ownerId).infos := by
  unfold _batch_insert_assets_from_paths
  rw [if_neg h, if_neg hw]
  rfl

theorem scan_final_tags (db : DB) (specs : List SeedSpec)
    (ownerId : String) (h : specs ≠ [])
    (hw : scanWinners db specs ≠ []) :
    (_batch_insert_assets_from_paths db specs ownerId).1.infoTags =
      (scanDb6 db specs ownerId).infoTags := by
  unfold _batch_insert_assets_from_paths
  rw [if_neg h, if_neg hw]

/-- The conflict-ignoring cache insert keeps at most one row per path. -/
theorem bic_count_le_one :
    ∀ (rows : List CacheRowData) (db : DB) (p : String),
      db.cacheStates.countP (fun s => s.filePath = p) ≤ 1 →
      (bulk_insert_cache_states_ignore_conflicts
        db rows).cacheStates.countP (fun s => s.filePath = p) ≤ 1 := by
  intro rows
  induction rows with
  | nil => intro db p h; exact h
  | cons r rest ih =>
    intro db p h
    rw [bic_cons]
    by_cases hany : (db.cacheStates.any
        (fun s => s.filePath = r.filePath)) = true
    · rw [if_pos hany]
      exact ih db p h
    · rw [if_neg hany]
      refine ih _ p ?_
      dsimp only
      rw [List.countP_append]
      by_cases hrp : r.filePath = p
      · have hz : db.cacheStates.countP (fun s => s.filePath = p) = 0 := by
          rw [List.countP_eq_zero]
          intro s hs
          simp only [decide_eq_true_eq]
          intro hsp
          refine absurd hany ?_
          simp only [not_not]
          exact List.any_eq_true.mpr ⟨s, hs, by simp [hsp, hrp]⟩
        rw [hz]
        simp [hrp]
      · have : (([⟨db.nextId, r.assetId, r.filePath, some r.mtimeNs,
            false, false⟩] : List CState).countP
              (fun s => s.filePath = p)) = 0 := by
          rw [List.countP_eq_zero]
          intro s hs
          simp only [List.mem_singleton] at hs
          subst hs
          simp [hrp]
        rw [this]
        omega

theorem countP_eq_one_unique {α : Type} (q : α → Bool) :
    ∀ l : List α, l.countP q = 1 →
      ∀ a ∈ l, q a = true → ∀ b ∈ l, q b = true → a = b := by
  intro l
  induction l with
  | nil => intro _ a ha; simp at ha
  | cons x t ih =>
    intro h a ha hqa b hb hqb
    rw [List.countP_cons] at h
    by_cases hqx : q x = true
    · rw [if_pos hqx] at h
      have ht : t.countP q = 0 := by omega
      have hta : a ∉ t := by
        intro hmem
        have := List.countP_eq_zero.mp ht a hmem
        exact this hqa
      have htb : b ∉ t := by
        intro hmem
        have := List.countP_eq_zero.mp ht b hmem
        exact this hqb
      have hax : a = x := by
        rcases List.mem_cons.mp ha with h1 | h1
        · exact h1
        · exact absurd h1 hta
      have hbx : b = x := by
        rcases List.mem_cons.mp hb with h1 | h1
        · exact h1
        · exact absurd h1 htb
      rw [hax, hbx]
    · rw [if_neg hqx] at h
      simp only [add_zero] at h
      have hat : a ∈ t := by
        rcases List.mem_cons.mp ha with h1 | h1
        · exact absurd (h1 ▸ hqa) hqx
        · exact h1
      have hbt : b ∈ t := by
        rcases List.mem_cons.mp hb with h1 | h1
        · exact absurd (h1 ▸ hqb) hqx
        · exact h1
      exact ih h a hat hqa b hbt hqb

theorem biiFold_mem_preserve :
    ∀ (rows : List Info) (init : List Info) (x : Info), x ∈ init →
      x ∈ rows.foldl (fun acc r =>
        if acc.any (fun i => i.assetId = r.assetId ∧
            i.ownerId = r.ownerId ∧ i.name = r.name) then acc
        else acc ++ [r]) init := by
  intro rows
  induction rows with
  | nil => intro init x hx; exact hx
  | cons r rest ih =>
    intro init x hx
    simp only [List.foldl_cons]
    by_cases h : (init.any (fun i => i.assetId = r.assetId ∧
        i.ownerId = r.ownerId ∧ i.name = r.name)) = true
    · rw [if_pos h]
      exact ih init x hx
    · rw [if_neg h]
      exact ih _ x (List.mem_append.mpr (Or.inl hx))

theorem biiFold_src :
    ∀ (rows : List Info) (init : List Info) (x : Info),
      x ∈ rows.foldl (fun acc r =>
        if acc.any (fun i => i.assetId = r.assetId ∧
            i.ownerId = r.ownerId ∧ i.name = r.name) then acc
        else acc ++ [r]) init →
      x ∈ init ∨ x ∈ rows := by
  intro rows
  induction rows with
  | nil => intro init x hx; exact Or.inl hx
  | cons r rest ih =>
    intro init x hx
    simp only [List.foldl_cons] at hx
    by_cases h : (init.any (fun i => i.assetId = r.assetId ∧
        i.ownerId = r.ownerId ∧ i.name = r.name)) = true
    · rw [if_pos h] at hx
      rcases ih init x hx with h1 | h1
      · exact Or.inl h1
      · exact Or.inr (List.mem_cons_of_mem _ h1)
    · rw [if_neg h] at hx
      rcases ih _ x hx with h1 | h1
      · rcases List.mem_append.mp h1 with h2 | h2
        · exact Or.inl h2
        · simp only [List.mem_singleton] at h2
          exact Or.inr (h2 ▸ by simp)
      · exact Or.inr (List.mem_cons_of_mem _ h1)

theorem biiFold_insert :
    ∀ (rows : List Info) (init : List Info) (r0 : Info), r0 ∈ rows →
      (∀ i ∈ init, ¬ (i.assetId = r0.assetId ∧ i.ownerId = r0.ownerId ∧
        i.name = r0.name)) →
      (∀ r2 ∈ rows, r2.assetId = r0.assetId → r2 = r0) →
      r0 ∈ rows.foldl (fun acc r =>
        if acc.any (fun i => i.assetId = r.assetId ∧
            i.ownerId = r.ownerId ∧ i.name = r.name) then acc
        else acc ++ [r]) init := by
  intro rows
  induction rows with
  | nil => intro init r0 hr0; simp at hr0
  | cons r rest ih =>
    intro init r0 hr0 hinit huniq
    simp only [List.foldl_cons]
    by_cases hid : r.assetId = r0.assetId
    · have hrr : r = r0 := huniq r (by simp) hid
      subst hrr
      have hany : (init.any (fun i => i.assetId = r.assetId ∧
          i.ownerId = r.ownerId ∧ i.name = r.name)) = false := by
        rw [List.any_eq_false]
        intro i hi
        simp only [decide_eq_true_eq]
        exact hinit i hi
      rw [if_neg (by rw [hany]; simp)]
      exact biiFold_mem_preserve rest _ r
        (List.mem_append.mpr (Or.inr (by simp)))
    · have hr0rest : r0 ∈ rest := by
        rcases List.mem_cons.mp hr0 with h | h
        · subst h
          exact absurd rfl hid
        · exact h
      have huniq2 : ∀ r2 ∈ rest, r2.assetId = r0.assetId → r2 = r0 :=
        fun r2 h2 => huniq r2 (List.mem_cons_of_mem _ h2)
      by_cases h : (init.any (fun i => i.assetId = r.assetId ∧
          i.ownerId = r.ownerId ∧ i.name = r.name)) = true
      · rw [if_pos h]
        exact ih init r0 hr0rest hinit huniq2
      · rw [if_neg h]
        refine ih _ r0 hr0rest ?_ huniq2
        intro i hi
        rcases List.mem_append.mp hi with h1 | h1
        · exact hinit i h1
        · simp only [List.mem_singleton] at h1
          subst h1
          intro ⟨ha, _, _⟩
          exact hid ha

theorem tFold_mem_preserve :
    ∀ (rows : List TagRow) (init : List TagRow) (x : TagRow), x ∈ init →
      x ∈ rows.foldl (fun acc r =>
        if acc.any (fun t => t.infoId = r.infoId ∧
            t.tagName = r.tagName) then acc
        else acc ++ [r]) init := by
  intro rows
  induction rows with
  | nil => intro init x hx; exact hx
  | cons r rest ih =>
    intro init x hx
    simp only [List.foldl_cons]
    by_cases h : (init.any (fun t => t.infoId = r.infoId ∧
        t.tagName = r.tagName)) = true
    · rw [if_pos h]
      exact ih init x hx
    · rw [if_neg h]
      exact ih _ x (List.mem_append.mpr (Or.inl hx))

theorem tFold_insert :
    ∀ (rows : List TagRow) (init : List TagRow) (r0 : TagRow), r0 ∈ rows →
      (∀ t ∈ init, ¬ (t.infoId = r0.infoId ∧ t.tagName = r0.tagName)) →
      (∀ r2 ∈ rows, r2.infoId = r0.infoId → r2.tagName = r0.tagName →
        r2 = r0) →
      r0 ∈ rows.foldl (fun acc r =>
        if acc.any (fun t => t.infoId = r.infoId ∧
            t.tagName = r.tagName) then acc
        else acc ++ [r]) init := by
  intro rows
  induction rows with
  | nil => intro init r0 hr0; simp at hr0
  | cons r rest ih =>
    intro init r0 hr0 hinit huniq
    simp only [List.foldl_cons]
    by_cases hc : r.infoId = r0.infoId ∧ r.tagName = r0.tagName
    · have hrr : r = r0 := huniq r (by simp) hc.1 hc.2
      subst hrr
      have hany : (init.any (fun t => t.infoId = r.infoId ∧
          t.tagName = r.tagName)) = false := by
        rw [List.any_eq_false]
        intro t ht
        simp only [decide_eq_true_eq]
        exact hinit t ht
      rw [if_neg (by rw [hany]; simp)]
      exact tFold_mem_preserve rest _ r
        (List.mem_append.mpr (Or.inr (by simp)))
    · have hr0rest : r0 ∈ rest := by
        rcases List.mem_cons.mp hr0 with h | h
        · subst h
          exact absurd ⟨rfl, rfl⟩ hc
        · exact h
      have huniq2 : ∀ r2 ∈ rest, r2.infoId = r0.infoId →
          r2.tagName = r0.tagName → r2 = r0 :=
        fun r2 h2 => huniq r2 (List.mem_cons_of_mem _ h2)
      by_cases h : (init.any (fun t => t.infoId = r.infoId ∧
          t.tagName = r.tagName)) = true
      · rw [if_pos h]
        exact ih init r0 hr0rest hinit huniq2
      · rw [if_neg h]
        refine ih _ r0 hr0rest ?_ huniq2
        intro t ht
        rcases List.mem_append.mp ht with h1 | h1
        · exact hinit t h1
        · simp only [List.mem_singleton] at h1
          subst h1
          exact hc

theorem bic_infos :
    ∀ (rows : List CacheRowData) (db : DB),
      (bulk_insert_cache_states_ignore_conflicts db rows).infos =
        db.infos := by
  intro rows
  induction rows with
  | nil => intro db; rfl
  | cons r rest ih =>
    intro db
    rw [bic_cons]
    by_cases h : (db.cacheStates.any
        (fun s => s.filePath = r.filePath)) = true
    · rw [if_pos h]
      exact ih db
    · rw [if_neg h]
      rw [ih _]

theorem bic_infoTags :
    ∀ (rows : List CacheRowData) (db : DB),
      (bulk_insert_cache_states_ignore_conflicts db rows).infoTags =
        db.infoTags := by
  intro rows
  induction rows with
  | nil => intro db; rfl
  | cons r rest ih =>
    intro db
    rw [bic_cons]
    by_cases h : (db.cacheStates.any
        (fun s => s.filePath = r.filePath)) = true
    · rw [if_pos h]
      exact ih db
    · rw [if_neg h]
      rw [ih _]

theorem seedPhase2_infos (db : DB) (specs : List SeedSpec) :
    (seedPhase2 db specs).infos = db.infos := by
  rw [seedPhase2_def, bic_infos]

theorem seedPhase2_infoTags (db : DB) (specs : List SeedSpec) :
    (seedPhase2 db specs).infoTags = db.infoTags := by
  rw [seedPhase2_def, bic_infoTags]

theorem scanLosers_mem (db : DB) (specs : List SeedSpec) (p : String) :
    p ∈ scanLosers db specs ↔
      p ∈ (seedPathToAsset db specs).map Prod.fst ∧
      p ∉ scanWinners db specs := by
  unfold scanLosers
  rw [List.mem_filter]
  simp

theorem delete_assets_cache_sublist (db : DB) (ids : List Nat) :
    ((delete_assets_by_ids db ids).cacheStates).Sublist
      db.cacheStates := by
  unfold delete_assets_by_ids
  by_cases h : ids = []
  · rw [if_pos h]
  · rw [if_neg h]
    exact List.filter_sublist _

/-- The reference/spec pairs `_batch_insert_assets_from_paths` inserts all
come from the batch's pairs. -/
theorem scanWinnerRows_src (db : DB) (specs : List SeedSpec)
    (ownerId : String) :
    ∀ ir ∈ scanWinnerRows db specs ownerId,
      ∃ w ∈ seedPairs db.nextId specs,
        ir = (seedInfoFor ownerId w, w.2) := by
  intro ir hir
  unfold scanWinnerRows at hir
  rcases List.mem_filterMap.mp hir with ⟨p2, _hp2, hval⟩
  rcases Option.bind_eq_some.mp hval with ⟨aid, _hassoc, hmap⟩
  rcases Option.map_eq_some'.mp hmap with ⟨w, hfind, heq⟩
  exact ⟨w, List.mem_of_find?_eq_some hfind, heq.symm⟩

/-- A winner path's reference/spec pair is inserted. -/
theorem scanWinnerRows_mem_intro (db : DB) (specs : List SeedSpec)
    (ownerId p : String) (w : Nat × SeedSpec)
    (hnd : (specs.map (fun s => s.absPath)).Nodup)
    (hw : w ∈ seedPairs db.nextId specs) (hwp : w.2.absPath = p)
    (hwin : p ∈ scanWinners db specs) :
    (seedInfoFor ownerId w, w.2) ∈ scanWinnerRows db specs ownerId := by
  have hkeys0 : (seedPathToAsset db specs).map Prod.fst =
      specs.map (fun s => s.absPath) := by
    rw [seedPathToAsset_eq hnd, List.map_map]
    exact seedPairs_map_path _ _
  have hkeysnd : ((seedPathToAsset db specs).map Prod.fst).Nodup := by
    rw [hkeys0]
    exact hnd
  have hptamem : (p, w.1) ∈ seedPathToAsset db specs := by
    rw [seedPathToAsset_eq hnd]
    exact List.mem_map.mpr ⟨w, hw, by rw [hwp]⟩
  unfold scanWinnerRows
  refine List.mem_filterMap.mpr ⟨p, hwin, ?_⟩
  rw [assocLookup_nodup_of_mem hkeysnd hptamem]
  rw [Option.some_bind, seedPairs_find_id hw]
  rfl

theorem scanTagFold_mono (db : DB) (specs : List SeedSpec)
    (ownerId : String) :
    ∀ (l : List (Info × SeedSpec)) (acc : List TagRow) (x : TagRow),
      x ∈ acc →
      x ∈ l.foldl (fun acc wr =>
        if wr.1.id ∈ scanInsertedIds db specs ownerId then
          acc ++ wr.2.tags.map
            (fun t => (⟨wr.1.id, t, "automatic"⟩ : TagRow))
        else acc) acc := by
  intro l
  induction l with
  | nil => intro acc x hx; exact hx
  | cons wr rest ih =>
    intro acc x hx
    simp only [List.foldl_cons]
    by_cases h : wr.1.id ∈ scanInsertedIds db specs ownerId
    · rw [if_pos h]
      exact ih _ x (List.mem_append.mpr (Or.inl hx))
    · rw [if_neg h]
      exact ih _ x hx

theorem scanTagFold_intro (db : DB) (specs : List SeedSpec)
    (ownerId : String) :
    ∀ (l : List (Info × SeedSpec)) (acc : List TagRow)
      (wr : Info × SeedSpec), wr ∈ l →
      wr.1.id ∈ scanInsertedIds db specs ownerId →
      ∀ tg ∈ wr.2.tags,
        (⟨wr.1.id, tg, "automatic"⟩ : TagRow) ∈
          l.foldl (fun acc wr =>
            if wr.1.id ∈ scanInsertedIds db specs ownerId then
              acc ++ wr.2.tags.map
                (fun t => (⟨wr.1.id, t, "automatic"⟩ : TagRow))
            else acc) acc := by
  intro l
  induction l with
  | nil => intro acc wr hwr; simp at hwr
  | cons wr0 rest ih =>
    intro acc wr hwr hins tg htg
    simp only [List.foldl_cons]
    rcases List.mem_cons.mp hwr with h | h
    · subst h
      rw [if_pos hins]
      refine scanTagFold_mono db specs ownerId rest _ _ ?_
      exact List.mem_append.mpr (Or.inr (List.mem_map.mpr ⟨tg, htg, rfl⟩))
    · by_cases h0 : wr0.1.id ∈ scanInsertedIds db specs ownerId
      · rw [if_pos h0]
        exact ih _ wr h hins tg htg
      · rw [if_neg h0]
        exact ih _ wr h hins tg htg

theorem scanTagFold_src (db : DB) (specs : List SeedSpec)
    (ownerId : String) :
    ∀ (l : List (Info × SeedSpec)) (acc : List TagRow) (x : TagRow),
      x ∈ l.foldl (fun acc wr =>
        if wr.1.id ∈ scanInsertedIds db specs ownerId then
          acc ++ wr.2.tags.map
            (fun t => (⟨wr.1.id, t, "automatic"⟩ : TagRow))
        else acc) acc →
      x ∈ acc ∨ ∃ wr ∈ l, ∃ tg ∈ wr.2.tags,
        x = (⟨wr.1.id, tg, "automatic"⟩ : TagRow) := by
  intro l
  induction l with
  | nil => intro acc x hx; exact Or.inl hx
  | cons wr0 rest ih =>
    intro acc x hx
    simp only [List.foldl_cons] at hx
    by_cases h0 : wr0.1.id ∈ scanInsertedIds db specs ownerId
    · rw [if_pos h0] at hx
      rcases ih _ x hx with h | ⟨wr, hwr, tg, htg, heq⟩
      · rcases List.mem_append.mp h with h1 | h1
        · exact Or.inl h1
        · rcases List.mem_map.mp h1 with ⟨tg, htg, heq⟩
          exact Or.inr ⟨wr0, by simp, tg, htg, heq.symm⟩
      · exact Or.inr ⟨wr, List.mem_cons_of_mem _ hwr, tg, htg, heq⟩
    · rw [if_neg h0] at hx
      rcases ih _ x hx with h | ⟨wr, hwr, tg, htg, heq⟩
      · exact Or.inl h
      · exact Or.inr ⟨wr, List.mem_cons_of_mem _ hwr, tg, htg, heq⟩

theorem scanTagRows_mem_intro (db : DB) (specs : List SeedSpec)
    (ownerId : String) (wr : Info × SeedSpec)
    (hwr : wr ∈ scanWinnerRows db specs ownerId)
    (hins : wr.1.id ∈ scanInsertedIds db specs ownerId) :
    ∀ tg ∈ wr.2.tags,
      (⟨wr.1.id, tg, "automatic"⟩ : TagRow) ∈
        scanTagRows db specs ownerId := by
  intro tg htg
  unfold scanTagRows
  exact scanTagFold_intro db specs ownerId _ [] wr hwr hins tg htg

theorem scanTagRows_src (db : DB) (specs : List SeedSpec)
    (ownerId : String) :
    ∀ x ∈ scanTagRows db specs ownerId,
      ∃ wr ∈ scanWinnerRows db specs ownerId, ∃ tg ∈ wr.2.tags,
        x = (⟨wr.1.id, tg, "automatic"⟩ : TagRow) := by
  intro x hx
  unfold scanTagRows at hx
  rcases scanTagFold_src db specs ownerId _ [] x hx with h | h
  · simp at h
  · exact h

/-- A fresh, batch-unique path wins the scanner batch: exactly one active
cache-state row lands at the path carrying the batch-assigned asset id,
exactly one reference for that asset — the one derived from the spec — is
created, and each of the spec's tags is attached to it. -/
theorem scan_fresh_path_effects (db : DB) (specs : List SeedSpec)
    (ownerId p : String) (sp : SeedSpec)
    (hnd : (specs.map (fun s => s.absPath)).Nodup)
    (hsp : sp ∈ specs) (hspp : sp.absPath = p)
    (hnot : ¬ ∃ s ∈ db.cacheStates, s.filePath = p)
    (hfi : ∀ i ∈ db.infos, i.assetId < db.nextId)
    (hti : ∀ t ∈ db.infoTags, t.infoId < db.nextId) :
    ∃ w ∈ seedPairs db.nextId specs, w.2 = sp ∧
      (∃ t ∈ (_batch_insert_assets_from_paths db specs
          ownerId).1.cacheStates,
        t.filePath = p ∧ t.assetId = w.1 ∧ t.isMissing = false) ∧
      ((_batch_insert_assets_from_paths db specs
          ownerId).1.cacheStates.countP (fun t => t.filePath = p) = 1) ∧
      seedInfoFor ownerId w ∈
        (_batch_insert_assets_from_paths db specs ownerId).1.infos ∧
      (∀ i ∈ (_batch_insert_assets_from_paths db specs ownerId).1.infos,
        i.assetId = w.1 → i = seedInfoFor ownerId w) ∧
      (∀ tg ∈ w.2.tags,
        (⟨w.1 + 1, tg, "automatic"⟩ : TagRow) ∈
          (_batch_insert_assets_from_paths db specs
            ownerId).1.infoTags) := by
  rcases @seedPairs_exists_of_mem db.nextId _ _ hsp with ⟨w, hw, hw2⟩
  have hwp : w.2.absPath = p := by rw [hw2]; exact hspp
  have hwge : db.nextId ≤ w.1 := (seedPairs_mem_bound w hw).1
  have hspne : specs ≠ [] := by
    intro h
    rw [h] at hsp
    simp at hsp
  have hkeys0 : (seedPathToAsset db specs).map Prod.fst =
      specs.map (fun s => s.absPath) := by
    rw [seedPathToAsset_eq hnd, List.map_map]
    exact seedPairs_map_path _ _
  have hkeysnd : ((seedPathToAsset db specs).map Prod.fst).Nodup := by
    rw [hkeys0]
    exact hnd
  have hptamem : (p, w.1) ∈ seedPathToAsset db specs := by
    rw [seedPathToAsset_eq hnd]
    exact List.mem_map.mpr ⟨w, hw, by rw [hwp]⟩
  rcases seedPhase2_winner_insert db specs p w hnd hnot hw hwp with
    ⟨t2, ht2, htp, hta, _htm, htmiss⟩
  have hwinner : p ∈ scanWinners db specs := by
    refine (scanWinners_mem db specs p).mpr
      ⟨List.mem_map.mpr ⟨(p, w.1), hptamem, rfl⟩, t2, ht2, htp, ?_⟩
    rw [hta]
    exact List.mem_map.mpr ⟨(p, w.1), hptamem, rfl⟩
  have hwne : scanWinners db specs ≠ [] := List.ne_nil_of_mem hwinner
  have hlost_safe : w.1 ∉ scanLostIds db specs := by
    intro hmem
    unfold scanLostIds at hmem
    rcases List.mem_filterMap.mp hmem with ⟨p2, hp2, hassoc⟩
    have hpair := assocLookup_mem hassoc
    rw [seedPathToAsset_eq hnd] at hpair
    rcases List.mem_map.mp hpair with ⟨w2, hw2mem, heq2⟩
    have hw2id : w2.1 = w.1 := congrArg Prod.snd heq2
    have hw2w : w2 = w := seedPairs_id_inj w2 hw2mem w hw hw2id
    have hp2p : p2 = p := by
      have : w2.2.absPath = p2 := congrArg Prod.fst heq2
      rw [← this, hw2w, hwp]
    rw [hp2p] at hp2
    exact ((scanLosers_mem db specs p).mp hp2).2 hwinner
  -- (a) the row at p
  have hrow : t2 ∈ (_batch_insert_assets_from_paths db specs
      ownerId).1.cacheStates := by
    rw [scan_final_cache db specs ownerId hspne]
    unfold scanDb4
    refine (delete_assets_mem_cache _ _ t2).mpr ⟨ht2, ?_⟩
    rw [hta]
    exact hlost_safe
  -- (b) the count
  have hcount : (_batch_insert_assets_from_paths db specs
      ownerId).1.cacheStates.countP (fun t => t.filePath = p) = 1 := by
    have hz : db.cacheStates.countP (fun t => t.filePath = p) = 0 := by
      rw [List.countP_eq_zero]
      intro s hs
      simp only [decide_eq_true_eq]
      intro hsp2
      exact hnot ⟨s, hs, hsp2⟩
    have hle : (seedPhase2 db specs).cacheStates.countP
        (fun t => t.filePath = p) ≤ 1 := by
      rw [seedPhase2_def]
      refine bic_count_le_one _ _ p ?_
      dsimp only
      omega
    have hle2 : (_batch_insert_assets_from_paths db specs
        ownerId).1.cacheStates.countP (fun t => t.filePath = p) ≤ 1 := by
      rw [scan_final_cache db specs ownerId hspne]
      unfold scanDb4
      exact le_trans
        (List.Sublist.countP_le _ (delete_assets_cache_sublist _ _)) hle
    have hge : 0 < (_batch_insert_assets_from_paths db specs
        ownerId).1.cacheStates.countP (fun t => t.filePath = p) :=
      List.countP_pos_iff.mpr ⟨t2, hrow, by simp [htp]⟩
    omega
  -- (c) the reference row
  have hwrmem : (seedInfoFor ownerId w, w.2) ∈
      scanWinnerRows db specs ownerId :=
    scanWinnerRows_mem_intro db specs ownerId p w hnd hw hwp hwinner
  have hr0rows : seedInfoFor ownerId w ∈
      (scanWinnerRows db specs ownerId).map Prod.fst :=
    List.mem_map.mpr ⟨(seedInfoFor ownerId w, w.2), hwrmem, rfl⟩
  have hinitfree : ∀ i ∈ (scanDb4 db specs).infos,
      ¬ (i.assetId = (seedInfoFor ownerId w).assetId ∧
        i.ownerId = (seedInfoFor ownerId w).ownerId ∧
        i.name = (seedInfoFor ownerId w).name) := by
    intro i hi ⟨ha, _, _⟩
    unfold scanDb4 at hi
    have hi2 := delete_assets_infos_sub _ _ i hi
    rw [seedPhase2_infos] at hi2
    have := hfi i hi2
    have haw : (seedInfoFor ownerId w).assetId = w.1 := rfl
    rw [haw] at ha
    omega
  have huniqrows : ∀ r2 ∈ (scanWinnerRows db specs ownerId).map Prod.fst,
      r2.assetId = (seedInfoFor ownerId w).assetId →
      r2 = seedInfoFor ownerId w := by
    intro r2 hr2 hid
    rcases List.mem_map.mp hr2 with ⟨ir, hir, heq⟩
    rcases scanWinnerRows_src db specs ownerId ir hir with ⟨w3, hw3, heq3⟩
    have hr2f : r2 = seedInfoFor ownerId w3 := by
      rw [← heq, heq3]
    have hid3 : w3.1 = w.1 := by
      have h1 : (seedInfoFor ownerId w3).assetId = w3.1 := rfl
      have h2 : (seedInfoFor ownerId w).assetId = w.1 := rfl
      rw [hr2f, h1, h2] at hid
      exact hid
    have : w3 = w := seedPairs_id_inj w3 hw3 w hw hid3
    rw [hr2f, this]
  have hr0in5 : seedInfoFor ownerId w ∈ (scanDb5 db specs ownerId).infos := by
    unfold scanDb5 bulk_insert_asset_infos_ignore_conflicts
    dsimp only
    exact biiFold_insert _ _ _ hr0rows hinitfree huniqrows
  have hr0mem : seedInfoFor ownerId w ∈
      (_batch_insert_assets_from_paths db specs ownerId).1.infos := by
    rw [scan_final_infos db specs ownerId hspne hwne]
    exact hr0in5
  -- (d) uniqueness of the reference
  have huniq : ∀ i ∈ (_batch_insert_assets_from_paths db specs
      ownerId).1.infos, i.assetId = w.1 → i = seedInfoFor ownerId w := by
    intro i hi hia
    rw [scan_final_infos db specs ownerId hspne hwne] at hi
    unfold scanDb5 bulk_insert_asset_infos_ignore_conflicts at hi
    dsimp only at hi
    rcases biiFold_src _ _ i hi with h | h
    · exfalso
      unfold scanDb4 at h
      have hi2 := delete_assets_infos_sub _ _ i h
      rw [seedPhase2_infos] at hi2
      have := hfi i hi2
      omega
    · exact huniqrows i h hia
  -- (e) the tag rows
  have htags : ∀ tg ∈ w.2.tags,
      (⟨w.1 + 1, tg, "automatic"⟩ : TagRow) ∈
        (_batch_insert_assets_from_paths db specs ownerId).1.infoTags := by
    intro tg htg
    have hid0 : (seedInfoFor ownerId w).id = w.1 + 1 := rfl
    have hins : (seedInfoFor ownerId w).id ∈
        scanInsertedIds db specs ownerId := by
      unfold scanInsertedIds get_asset_info_ids_by_ids
      refine List.mem_filter.mpr ⟨?_, ?_⟩
      · exact List.mem_map.mpr ⟨(seedInfoFor ownerId w, w.2), hwrmem, rfl⟩
      · exact List.any_eq_true.mpr ⟨seedInfoFor ownerId w, hr0in5,
          by simp⟩
    have htagrow : (⟨(seedInfoFor ownerId w).id, tg, "automatic"⟩ :
        TagRow) ∈ scanTagRows db specs ownerId :=
      scanTagRows_mem_intro db specs ownerId
        (seedInfoFor ownerId w, w.2) hwrmem hins tg htg
    have hinitfree2 : ∀ t ∈ (scanDb5 db specs ownerId).infoTags,
        ¬ (t.infoId = w.1 + 1 ∧ t.tagName = tg) := by
      intro t ht ⟨h1, _⟩
      have ht4 : t ∈ (scanDb4 db specs).infoTags := by
        rw [← bii_tags (scanDb4 db specs)
          ((scanWinnerRows db specs ownerId).map Prod.fst)]
        exact ht
      unfold scanDb4 at ht4
      have ht5 := delete_assets_tags_sub _ _ t ht4
      rw [seedPhase2_infoTags] at ht5
      have := hti t ht5
      omega
    have huniqt : ∀ r2 ∈ scanTagRows db specs ownerId,
        r2.infoId = w.1 + 1 → r2.tagName = tg →
        r2 = (⟨w.1 + 1, tg, "automatic"⟩ : TagRow) := by
      intro r2 hr2 hid2 htg2
      rcases scanTagRows_src db specs ownerId r2 hr2 with
        ⟨wr, _hwr, tg2, _htg2m, heq2⟩
      subst heq2
      dsimp only at hid2 htg2
      rw [hid2, htg2]
    rw [scan_final_tags db specs ownerId hspne hwne]
    unfold scanDb6 bulk_insert_tags_and_meta
    dsimp only
    rw [hid0] at htagrow
    exact tFold_insert _ _ _ htagrow hinitfree2 huniqt
  exact ⟨w, hw, hw2, ⟨t2, hrow, htp, hta, htmiss⟩, hcount, hr0mem,
    huniq, htags⟩

theorem scanLostIds_ge (db : DB) (specs : List SeedSpec) :
    ∀ v ∈ scanLostIds db specs, db.nextId ≤ v := by
  intro v hv
  unfold scanLostIds at hv
  rcases List.mem_filterMap.mp hv with ⟨p, _hp, hassoc⟩
  exact seedPathToAsset_value_ge db specs _ (assocLookup_mem hassoc)

theorem filterMap_id_sub {α : Type} (f : α → Option α)
    (hf : ∀ a, f a = none ∨ f a = some a) :
    ∀ l : List α, (l.filterMap f).Sublist l := by
  intro l
  induction l with
  | nil => simp
  | cons a t ih =>
    rcases hf a with h | h
    · rw [List.filterMap_cons_none h]
      exact ih.cons a
    · rw [List.filterMap_cons_some h]
      exact ih.cons₂ a

/-- The specs `_build_asset_specs` emits, in walk order. -/
theorem build_specs_fold (env : ScanEnv) (fs : List (String × FStat))
    (ex : List String) :
    ∀ (paths : List String) (acc : List SeedSpec × List String × Nat),
      (paths.foldl (fun acc p =>
        if p ∈ ex then (acc.1, acc.2.1, acc.2.2 + 1)
        else match fsStat fs p with
          | none => acc
          | some st =>
            if st.stSize = 0 then acc
            else
              (acc.1 ++ [⟨p, st.stSize, st.stMtimeNs, (env.nameTags p).1,
                  (env.nameTags p).2, (env.relFname p).getD "", none,
                  none⟩],
                acc.2.1 ++ (env.nameTags p).2, acc.2.2)) acc).1 =
      acc.1 ++ paths.filterMap (fun p =>
        if p ∈ ex then none
        else match fsStat fs p with
          | none => none
          | some st =>
            if st.stSize = 0 then none
            else some ⟨p, st.stSize, st.stMtimeNs, (env.nameTags p).1,
              (env.nameTags p).2, (env.relFname p).getD "", none,
              none⟩) := by
  intro paths
  induction paths with
  | nil => intro acc; simp
  | cons p rest ih =>
    intro acc
    simp only [List.foldl_cons]
    by_cases hex : p ∈ ex
    · rw [List.filterMap_cons_none (by simp [hex])]
      rw [if_pos hex]
      exact ih _
    · cases hfs : fsStat fs p with
      | none =>
        rw [List.filterMap_cons_none (by simp [hex, hfs])]
        rw [if_neg hex]
        dsimp only
        exact ih acc
      | some st =>
        by_cases hsz : st.stSize = 0
        · rw [List.filterMap_cons_none (by simp [hex, hfs, hsz])]
          rw [if_neg hex]
          dsimp only
          rw [if_pos hsz]
          exact ih acc
        · rw [if_neg hex]
          dsimp only
          rw [if_neg hsz, ih _, List.filterMap_cons]
          simp [hex, hfs, hsz, List.append_assoc]

theorem build_specs_fst (env : ScanEnv) (fs : List (String × FStat))
    (paths ex : List String) :
    (_build_asset_specs env fs paths ex).1 =
      paths.filterMap (fun p =>
        if p ∈ ex then none
        else match fsStat fs p with
          | none => none
          | some st =>
            if st.stSize = 0 then none
            else some ⟨p, st.stSize, st.stMtimeNs, (env.nameTags p).1,
              (env.nameTags p).2, (env.relFname p).getD "", none,
              none⟩) := by
  unfold _build_asset_specs
  rw [build_specs_fold]
  simp

/-- With pairwise-distinct walked paths the spec paths are
pairwise-distinct. -/
theorem build_specs_nodup (env : ScanEnv) (fs : List (String × FStat))
    (paths ex : List String) (hnd : paths.Nodup) :
    (((_build_asset_specs env fs paths ex).1).map
      (fun s => s.absPath)).Nodup := by
  rw [build_specs_fst, List.map_filterMap]
  refine List.Nodup.sublist (filterMap_id_sub _ ?_ paths) hnd
  intro p
  by_cases hex : p ∈ ex
  · left
    simp [hex]
  · cases hfs : fsStat fs p with
    | none => left; simp [hex, hfs]
    | some st =>
      by_cases hsz : st.stSize = 0
      · left
        simp [hex, hfs, hsz]
      · right
        simp [hex, hfs, hsz]

/-- An unknown, stat-able, nonempty walked path gets a spec. -/
theorem build_specs_mem (env : ScanEnv) (fs : List (String × FStat))
    (paths ex : List String) (p : String) (st : FStat)
    (hp : p ∈ paths) (hex : p ∉ ex) (hst : fsStat fs p = some st)
    (hsz : st.stSize ≠ 0) :
    (⟨p, st.stSize, st.stMtimeNs, (env.nameTags p).1, (env.nameTags p).2,
      (env.relFname p).getD "", none, none⟩ : SeedSpec) ∈
      (_build_asset_specs env fs paths ex).1 := by
  rw [build_specs_fst]
  refine List.mem_filterMap.mpr ⟨p, hp, ?_⟩
  simp [hex, hst, hsz]

theorem insert_specs_db_eq (db : DB) (specs : List SeedSpec)
    (tagPool : List String) (h : specs ≠ []) :
    (_insert_asset_specs db specs tagPool).1 =
      (_batch_insert_assets_from_paths
        (if tagPool ≠ [] then ensure_tags_exist db tagPool "user" else db)
        specs "").1 := by
  unfold _insert_asset_specs
  rw [if_neg h]

theorem pre_batch_cache (db : DB) (pool : List String) :
    (if pool ≠ [] then ensure_tags_exist db pool "user"
     else db).cacheStates = db.cacheStates := by
  split <;> rfl

theorem pre_batch_infos (db : DB) (pool : List String) :
    (if pool ≠ [] then ensure_tags_exist db pool "user"
     else db).infos = db.infos := by
  split <;> rfl

theorem pre_batch_tags (db : DB) (pool : List String) :
    (if pool ≠ [] then ensure_tags_exist db pool "user"
     else db).infoTags = db.infoTags := by
  split <;> rfl

theorem pre_batch_nextId (db : DB) (pool : List String) :
    (if pool ≠ [] then ensure_tags_exist db pool "user"
     else db).nextId = db.nextId := by
  split <;> rfl

/-- `seed_assets` on a single root is the sync/prune/build/insert
chain. -/
theorem seed_assets_single (env : ScanEnv) (db : DB)
    (fs : List (String × FStat)) (pres walk : List String) :
    (seed_assets env db fs [⟨pres, walk⟩]).1 =
      (_insert_asset_specs
        (prune_orphaned_assets
          (sync_cache_states_with_filesystem db fs pres true true).1
          pres).1
        (_build_asset_specs env fs walk
          ((sync_cache_states_with_filesystem db fs pres true
            true).2.getD [])).1
        (_build_asset_specs env fs walk
          ((sync_cache_states_with_filesystem db fs pres true
            true).2.getD [])).2.1).1 := rfl

theorem insert_specs_nil (db : DB) (tagPool : List String) :
    (_insert_asset_specs db [] tagPool).1 = db := rfl

/-- A stored state with a pre-batch asset id survives
`_insert_asset_specs`. -/
theorem insert_specs_active_keep (db : DB) (specs : List SeedSpec)
    (tagPool : List String) (t1 : CState)
    (ht1 : t1 ∈ db.cacheStates) (hlt : t1.assetId < db.nextId) :
    t1 ∈ (_insert_asset_specs db specs tagPool).1.cacheStates := by
  by_cases hspecs : specs = []
  · rw [hspecs, insert_specs_nil]
    exact ht1
  · rw [insert_specs_db_eq _ _ _ hspecs]
    set dbp := (if tagPool ≠ [] then ensure_tags_exist db tagPool "user"
      else db) with hdbp
    have hc : t1 ∈ dbp.cacheStates := by
      rw [hdbp, pre_batch_cache]
      exact ht1
    have hn : dbp.nextId = db.nextId := by
      rw [hdbp, pre_batch_nextId]
    have hph2 := seedPhase2_cache_preserve dbp specs t1 hc
    rw [scan_final_cache _ _ _ hspecs]
    unfold scanDb4
    refine (delete_assets_mem_cache _ _ t1).mpr ⟨hph2, ?_⟩
    intro hmem
    have := scanLostIds_ge dbp specs _ hmem
    rw [hn] at this
    omega

/-- `scan_fresh_path_effects` lifted through `_insert_asset_specs`. -/
theorem insert_specs_fresh_path (db : DB) (specs : List SeedSpec)
    (tagPool : List String) (p : String) (sp : SeedSpec)
    (hnd : (specs.map (fun s => s.absPath)).Nodup)
    (hsp : sp ∈ specs) (hspp : sp.absPath = p)
    (hnot : ¬ ∃ s ∈ db.cacheStates, s.filePath = p)
    (hfi : ∀ i ∈ db.infos, i.assetId < db.nextId)
    (hti : ∀ t ∈ db.infoTags, t.infoId < db.nextId) :
    ∃ w ∈ seedPairs db.nextId specs, w.2 = sp ∧
      (∃ t ∈ (_insert_asset_specs db specs tagPool).1.cacheStates,
        t.filePath = p ∧ t.assetId = w.1 ∧ t.isMissing = false) ∧
      ((_insert_asset_specs db specs
          tagPool).1.cacheStates.countP (fun t => t.filePath = p) = 1) ∧
      seedInfoFor "" w ∈ (_insert_asset_specs db specs tagPool).1.infos ∧
      (∀ i ∈ (_insert_asset_specs db specs tagPool).1.infos,
        i.assetId = w.1 → i = seedInfoFor "" w) ∧
      (∀ tg ∈ w.2.tags,
        (⟨w.1 + 1, tg, "automatic"⟩ : TagRow) ∈
          (_insert_asset_specs db specs tagPool).1.infoTags) := by
  have hspecs : specs ≠ [] := by
    intro h
    rw [h] at hsp
    simp at hsp
  rw [insert_specs_db_eq _ _ _ hspecs]
  set dbp := (if tagPool ≠ [] then ensure_tags_exist db tagPool "user"
    else db) with hdbp
  have hn : dbp.nextId = db.nextId := by
    rw [hdbp, pre_batch_nextId]
  have hnot2 : ¬ ∃ s ∈ dbp.cacheStates, s.filePath = p := by
    intro ⟨s, hs, hsp2⟩
    rw [hdbp, pre_batch_cache] at hs
    exact hnot ⟨s, hs, hsp2⟩
  have hfi2 : ∀ i ∈ dbp.infos, i.assetId < dbp.nextId := by
    intro i hi
    rw [hdbp, pre_batch_infos] at hi
    rw [hn]
    exact hfi i hi
  have hti2 : ∀ t ∈ dbp.infoTags, t.infoId < dbp.nextId := by
    intro t ht
    rw [hdbp, pre_batch_tags] at ht
    rw [hn]
    exact hti t ht
  rcases scan_fresh_path_effects dbp specs "" p sp hnd hsp hspp hnot2
    hfi2 hti2 with ⟨w, hw, hw2, hrow, hcount, hr0, huniq, htags⟩
  rw [hn] at hw
  exact ⟨w, hw, hw2, hrow, hcount, hr0, huniq, htags⟩

/-- C3 (amended).  After a FAST scan of a single root — assuming no state
under the root is already flagged missing and the stored ids are fresh —
every walked path that stats to a nonzero size ends the scan with an
active cache state; and a walked path NEW to the store (no cache-state
row at it) ends with exactly one cache-state row, carrying a fresh asset
id, exactly one reference for that asset named from the path, and a tag
row for each of its name-derived tags.  The claimed set equality fails in
the other direction: active rows whose files are gone can remain (see the
counterexample). -/
theorem seed_assets_fast_scan (env : ScanEnv) (db : DB)
    (fs : List (String × FStat)) (pres walk : List String)
    (hwnd : walk.Nodup)
    (hact : ∀ s ∈ db.cacheStates, pathUnderAny pres s.filePath = true →
      s.isMissing = false)
    (hndc : (db.cacheStates.map CState.id).Nodup)
    (hfc : ∀ s ∈ db.cacheStates, s.assetId < db.nextId)
    (hfi : ∀ i ∈ db.infos, i.assetId < db.nextId)
    (hii : ∀ i ∈ db.infos, i.id < db.nextId)
    (hti : ∀ t ∈ db.infoTags, t.infoId < db.nextId)
    (p : String) (hp : p ∈ walk) (hpu : pathUnderAny pres p = true)
    (st : FStat) (hst : fsStat fs p = some st) (hsz : st.stSize ≠ 0) :
    (∃ t ∈ (seed_assets env db fs [⟨pres, walk⟩]).1.cacheStates,
      t.filePath = p ∧ t.isMissing = false) ∧
    ((¬ ∃ s ∈ db.cacheStates, s.filePath = p) →
      ∃ t ∈ (seed_assets env db fs [⟨pres, walk⟩]).1.cacheStates,
        t.filePath = p ∧ t.isMissing = false ∧ db.nextId ≤ t.assetId ∧
        ((seed_assets env db fs [⟨pres, walk⟩]).1.cacheStates.countP
          (fun t2 => t2.filePath = p) = 1) ∧
        (∃ i ∈ (seed_assets env db fs [⟨pres, walk⟩]).1.infos,
          i.assetId = t.assetId ∧ i.ownerId = "" ∧
          i.name = (env.nameTags p).1 ∧
          (∀ i2 ∈ (seed_assets env db fs [⟨pres, walk⟩]).1.infos,
            i2.assetId = t.assetId → i2 = i) ∧
          (∀ tg ∈ (env.nameTags p).2,
            ∃ tr ∈ (seed_assets env db fs [⟨pres, walk⟩]).1.infoTags,
              tr.infoId = i.id ∧ tr.tagName = tg ∧
              tr.origin = "automatic"))) := by
  rw [seed_assets_single]
  by_cases hrow : ∃ s ∈ db.cacheStates, s.filePath = p
  · -- the path is already stored; its (necessarily active) row survives
    rcases hrow with ⟨s0, hs0, hs0p⟩
    have hs0u : pathUnderAny pres s0.filePath = true := by
      rw [hs0p]
      exact hpu
    have hs0m : s0.isMissing = false := hact s0 hs0 hs0u
    have hs0f : fsStat fs s0.filePath ≠ none := by
      rw [hs0p, hst]
      simp
    rcases sync_active_state_preserved db fs pres true true s0 hndc hs0
      hs0u hs0m hs0f with ⟨t1, ht1, _hid1, haid1, hfp1, _hmt1, hmiss1⟩
    have hfp1p : t1.filePath = p := by rw [hfp1, hs0p]
    have ht2 : t1 ∈ (prune_orphaned_assets
        (sync_cache_states_with_filesystem db fs pres true true).1
        pres).1.cacheStates :=
      prune_active_keep _ pres t1 ht1 (by rw [hfp1p]; exact hpu) hmiss1
    have hlt : t1.assetId < (prune_orphaned_assets
        (sync_cache_states_with_filesystem db fs pres true true).1
        pres).1.nextId := by
      rw [prune_nextId, sync_nextId, haid1]
      exact hfc s0 hs0
    have hkeep := insert_specs_active_keep _
      ((_build_asset_specs env fs walk
        ((sync_cache_states_with_filesystem db fs pres true
          true).2.getD [])).1)
      ((_build_asset_specs env fs walk
        ((sync_cache_states_with_filesystem db fs pres true
          true).2.getD [])).2.1) t1 ht2 hlt
    exact ⟨⟨t1, hkeep, hfp1p, hmiss1⟩,
      fun hn => absurd ⟨s0, hs0, hs0p⟩ hn⟩
  · -- the path is new: it gets a spec and wins the batch
    have hsurv : p ∉ ((sync_cache_states_with_filesystem db fs pres true
        true).2.getD []) := by
      intro hmem
      rcases sync_survivors_src db fs pres true p hmem with ⟨s, hs, hsp⟩
      exact hrow ⟨s, hs, hsp⟩
    have hspec := build_specs_mem env fs walk
      ((sync_cache_states_with_filesystem db fs pres true true).2.getD [])
      p st hp hsurv hst hsz
    have hnd := build_specs_nodup env fs walk
      ((sync_cache_states_with_filesystem db fs pres true true).2.getD [])
      hwnd
    have hnot2 : ¬ ∃ s ∈ (prune_orphaned_assets
        (sync_cache_states_with_filesystem db fs pres true true).1
        pres).1.cacheStates, s.filePath = p := by
      intro ⟨s, hs, hsp⟩
      have hs1 := prune_cache_sub _ _ s hs
      rcases sync_cache_src db fs pres true true s hs1 with
        ⟨s2, hs2, _, _, hfp, _, _⟩
      exact hrow ⟨s2, hs2, by rw [← hfp]; exact hsp⟩
    have hnid2 : (prune_orphaned_assets
        (sync_cache_states_with_filesystem db fs pres true true).1
        pres).1.nextId = db.nextId := by
      rw [prune_nextId, sync_nextId]
    have hfi2 : ∀ i ∈ (prune_orphaned_assets
        (sync_cache_states_with_filesystem db fs pres true true).1
        pres).1.infos, i.assetId < (prune_orphaned_assets
          (sync_cache_states_with_filesystem db fs pres true true).1
          pres).1.nextId := by
      intro i hi
      rw [hnid2]
      exact hfi i (sync_infos_sub db fs pres true true i
        (prune_infos_sub _ _ i hi))
    have hti2 : ∀ t ∈ (prune_orphaned_assets
        (sync_cache_states_with_filesystem db fs pres true true).1
        pres).1.infoTags, t.infoId < (prune_orphaned_assets
          (sync_cache_states_with_filesystem db fs pres true true).1
          pres).1.nextId := by
      intro t ht
      rw [hnid2]
      exact sync_tags_bound db fs pres true true db.nextId hti hii t
        (prune_tags_sub _ _ t ht)
    rcases insert_specs_fresh_path _
      ((_build_asset_specs env fs walk
        ((sync_cache_states_with_filesystem db fs pres true
          true).2.getD [])).1)
      ((_build_asset_specs env fs walk
        ((sync_cache_states_with_filesystem db fs pres true
          true).2.getD [])).2.1)
      p _ hnd hspec rfl hnot2 hfi2 hti2 with
      ⟨w, hw, hw2, ⟨t, htmem, htp, hta, htmiss⟩, hcount, hr0, huniq,
        htags⟩
    have hge : db.nextId ≤ w.1 := by
      rw [← hnid2]
      exact (seedPairs_mem_bound w hw).1
    refine ⟨⟨t, htmem, htp, htmiss⟩, fun _ => ?_⟩
    refine ⟨t, htmem, htp, htmiss, by rw [hta]; exact hge, hcount,
      seedInfoFor "" w, hr0, by rw [hta]; rfl, rfl, ?_, ?_, ?_⟩
    · show (seedInfoFor "" w).name = (env.nameTags p).1
      have h1 : (seedInfoFor "" w).name = w.2.infoName := rfl
      rw [h1, hw2]
    · intro i2 hi2 hia
      refine huniq i2 hi2 ?_
      rw [← hta]
      exact hia
    · intro tg htg
      have htg2 : tg ∈ w.2.tags := by
        rw [hw2]
        exact htg
      exact ⟨⟨w.1 + 1, tg, "automatic"⟩, htags tg htg2, rfl, rfl, rfl⟩

theorem seed_assets_fast_scan_witness :
    ∃ t ∈ (seed_assets envC3w DB.empty [("/r/x", ⟨5, 7⟩)]
        [⟨["/r"], ["/r/x"]⟩]).1.cacheStates,
      t.filePath = "/r/x" ∧ t.isMissing = false ∧
      DB.empty.nextId ≤ t.assetId ∧
      ((seed_assets envC3w DB.empty [("/r/x", ⟨5, 7⟩)]
        [⟨["/r"], ["/r/x"]⟩]).1.cacheStates.countP
          (fun t2 => t2.filePath = "/r/x") = 1) ∧
      (∃ i ∈ (seed_assets envC3w DB.empty [("/r/x", ⟨5, 7⟩)]
          [⟨["/r"], ["/r/x"]⟩]).1.infos,
        i.assetId = t.assetId ∧ i.ownerId = "" ∧
        i.name = (envC3w.nameTags "/r/x").1 ∧
        (∀ i2 ∈ (seed_assets envC3w DB.empty [("/r/x", ⟨5, 7⟩)]
            [⟨["/r"], ["/r/x"]⟩]).1.infos,
          i2.assetId = t.assetId → i2 = i) ∧
        (∀ tg ∈ (envC3w.nameTags "/r/x").2,
          ∃ tr ∈ (seed_assets envC3w DB.empty [("/r/x", ⟨5, 7⟩)]
              [⟨["/r"], ["/r/x"]⟩]).1.infoTags,
            tr.infoId = i.id ∧ tr.tagName = tg ∧
            tr.origin = "automatic")) :=
  (seed_assets_fast_scan envC3w DB.empty [("/r/x", ⟨5, 7⟩)] ["/r"]
    ["/r/x"] (by decide) (fun s hs _ => absurd hs (List.not_mem_nil s))
    (by decide) (fun s hs => absurd hs (List.not_mem_nil s))
    (fun i hi => absurd hi (List.not_mem_nil i))
    (fun i hi => absurd hi (List.not_mem_nil i))
    (fun t ht => absurd ht (List.not_mem_nil t))
    "/r/x" (by decide) (by decide) ⟨5, 7⟩ rfl (by decide)).2
    (fun h => h.elim (fun s hs => absurd hs.1 (List.not_mem_nil s)))

/-- After a FAST scan the active cache states under the roots need NOT
equal the paths present on disk — the claimed set equality fails in both
directions.  Store-to-disk: a hashed asset's state whose file is gone
stays active (the reconcile pass flags it with a `missing` tag but never
sets `is_missing`).  Disk-to-store: a walked path that exists on disk
with nonzero size but whose stored row is flagged `is_missing` ends the
scan with no active row at all — the reconcile pass skips missing rows,
the batch's conflict-ignoring insert loses to the old row, and the batch
twin has no restore step. -/
theorem seed_assets_active_set_counterexample :
    (∃ t ∈ (seed_assets envC3w
        { DB.empty with
          assets := [⟨0, some "blake3:aa", 5, none⟩],
          cacheStates := [⟨1, 0, "/r/a", some 1, false, false⟩],
          nextId := 2 } [] [⟨["/r"], []⟩]).1.cacheStates,
      pathUnderAny ["/r"] t.filePath = true ∧ t.isMissing = false ∧
      fsStat [] t.filePath = none) ∧
    (fsStat [("/r/x", ⟨5, 7⟩)] "/r/x" = some ⟨5, 7⟩ ∧
      pathUnderAny ["/r"] "/r/x" = true ∧
      ((seed_assets envC3w
        { DB.empty with
          assets := [⟨0, some "blake3:aa", 5, none⟩],
          cacheStates := [⟨1, 0, "/r/x", some 7, false, true⟩],
          nextId := 2 } [("/r/x", ⟨5, 7⟩)]
        [⟨["/r"], ["/r/x"]⟩]).1.cacheStates.all
          (fun t => !(t.filePath == "/r/x") || t.isMissing)) = true) := by
  exact ⟨by decide, by decide, by decide, by decide⟩

end Assets
